import Mathlib

/-!
teditor: row store, coordinate mapper and edit engine

A shallow embedding of `src/teditor.c` (structures from `src/teditor.h`).

Conventions of the embedding

* C `int` values (`cx`, `cy`, `at`, `dirty`, offsets) are `Int`; arithmetic is
  unbounded, the range of a 32-bit `int` is not modelled.  For the counter
  `dirty` the range is made explicit: the field `dirty` of the embedding is the
  count that `E.dirty++` reaches without overflow, and `stored_dirty` is the
  value the 32-bit variable holds for it (`int_wrap`, reduction modulo `2^32`),
  which is what the compiled program computes at `INT_MAX`.
* A C buffer together with its length field is a list: `(chars, size)` of an
  `erow` is `chars : List Nat` (byte values, the terminating NUL not stored) and
  `size` is its length; `(E.editor_row, E.numrows)` is `editor_row : List erow`
  and `numrows` is its length.  `rsize` stays a field of its own: it is the
  counter `idx` that `editor_update_row` stores.
* A pointer `&E.editor_row[i]` is the index `i`.
* Functions return `Option`; `none` stands for behaviour that C leaves
  undefined (an access outside an array) or for a loop that ran out of fuel.
* Fields of `struct erow` / `struct editor_config` that the modelled functions
  never read (`idx`, `hl`, `filename`, `statusmsg`, ...) are left out.
-/

namespace Teditor

/-- The constant `TEDITOR_TAB_STOP`. -/
def TEDITOR_TAB_STOP : Int := 8

/-- The C remainder operator on `int` (truncating division). -/
def c_rem (a b : Int) : Int := Int.tmod a b

/-- The byte `'\t'`. -/
def TAB : Nat := 9

/-- The byte `' '`. -/
def SPACE : Nat := 32

/-- The `struct erow` of teditor.h: `chars` are the `size` bytes of the line,
`render` the bytes written by `editor_update_row`, `rsize` the stored count. -/
structure erow where
  chars : List Nat
  render : List Nat
  rsize : Int
deriving DecidableEq, Repr

/-- The field `size` of a row: the number of bytes of `chars`. -/
def erow.size (row : erow) : Int := (row.chars.length : Int)

/-- The `struct editor_config` of teditor.h, restricted to the fields the
editing core reads or writes. -/
structure editor_config where
  cx : Int
  cy : Int
  rx : Int
  rowoff : Int
  coloff : Int
  row : Int
  col : Int
  editor_row : List erow
  dirty : Int
deriving DecidableEq, Repr

/-- The field `numrows`: the number of rows of the document. -/
def editor_config.numrows (E : editor_config) : Int := (E.editor_row.length : Int)

/-- Read of `E.editor_row[i]`: defined only for `0 <= i < numrows`. -/
def row_at (rows : List erow) (i : Int) : Option erow :=
  if i < 0 then none else rows[i.toNat]?

/-- Write of `E.editor_row[i]` (used after a successful `row_at`). -/
def set_row (rows : List erow) (i : Int) (row : erow) : List erow :=
  rows.set i.toNat row

/-- Read of `row->chars[i]`: the byte at `i < size`, the terminating NUL at
`i = size`, undefined beyond. -/
def char_at (chars : List Nat) (i : Nat) : Option Nat :=
  if i < chars.length then chars[i]? else if i = chars.length then some 0 else none

/-- The inner loop `while (idx % TEDITOR_TAB_STOP != 0) render[idx++] = ' ';`
of `editor_update_row`, with fuel. -/
def tab_fill : Nat → List Nat → Int → Option (List Nat × Int)
  | 0, _, _ => none
  | fuel + 1, render, idx =>
    if c_rem idx TEDITOR_TAB_STOP ≠ 0 then tab_fill fuel (render ++ [SPACE]) (idx + 1)
    else some (render, idx)

/-- The second `for` loop of `editor_update_row` over the bytes of `chars`
still to be read; `render` holds the `idx` bytes written so far. -/
def update_row_loop : List Nat → List Nat → Int → Option (List Nat × Int)
  | [], render, idx => some (render, idx)
  | c :: cs, render, idx =>
    if c = TAB then
      match tab_fill TEDITOR_TAB_STOP.toNat (render ++ [SPACE]) (idx + 1) with
      | none => none
      | some (render1, idx1) => update_row_loop cs render1 idx1
    else update_row_loop cs (render ++ [c]) (idx + 1)

/-- The function `editor_update_row`: rebuilds `render` and `rsize` from `chars`.
The first loop only counts the tabs to size the allocation and is left out. -/
def editor_update_row (row : erow) : Option erow :=
  match update_row_loop row.chars [] 0 with
  | none => none
  | some (render, idx) => some { row with render := render, rsize := idx }

/-- The loop of `editor_row_cx_to_rx`: `n` iterations remain, `i` is the loop
index, `rx` the accumulator. -/
def cx_to_rx_loop (chars : List Nat) : Nat → Nat → Int → Option Int
  | 0, _, rx => some rx
  | n + 1, i, rx =>
    match char_at chars i with
    | none => none
    | some c =>
      let rx1 := if c = TAB then rx + ((TEDITOR_TAB_STOP - 1) - c_rem rx TEDITOR_TAB_STOP) else rx
      cx_to_rx_loop chars n (i + 1) (rx1 + 1)

/-- The function `editor_row_cx_to_rx`. -/
def editor_row_cx_to_rx (row : erow) (cx : Int) : Option Int :=
  cx_to_rx_loop row.chars cx.toNat 0 0

/-- The loop of `editor_row_rx_to_cx` over the bytes still to be read; `i` is
the loop index and `cur_rx` the accumulator. -/
def rx_to_cx_loop (rx : Int) : List Nat → Int → Int → Int
  | [], i, _ => i
  | c :: cs, i, cur_rx =>
    let cur1 := if c = TAB then cur_rx + ((TEDITOR_TAB_STOP - 1) - c_rem cur_rx TEDITOR_TAB_STOP)
                else cur_rx
    let cur2 := cur1 + 1
    if cur2 > rx then i else rx_to_cx_loop rx cs (i + 1) cur2

/-- The function `editor_row_rx_to_cx`. -/
def editor_row_rx_to_cx (row : erow) (rx : Int) : Int :=
  rx_to_cx_loop rx row.chars 0 0

/-- The function `editor_insert_row`; `s` is the pair `(s, len)`. -/
def editor_insert_row (E : editor_config) (at_ : Int) (s : List Nat) : Option editor_config :=
  if at_ < 0 ∨ at_ > E.numrows then some E
  else
    match editor_update_row { chars := s, render := [], rsize := 0 } with
    | none => none
    | some row =>
      some { E with
        editor_row := E.editor_row.take at_.toNat ++ row :: E.editor_row.drop at_.toNat,
        dirty := E.dirty + 1 }

/-- The function `editor_row_insert_char` on the row `&E.editor_row[ri]`; the
stored byte is `c` converted to `char`. -/
def editor_row_insert_char (E : editor_config) (ri : Int) (at_ : Int) (c : Int) :
    Option editor_config :=
  match row_at E.editor_row ri with
  | none => none
  | some row =>
    let at1 := if at_ < 0 ∨ at_ > row.size then row.size else at_
    let chars1 := row.chars.take at1.toNat ++ (c % 256).toNat :: row.chars.drop at1.toNat
    match editor_update_row { row with chars := chars1 } with
    | none => none
    | some row1 =>
      some { E with editor_row := set_row E.editor_row ri row1, dirty := E.dirty + 1 }

/-- The function `editor_row_del_char` on the row `&E.editor_row[ri]`. -/
def editor_row_del_char (E : editor_config) (ri : Int) (at_ : Int) : Option editor_config :=
  match row_at E.editor_row ri with
  | none => none
  | some row =>
    if at_ < 0 ∨ at_ ≥ row.size then some E
    else
      let chars1 := row.chars.take at_.toNat ++ row.chars.drop (at_.toNat + 1)
      match editor_update_row { row with chars := chars1 } with
      | none => none
      | some row1 =>
        some { E with editor_row := set_row E.editor_row ri row1, dirty := E.dirty + 1 }

/-- The function `editor_del_row` (freeing the row has no effect on the model). -/
def editor_del_row (E : editor_config) (at_ : Int) : editor_config :=
  if at_ < 0 ∨ at_ ≥ E.numrows then E
  else
    { E with
      editor_row := E.editor_row.take at_.toNat ++ E.editor_row.drop (at_.toNat + 1),
      dirty := E.dirty + 1 }

/-- The function `editor_row_append_string` on the row `&E.editor_row[ri]`;
`s` is the pair `(s, len)`. -/
def editor_row_append_string (E : editor_config) (ri : Int) (s : List Nat) :
    Option editor_config :=
  match row_at E.editor_row ri with
  | none => none
  | some row =>
    match editor_update_row { row with chars := row.chars ++ s } with
    | none => none
    | some row1 =>
      some { E with editor_row := set_row E.editor_row ri row1, dirty := E.dirty + 1 }

/-- The function `editor_insert_char`. -/
def editor_insert_char (E : editor_config) (c : Int) : Option editor_config :=
  match (if E.cy = E.numrows then editor_insert_row E E.numrows [] else some E) with
  | none => none
  | some E1 =>
    match editor_row_insert_char E1 E1.cy E1.cx c with
    | none => none
    | some E2 => some { E2 with cx := E2.cx + 1 }

/-- The function `editor_del_char`. -/
def editor_del_char (E : editor_config) : Option editor_config :=
  if E.cy = E.numrows then some E
  else if E.cx = 0 ∧ E.cy = 0 then some E
  else
    match row_at E.editor_row E.cy with
    | none => none
    | some row =>
      if E.cx > 0 then
        match editor_row_del_char E E.cy (E.cx - 1) with
        | none => none
        | some E1 => some { E1 with cx := E1.cx - 1 }
      else
        match row_at E.editor_row (E.cy - 1) with
        | none => none
        | some prev =>
          let E1 := { E with cx := prev.size }
          match editor_row_append_string E1 (E1.cy - 1) row.chars with
          | none => none
          | some E2 =>
            let E3 := editor_del_row E2 E2.cy
            some { E3 with cy := E3.cy - 1 }

/-- The function `editor_insert_newline`.  In the split branch the tail
`(&row->chars[E.cx], row->size - E.cx)` is defined only for `0 <= cx <= size`. -/
def editor_insert_newline (E : editor_config) : Option editor_config :=
  match
    (if E.cx = 0 then editor_insert_row E E.cy []
     else
      match row_at E.editor_row E.cy with
      | none => none
      | some row =>
        if E.cx < 0 ∨ E.cx > row.size then none
        else
          match editor_insert_row E (E.cy + 1) (row.chars.drop E.cx.toNat) with
          | none => none
          | some E1 =>
            match row_at E1.editor_row E1.cy with
            | none => none
            | some row1 =>
              match editor_update_row { row1 with chars := row1.chars.take E1.cx.toNat } with
              | none => none
              | some row2 => some { E1 with editor_row := set_row E1.editor_row E1.cy row2 }) with
  | none => none
  | some E2 => some { E2 with cy := E2.cy + 1, cx := 0 }

/-- Iteration of `editor_del_char`: `n` presses of backspace. -/
def del_char_iter : Nat → editor_config → Option editor_config
  | 0, E => some E
  | n + 1, E =>
    match editor_del_char E with
    | none => none
    | some E1 => del_char_iter n E1

/-- The first loop of `editor_rows_to_string`: `totlen += size + 1` per row. -/
def rows_to_string_len : List erow → Int → Int
  | [], totlen => totlen
  | r :: rs, totlen => rows_to_string_len rs (totlen + (r.size + 1))

/-- The second loop of `editor_rows_to_string`: `buf` holds the bytes written
before `p`; each row is copied with `memcpy` and followed by `'\n'`. -/
def rows_to_string_copy : List erow → List Nat → List Nat
  | [], buf => buf
  | r :: rs, buf => rows_to_string_copy rs ((buf ++ r.chars) ++ [10])

/-- The function `editor_rows_to_string`: the buffer and the length stored in `*buflen`. -/
def editor_rows_to_string (E : editor_config) : List Nat × Int :=
  (rows_to_string_copy E.editor_row [], rows_to_string_len E.editor_row 0)

/-! ### Keys, cursor movement and scrolling -/

/-- The key code `BACKSPACE` of `enum editor_key`. -/
def BACKSPACE : Int := 127

/-- The key code `ARROW_LEFT`. -/
def ARROW_LEFT : Int := 1000

/-- The key code `ARROW_RIGHT`. -/
def ARROW_RIGHT : Int := 1001

/-- The key code `ARROW_UP`. -/
def ARROW_UP : Int := 1002

/-- The key code `ARROW_DOWN`. -/
def ARROW_DOWN : Int := 1003

/-- The key code `DEL_KEY`. -/
def DEL_KEY : Int := 1004

/-- The key code `HOME_KEY`. -/
def HOME_KEY : Int := 1005

/-- The key code `END_KEY`. -/
def END_KEY : Int := 1006

/-- The macro `CTRL_KEY(k)`, that is `(k) & 0x1f`. -/
def CTRL_KEY (k : Nat) : Int := ((k &&& 0x1f : Nat) : Int)

/-- The byte `'\r'` (Enter). -/
def KEY_ENTER : Int := 13

/-- The byte `'\x1b'` (Escape). -/
def KEY_ESC : Int := 27

/-- The function `init_editor`; `wrow` and `wcol` are what `get_window_size` stores
into `E.row` and `E.col`. -/
def init_editor (wrow wcol : Int) : editor_config :=
  { cx := 0, cy := 0, rx := 0, rowoff := 0, coloff := 0, row := wrow - 2, col := wcol,
    editor_row := [], dirty := 0 }

/-- The tail of `editor_move_cursor`: `rowlen = row ? row->size : 0` for the row under the
cursor, then `if (E.cx > rowlen) E.cx = rowlen`. -/
def snap_cursor (E : editor_config) : Option editor_config :=
  if E.cy ≥ E.numrows then some (if E.cx > 0 then { E with cx := 0 } else E)
  else
    match row_at E.editor_row E.cy with
    | none => none
    | some row => some (if E.cx > row.size then { E with cx := row.size } else E)

/-- The `switch` of `editor_move_cursor`. -/
def move_cursor_switch (E : editor_config) (key : Int) : Option editor_config :=
  if key = ARROW_LEFT then
    if E.cx ≠ 0 then some { E with cx := E.cx - 1 }
    else if E.cy > 0 then
      match row_at E.editor_row (E.cy - 1) with
      | none => none
      | some prev => some { E with cy := E.cy - 1, cx := prev.size }
    else some E
  else if key = ARROW_RIGHT then
    if E.cy ≥ E.numrows then some E
    else
      match row_at E.editor_row E.cy with
      | none => none
      | some row =>
        if E.cx < row.size then some { E with cx := E.cx + 1 }
        else if E.cx = row.size then some { E with cy := E.cy + 1, cx := 0 }
        else some E
  else if key = ARROW_UP then
    if E.cy ≠ 0 then some { E with cy := E.cy - 1 } else some E
  else if key = ARROW_DOWN then
    if E.cy < E.numrows then some { E with cy := E.cy + 1 } else some E
  else some E

/-- The function `editor_move_cursor`. -/
def editor_move_cursor (E : editor_config) (key : Int) : Option editor_config :=
  match move_cursor_switch E key with
  | none => none
  | some E1 => snap_cursor E1

/-- The arm `case HOME_KEY:` of `editor_process_keypress`. -/
def keypress_home (E : editor_config) : editor_config := { E with cx := 0 }

/-- The arm `case END_KEY:` of `editor_process_keypress`. -/
def keypress_end (E : editor_config) : Option editor_config :=
  if E.cy < E.numrows then
    match row_at E.editor_row E.cy with
    | none => none
    | some row => some { E with cx := row.size }
  else some E

/-- The arm `case BACKSPACE: case CTRL_KEY('h'): case DEL_KEY:` of
`editor_process_keypress`, entered with the key `c`. -/
def keypress_delete (E : editor_config) (c : Int) : Option editor_config :=
  match (if c = DEL_KEY then editor_move_cursor E ARROW_RIGHT else some E) with
  | none => none
  | some E1 => editor_del_char E1

/-- The function `editor_scroll`. -/
def editor_scroll (E : editor_config) : Option editor_config :=
  match (if E.cy < E.numrows then
          match row_at E.editor_row E.cy with
          | none => none
          | some row => editor_row_cx_to_rx row E.cx
         else some 0) with
  | none => none
  | some rx =>
    let rowoff1 := if E.cy < E.rowoff then E.cy else E.rowoff
    let rowoff2 := if E.cy ≥ rowoff1 + E.row then E.cy - E.row + 1 else rowoff1
    let coloff1 := if E.cx < E.coloff then rx else E.coloff
    let coloff2 := if E.cx ≥ coloff1 + E.col then rx - E.col + 1 else coloff1
    some { E with rx := rx, rowoff := rowoff2, coloff := coloff2 }

/-- The part of `editor_refresh_screen` that changes the editor state: the call of
`editor_scroll` (the drawing only writes to the terminal). -/
def editor_refresh_screen (E : editor_config) : Option editor_config := editor_scroll E

/-- The key code `PAGE_UP`. -/
def PAGE_UP : Int := 1007

/-- The key code `PAGE_DOWN`. -/
def PAGE_DOWN : Int := 1008

/-- The loop `while (times--) editor_move_cursor(key)` with `n` iterations left. -/
def move_cursor_times : Nat → editor_config → Int → Option editor_config
  | 0, E, _ => some E
  | n + 1, E, key =>
    match editor_move_cursor E key with
    | none => none
    | some E1 => move_cursor_times n E1 key

/-- The arm `case PAGE_UP: case PAGE_DOWN:` of `editor_process_keypress`, entered with the
key `c`.  With `times = E.row` negative the loop `while (times--)` does not stop before
`times` overflows: no result. -/
def keypress_page (E : editor_config) (c : Int) : Option editor_config :=
  let E1 : editor_config :=
    if c = PAGE_UP then { E with cy := E.rowoff }
    else if c = PAGE_DOWN then
      (if E.rowoff + E.row - 1 > E.numrows then { E with cy := E.numrows }
       else { E with cy := E.rowoff + E.row - 1 })
    else E
  if E1.row < 0 then none
  else move_cursor_times E1.row.toNat E1 (if c = PAGE_UP then ARROW_UP else ARROW_DOWN)

/-! ### Incremental search -/

/-- The C string held in a buffer: the bytes before the first NUL byte. -/
def cstr (bytes : List Nat) : List Nat := bytes.takeWhile (fun b => b ≠ 0)

/-- Search of `needle` in `hay` from left to right; `off` is the offset of `hay` in the
whole string. -/
def strstr_loop (needle : List Nat) : List Nat → Nat → Option Nat
  | [], off => if needle.isPrefixOf [] then some off else none
  | h :: t, off =>
    if needle.isPrefixOf (h :: t) then some off else strstr_loop needle t (off + 1)

/-- The C library function `strstr` (not part of the repository, modelled from the C
standard) on the buffers holding two NUL-terminated strings: the offset of the first
occurrence of the string `needle` in the string `haystack`, `none` for a null pointer. -/
def strstr (haystack needle : List Nat) : Option Nat :=
  strstr_loop (cstr needle) (cstr haystack) 0

/-- The two `static` variables of `editor_find_callback`. -/
structure find_state where
  last_match : Int
  direction : Int
deriving DecidableEq, Repr

/-- The `for` loop of `editor_find_callback`: `n` iterations remain, `current` is the
row index of the previous iteration, `S` the static variables. -/
def find_loop (E : editor_config) (query : List Nat) (S : find_state) :
    Nat → Int → Option (editor_config × find_state)
  | 0, _ => some (E, S)
  | n + 1, current =>
    let c1 := current + S.direction
    let c2 := if c1 = -1 then E.numrows - 1 else if c1 = E.numrows then 0 else c1
    match row_at E.editor_row c2 with
    | none => none
    | some row =>
      match strstr row.render query with
      | some off =>
        some ({ E with cy := c2, cx := editor_row_rx_to_cx row (off : Int),
                       rowoff := E.numrows },
              { S with last_match := c2 })
      | none => find_loop E query S n c2

/-- The scan of `editor_find_callback`, entered after the key has been looked at:
`if (last_match == -1) direction = 1;` followed by the loop over the rows. -/
def find_scan (E : editor_config) (query : List Nat) (S : find_state) :
    Option (editor_config × find_state) :=
  let S1 : find_state := if S.last_match = -1 then { S with direction := 1 } else S
  find_loop E query S1 E.numrows.toNat S1.last_match

/-- The function `editor_find_callback`; `S` holds its static variables. -/
def editor_find_callback (E : editor_config) (S : find_state) (query : List Nat) (key : Int) :
    Option (editor_config × find_state) :=
  if key = KEY_ENTER ∨ key = KEY_ESC then some (E, { last_match := -1, direction := 1 })
  else if key = ARROW_RIGHT ∨ key = ARROW_DOWN then find_scan E query { S with direction := 1 }
  else if key = ARROW_LEFT ∨ key = ARROW_UP then find_scan E query { S with direction := -1 }
  else find_scan E query { last_match := -1, direction := 1 }

/-- How a run of `editor_prompt` over the keys at hand ends: `cancelled` is the return of
`NULL`, `accepted` the return of the buffer, `reading` the wait in `editor_read_key` once
the keys are used up. -/
inductive prompt_result where
  | cancelled : prompt_result
  | accepted : List Nat → prompt_result
  | reading : List Nat → prompt_result
deriving DecidableEq, Repr

/-- The call `if (callback) callback(buf, c)` of `editor_prompt`. -/
def prompt_callback
    (callback : Option (editor_config → find_state → List Nat → Int →
      Option (editor_config × find_state)))
    (E : editor_config) (S : find_state) (buf : List Nat) (c : Int) :
    Option (editor_config × find_state) :=
  match callback with
  | none => some (E, S)
  | some f => f E S buf c

/-- The function `editor_prompt` run on the keys that `editor_read_key` delivers; `buf` is
the text typed so far, `iscntrl` the C library predicate.  The result carries the keys not
read. -/
def editor_prompt (iscntrl : Int → Bool)
    (callback : Option (editor_config → find_state → List Nat → Int →
      Option (editor_config × find_state))) :
    List Int → List Nat → editor_config → find_state →
      Option (prompt_result × editor_config × find_state × List Int)
  | [], buf, E, S =>
    match editor_refresh_screen E with
    | none => none
    | some E1 => some (prompt_result.reading buf, E1, S, [])
  | c :: rest, buf, E, S =>
    match editor_refresh_screen E with
    | none => none
    | some E1 =>
      if c = DEL_KEY ∨ c = CTRL_KEY 104 ∨ c = BACKSPACE then
        let buf1 := if buf.length ≠ 0 then buf.dropLast else buf
        match prompt_callback callback E1 S buf1 c with
        | none => none
        | some (E2, S2) => editor_prompt iscntrl callback rest buf1 E2 S2
      else if c = KEY_ESC then
        match prompt_callback callback E1 S buf c with
        | none => none
        | some (E2, S2) => some (prompt_result.cancelled, E2, S2, rest)
      else if c = KEY_ENTER then
        if buf.length ≠ 0 then
          match prompt_callback callback E1 S buf c with
          | none => none
          | some (E2, S2) => some (prompt_result.accepted buf, E2, S2, rest)
        else
          match prompt_callback callback E1 S buf c with
          | none => none
          | some (E2, S2) => editor_prompt iscntrl callback rest buf E2 S2
      else
        let buf1 := if (!iscntrl c) ∧ c < 128 then buf ++ [(c % 256).toNat] else buf
        match prompt_callback callback E1 S buf1 c with
        | none => none
        | some (E2, S2) => editor_prompt iscntrl callback rest buf1 E2 S2

/-- The function `editor_find` run on the keys that `editor_read_key` delivers. -/
def editor_find (iscntrl : Int → Bool) (keys : List Int) (E : editor_config) (S : find_state) :
    Option (prompt_result × editor_config × find_state × List Int) :=
  match editor_prompt iscntrl (some editor_find_callback) keys [] E S with
  | none => none
  | some (prompt_result.cancelled, E1, S1, rest) =>
    some (prompt_result.cancelled,
          { E1 with cx := E.cx, cy := E.cy, coloff := E.coloff, rowoff := E.rowoff }, S1, rest)
  | some (res, E1, S1, rest) => some (res, E1, S1, rest)

/-! ### Sequences of operations -/

/-- One call of an operation of the editing core, with its arguments; for
`editor_find_callback` the static variables it is entered with are part of the call. -/
inductive edit_cmd where
  | insert_char : Int → edit_cmd
  | del_char : edit_cmd
  | insert_newline : edit_cmd
  | insert_row : Int → List Nat → edit_cmd
  | del_row : Int → edit_cmd
  | row_append_string : Int → List Nat → edit_cmd
  | move_cursor : Int → edit_cmd
  | scroll : edit_cmd
  | find_callback : find_state → List Nat → Int → edit_cmd

/-- The editor state after one call. -/
def exec_call (E : editor_config) : edit_cmd → Option editor_config
  | edit_cmd.insert_char c => editor_insert_char E c
  | edit_cmd.del_char => editor_del_char E
  | edit_cmd.insert_newline => editor_insert_newline E
  | edit_cmd.insert_row at_ s => editor_insert_row E at_ s
  | edit_cmd.del_row at_ => some (editor_del_row E at_)
  | edit_cmd.row_append_string ri s => editor_row_append_string E ri s
  | edit_cmd.move_cursor key => editor_move_cursor E key
  | edit_cmd.scroll => editor_scroll E
  | edit_cmd.find_callback S query key =>
    match editor_find_callback E S query key with
    | none => none
    | some (E1, _) => some E1

/-- The editor state after a sequence of calls. -/
def exec_calls : List edit_cmd → editor_config → Option editor_config
  | [], E => some E
  | cmd :: cmds, E =>
    match exec_call E cmd with
    | none => none
    | some E1 => exec_calls cmds E1

/-! ### The counter `dirty` as a 32-bit `int` -/

/-- The largest value of the 32-bit `int` that `dirty` is declared as in `teditor.h`. -/
def INT_MAX : Int := 2147483647

/-- The smallest value of a 32-bit `int`. -/
def INT_MIN : Int := -2147483648

/-- The value a 32-bit two's-complement `int` holds for the mathematical value `x`:
`x` reduced modulo `2^32` into `[INT_MIN, INT_MAX]`. -/
def int_wrap (x : Int) : Int := (x + 2147483648) % 4294967296 - 2147483648

/-- The statement `E.dirty++` on the 32-bit `int dirty`, as the compiled program performs it:
one more, and `INT_MIN` after `INT_MAX`. -/
def dirty_incr (d : Int) : Int := int_wrap (d + 1)

/-- The value of the program variable `E.dirty` in the state `E` of the embedding.  The
functions of the embedding count in `Int` (`dirty := E.dirty + 1`) and none of them reads
`dirty`, so the variable holds the count reduced to 32 bits; as long as the count is within
`[INT_MIN, INT_MAX]` the two are the same number. -/
def stored_dirty (E : editor_config) : Int := int_wrap E.dirty

/-! ## Specification-side definitions -/

/-- One step of tab expansion as the specification words it: a tab becomes
`8 - (k mod 8)` spaces, `k` the render length so far; any other byte is copied. -/
def spec_expand_step (acc : List Nat) (c : Nat) : List Nat :=
  if c = TAB then acc ++ List.replicate (8 - acc.length % 8) SPACE else acc ++ [c]

/-- The tab expansion of a byte string, as the specification words it. -/
def spec_tab_expansion (chars : List Nat) : List Nat :=
  chars.foldl spec_expand_step []

/-- The row sequence of a document as byte strings. -/
def doc_chars (E : editor_config) : List (List Nat) := E.editor_row.map erow.chars

/-- A fresh row holding `s`, as `editor_insert_row` builds it. -/
def mk_row (s : List Nat) : erow :=
  { chars := s, render := spec_tab_expansion s, rsize := ((spec_tab_expansion s).length : Int) }

/-- A document state with the given rows and cursor, everything else zero. -/
def mk_doc (rows : List (List Nat)) (cy cx : Int) : editor_config :=
  { cx := cx, cy := cy, rx := 0, rowoff := 0, coloff := 0, row := 24, col := 80,
    editor_row := rows.map mk_row, dirty := 0 }

/-- One iteration of the accumulation shared by `editor_row_cx_to_rx` and
`editor_row_rx_to_cx`: the render column after the byte `c` read at column `rx`. -/
def width_step (rx : Int) (c : Nat) : Int :=
  (if c = TAB then rx + ((TEDITOR_TAB_STOP - 1) - c_rem rx TEDITOR_TAB_STOP) else rx) + 1

/-- The render column reached after the first `k` bytes of `chars`. -/
def rx_of (chars : List Nat) (k : Nat) : Int := (chars.take k).foldl width_step 0

/-- The sum of the row sizes of a document. -/
def total_size (rows : List erow) : Nat := (rows.map (fun r => r.chars.length)).sum

/-- The number of backspaces that empty a document from its end:
sum of the row sizes plus `numrows - 1`. -/
def backspace_count (E : editor_config) : Nat :=
  total_size E.editor_row + E.editor_row.length - 1

/-- The cursor stands at the end of the last row of the document. -/
def at_end_of_last_row (E : editor_config) : Prop :=
  ∃ (front : List erow) (last : erow),
    E.editor_row = front ++ [last] ∧ E.cy = (front.length : Int) ∧ E.cx = last.size

/-- The saved form of a document as the specification words it: every row's
bytes followed by one `'\n'`, in row order. -/
def spec_saved_bytes (rows : List erow) : List Nat :=
  rows.foldr (fun r acc => r.chars ++ 10 :: acc) []

/-- The length of the row under the cursor, 0 on the virtual row. -/
def rowlen (E : editor_config) : Int :=
  match row_at E.editor_row E.cy with
  | some row => row.size
  | none => 0

/-- The cursor invariant: `cy` in `[0, numrows]`, `cx >= 0`, `cx <= rows[cy].size`
whenever `cy < numrows`, and `cx = 0` when `cy = numrows`. -/
def cursor_ok (E : editor_config) : Prop :=
  0 ≤ E.cy ∧ E.cy ≤ E.numrows ∧ 0 ≤ E.cx ∧
    (E.cy < E.numrows → E.cx ≤ rowlen E) ∧ (E.cy = E.numrows → E.cx = 0)

instance (E : editor_config) : Decidable (cursor_ok E) := by
  unfold cursor_ok; infer_instance

/-- A row carries its derived render: `render` is the tab expansion of `chars` and
`rsize` is the length of `render`. -/
def row_rendered (row : erow) : Prop :=
  row.render = spec_tab_expansion row.chars ∧ row.rsize = (row.render.length : Int)

instance (row : erow) : Decidable (row_rendered row) := by
  unfold row_rendered; infer_instance

/-- Every row of the document carries its derived render. -/
def all_rendered (E : editor_config) : Prop := ∀ r ∈ E.editor_row, row_rendered r

instance (E : editor_config) : Decidable (all_rendered E) := by
  unfold all_rendered; infer_instance

/-- What an operation may do to the rows and to `dirty`: either it leaves both as they
were, or every row it leaves is an old row or a freshly rendered one and `dirty` has
grown. -/
def edit_rel (E E1 : editor_config) : Prop :=
  (E1.editor_row = E.editor_row ∧ E1.dirty = E.dirty) ∨
  ((∀ r ∈ E1.editor_row, r ∈ E.editor_row ∨ ∃ cs, r = mk_row cs) ∧ E.dirty < E1.dirty)

/-- The string `needle` occurs in the string `hay` at offset `o` and at no smaller one. -/
def first_occurrence (needle hay : List Nat) (o : Nat) : Prop :=
  o ≤ hay.length ∧ needle <+: hay.drop o ∧ ∀ j : Nat, j < o → ¬ needle <+: hay.drop j

/-- The render of `row`, read as a C string, contains the C string `query` as a
substring. -/
def row_contains (query : List Nat) (row : erow) : Prop := cstr query <:+: cstr row.render

instance (query : List Nat) (row : erow) : Decidable (row_contains query row) := by
  unfold row_contains; infer_instance

/-- The `j`-th row (`j = 1, 2, ...`) of the cyclic order `m + d, m + 2d, ...` over `n`
rows. -/
def scan_row (n m d : Int) (j : Nat) : Int := (m + (j : Int) * d) % n

/-- The static `last_match` is "none" or the index of a row. -/
def last_match_ok (E : editor_config) (S : find_state) : Prop :=
  S.last_match = -1 ∨ (0 ≤ S.last_match ∧ S.last_match < E.numrows)

/-! ## Render derivation -/

theorem c_rem_natCast (n : Nat) : c_rem (n : Int) TEDITOR_TAB_STOP = ((n % 8 : Nat) : Int) := by
  simp only [c_rem, TEDITOR_TAB_STOP]
  exact (Int.ofNat_tmod n 8).symm

theorem tab_fill_natCast (fuel : Nat) :
    ∀ r : List Nat, (8 - r.length % 8) % 8 < fuel →
      tab_fill fuel r (r.length : Int)
        = some (r ++ List.replicate ((8 - r.length % 8) % 8) SPACE,
                ((r.length + (8 - r.length % 8) % 8 : Nat) : Int)) := by
  induction fuel with
  | zero => intro r h; omega
  | succ fuel ih =>
    intro r h
    rw [tab_fill, c_rem_natCast]
    by_cases h0 : r.length % 8 = 0
    · simp [h0]
    · have hne : ((r.length % 8 : Nat) : Int) ≠ 0 := by exact_mod_cast h0
      rw [if_pos hne]
      have hlen : ((r.length : Int) + 1) = (((r ++ [SPACE]).length : Nat) : Int) := by simp
      rw [hlen, ih (r ++ [SPACE]) (by simp; omega)]
      have e1 : (8 - r.length % 8) % 8 = (8 - (r.length + 1) % 8) % 8 + 1 := by omega
      simp only [List.length_append, List.length_singleton, e1, List.replicate_succ,
        List.append_assoc, List.singleton_append, Option.some.injEq, Prod.mk.injEq, true_and]
      omega

theorem update_row_loop_eq (cs : List Nat) :
    ∀ render : List Nat,
      update_row_loop cs render (render.length : Int)
        = some (cs.foldl spec_expand_step render,
                (((cs.foldl spec_expand_step render).length : Nat) : Int)) := by
  induction cs with
  | nil => intro render; rfl
  | cons c cs ih =>
    intro render
    rw [update_row_loop]
    by_cases hc : c = TAB
    · rw [if_pos hc]
      have hlen : ((render.length : Int) + 1) = (((render ++ [SPACE]).length : Nat) : Int) := by
        simp
      have hfuel : TEDITOR_TAB_STOP.toNat = 8 := rfl
      rw [hlen, hfuel, tab_fill_natCast 8 (render ++ [SPACE]) (by omega)]
      have e1 : 8 - render.length % 8 = (8 - (render.length + 1) % 8) % 8 + 1 := by omega
      have e2 : (render ++ [SPACE]) ++ List.replicate ((8 - (render ++ [SPACE]).length % 8) % 8) SPACE
          = spec_expand_step render c := by
        simp only [spec_expand_step, if_pos hc, e1, List.replicate_succ, List.length_append,
          List.length_singleton, List.append_assoc, List.singleton_append]
      have e3 : (render ++ [SPACE]).length + (8 - (render ++ [SPACE]).length % 8) % 8
          = (spec_expand_step render c).length := by
        rw [← e2]; simp; omega
      simp only [e2, e3, List.foldl_cons]
      exact ih _
    · rw [if_neg hc]
      have hlen : ((render.length : Int) + 1) = (((render ++ [c]).length : Nat) : Int) := by simp
      have e2 : render ++ [c] = spec_expand_step render c := by
        simp only [spec_expand_step, if_neg hc]
      rw [hlen, e2, List.foldl_cons]
      exact ih _

theorem editor_update_row_eq (row : erow) :
    editor_update_row row
      = some { row with render := spec_tab_expansion row.chars,
                        rsize := ((spec_tab_expansion row.chars).length : Int) } := by
  have h := update_row_loop_eq row.chars []
  simp only [List.length_nil, Nat.cast_zero] at h
  simp only [editor_update_row, h, spec_tab_expansion]

theorem editor_update_row_mk (s r : List Nat) (n : Int) :
    editor_update_row { chars := s, render := r, rsize := n } = some (mk_row s) := by
  rw [editor_update_row_eq]; rfl

theorem spec_tab_expansion_append (xs ys : List Nat) :
    spec_tab_expansion (xs ++ ys) = ys.foldl spec_expand_step (spec_tab_expansion xs) := by
  simp [spec_tab_expansion, List.foldl_append]

/-- Claim C1: for every row `editor_update_row` returns the row with `render` set to the tab
expansion of `chars` (bytes copied in order, a tab replaced by `8 - (k mod 8)` spaces with `k`
the render length so far, so that the render length right after a tab is a multiple of 8) and
`rsize` set to the length of `render`; `chars` is untouched.  On `"a\tb"` the render is `a`,
seven spaces, `b`, with `rsize = 9` and `b` at render column 8. -/
theorem C1_update_row_tab_expansion :
    (∀ row : erow, ∃ row1, editor_update_row row = some row1 ∧
        row1.chars = row.chars ∧
        row1.render = spec_tab_expansion row.chars ∧
        row1.rsize = (row1.render.length : Int)) ∧
    (∀ (pre : List Nat) (c : Nat), c ≠ TAB →
        spec_tab_expansion (pre ++ [c]) = spec_tab_expansion pre ++ [c]) ∧
    (∀ pre : List Nat,
        spec_tab_expansion (pre ++ [TAB])
          = spec_tab_expansion pre
              ++ List.replicate (8 - (spec_tab_expansion pre).length % 8) SPACE ∧
        (spec_tab_expansion (pre ++ [TAB])).length % 8 = 0) ∧
    editor_update_row { chars := [97, 9, 98], render := [], rsize := 0 }
      = some { chars := [97, 9, 98], render := [97, 32, 32, 32, 32, 32, 32, 32, 98], rsize := 9 } ∧
    [97, 32, 32, 32, 32, 32, 32, 32, 98][8]? = some 98 := by
  refine ⟨?_, ?_, ?_, by decide, by decide⟩
  · intro row
    exact ⟨_, editor_update_row_eq row, rfl, rfl, rfl⟩
  · intro pre c hc
    simp [spec_tab_expansion_append, spec_expand_step, hc]
  · intro pre
    have h : spec_tab_expansion (pre ++ [TAB])
        = spec_tab_expansion pre
            ++ List.replicate (8 - (spec_tab_expansion pre).length % 8) SPACE := by
      simp [spec_tab_expansion_append, spec_expand_step]
    refine ⟨h, ?_⟩
    rw [h]
    simp only [List.length_append, List.length_replicate]
    omega

/-! ## Coordinate mapper -/

theorem width_step_gt (rx : Int) (c : Nat) (h : 0 ≤ rx) : rx < width_step rx c := by
  unfold width_step
  split
  · have h1 : c_rem rx TEDITOR_TAB_STOP = rx % 8 := by
      simp only [c_rem, TEDITOR_TAB_STOP]
      exact Int.tmod_eq_emod h (by norm_num)
    rw [h1]; simp only [TEDITOR_TAB_STOP]; omega
  · omega

theorem foldl_width_step_ge (cs : List Nat) :
    ∀ rx : Int, 0 ≤ rx → rx ≤ cs.foldl width_step rx := by
  induction cs with
  | nil => intro rx _; simp
  | cons c cs ih =>
    intro rx h
    have h1 := width_step_gt rx c h
    have h2 := ih (width_step rx c) (by omega)
    simp only [List.foldl_cons]; omega

theorem rx_of_nonneg (chars : List Nat) (k : Nat) : 0 ≤ rx_of chars k :=
  foldl_width_step_ge _ 0 (le_refl 0)

theorem rx_of_succ (chars : List Nat) (k : Nat) (h : k < chars.length) :
    rx_of chars (k + 1) = width_step (rx_of chars k) chars[k] := by
  unfold rx_of
  rw [List.take_succ, List.foldl_append, List.getElem?_eq_getElem h]
  rfl

theorem rx_of_lt_succ (chars : List Nat) (k : Nat) (h : k < chars.length) :
    rx_of chars k < rx_of chars (k + 1) := by
  rw [rx_of_succ chars k h]
  exact width_step_gt _ _ (rx_of_nonneg chars k)

theorem rx_of_mono (chars : List Nat) (j : Nat) :
    ∀ k : Nat, j ≤ k → rx_of chars j ≤ rx_of chars k := by
  intro k hjk
  induction k with
  | zero =>
    have : j = 0 := by omega
    subst this; exact le_refl _
  | succ k ih =>
    by_cases hj : j = k + 1
    · subst hj; exact le_refl _
    · have h1 := ih (by omega)
      by_cases hk : k < chars.length
      · have := rx_of_lt_succ chars k hk; omega
      · have e : rx_of chars (k + 1) = rx_of chars k := by
          simp only [rx_of]
          rw [List.take_of_length_le (by omega), List.take_of_length_le (by omega)]
        omega

theorem rx_of_strict (chars : List Nat) (j k : Nat) (hjk : j < k) (hk : k ≤ chars.length) :
    rx_of chars j < rx_of chars k := by
  have h1 := rx_of_lt_succ chars j (by omega)
  have h2 := rx_of_mono chars (j + 1) k (by omega)
  omega

theorem cx_to_rx_loop_eq (chars : List Nat) (n : Nat) :
    ∀ (i : Nat) (rx : Int), i + n ≤ chars.length →
      cx_to_rx_loop chars n i rx = some (((chars.drop i).take n).foldl width_step rx) := by
  induction n with
  | zero => intro i rx _; simp [cx_to_rx_loop]
  | succ n ih =>
    intro i rx h
    have hi : i < chars.length := by omega
    have hc : char_at chars i = some chars[i] := by
      simp [char_at, hi, List.getElem?_eq_getElem hi]
    rw [cx_to_rx_loop, hc]
    simp only []
    rw [ih (i + 1) _ (by omega), List.drop_eq_getElem_cons hi, List.take_succ_cons,
      List.foldl_cons]
    rfl

theorem editor_row_cx_to_rx_eq (row : erow) (cx : Int) (h0 : 0 ≤ cx) (h1 : cx ≤ row.size) :
    editor_row_cx_to_rx row cx = some (rx_of row.chars cx.toNat) := by
  have h : 0 + cx.toNat ≤ row.chars.length := by
    simp only [erow.size] at h1; omega
  rw [editor_row_cx_to_rx, cx_to_rx_loop_eq row.chars cx.toNat 0 0 h]
  simp [rx_of]

/-- The loop of `editor_row_rx_to_cx` started at index `pre.length` with the
accumulator at the column reached after `pre`. -/
theorem rx_to_cx_loop_spec (rx : Int) (post : List Nat) :
    ∀ pre : List Nat,
      ∃ k : Nat, rx_to_cx_loop rx post (pre.length : Int) (rx_of (pre ++ post) pre.length) = (k : Int) ∧
        pre.length ≤ k ∧ k ≤ (pre ++ post).length ∧
        (∀ j : Nat, pre.length < j → j ≤ k → rx_of (pre ++ post) j ≤ rx) ∧
        (k < (pre ++ post).length → rx < rx_of (pre ++ post) (k + 1)) := by
  induction post with
  | nil =>
    intro pre
    refine ⟨pre.length, by simp [rx_to_cx_loop], le_refl _, ?_, ?_, ?_⟩
    · simp
    · intro j h1 h2; omega
    · intro h; simp at h
  | cons c cs ih =>
    intro pre
    have hlen : pre.length < (pre ++ c :: cs).length := by simp
    have hget : (pre ++ c :: cs)[pre.length] = c := by
      rw [List.getElem_append_right (le_refl _)]; simp
    have hsucc := rx_of_succ (pre ++ c :: cs) pre.length hlen
    rw [hget] at hsucc
    rw [rx_to_cx_loop]
    have hstep : (if c = TAB then rx_of (pre ++ c :: cs) pre.length
          + ((TEDITOR_TAB_STOP - 1) - c_rem (rx_of (pre ++ c :: cs) pre.length) TEDITOR_TAB_STOP)
        else rx_of (pre ++ c :: cs) pre.length) + 1 = rx_of (pre ++ c :: cs) (pre.length + 1) := by
      rw [hsucc]; rfl
    rw [hstep]
    by_cases hgt : rx_of (pre ++ c :: cs) (pre.length + 1) > rx
    · rw [if_pos hgt]
      refine ⟨pre.length, rfl, le_refl _, le_of_lt hlen, ?_, ?_⟩
      · intro j h1 h2; omega
      · intro _; exact hgt
    · rw [if_neg hgt]
      obtain ⟨k, hk, h1, h2, h3, h4⟩ := ih (pre ++ [c])
      simp only [List.append_assoc, List.singleton_append, List.length_append,
        List.length_singleton, Nat.cast_add, Nat.cast_one] at hk h1 h2 h3 h4
      refine ⟨k, hk, by omega, by simpa using h2, ?_, ?_⟩
      · intro j hj1 hj2
        by_cases hj : j = pre.length + 1
        · subst hj; omega
        · exact h3 j (by omega) hj2
      · intro hlt
        exact h4 (by simpa using hlt)

theorem editor_row_rx_to_cx_spec (row : erow) (rx : Int) :
    ∃ k : Nat, editor_row_rx_to_cx row rx = (k : Int) ∧ k ≤ row.chars.length ∧
      (∀ j : Nat, 0 < j → j ≤ k → rx_of row.chars j ≤ rx) ∧
      (k < row.chars.length → rx < rx_of row.chars (k + 1)) := by
  obtain ⟨k, hk, _, h2, h3, h4⟩ := rx_to_cx_loop_spec rx row.chars []
  simp only [List.nil_append, List.length_nil, Nat.cast_zero] at hk h2 h3 h4
  have h0 : rx_of row.chars 0 = 0 := by simp [rx_of]
  rw [h0] at hk
  exact ⟨k, hk, h2, h3, h4⟩

/-- Claim C2: round-trip law: for every row and every `cx` with `0 <= cx <= row.size`,
`editor_row_cx_to_rx` returns a render column `rx` and `editor_row_rx_to_cx` maps that
`rx` back to `cx`. -/
theorem C2_cx_rx_round_trip (row : erow) (cx : Int) (h0 : 0 ≤ cx) (h1 : cx ≤ row.size) :
    ∃ rx, editor_row_cx_to_rx row cx = some rx ∧ editor_row_rx_to_cx row rx = cx := by
  refine ⟨_, editor_row_cx_to_rx_eq row cx h0 h1, ?_⟩
  obtain ⟨k, hk, hk1, hk2, hk3⟩ := editor_row_rx_to_cx_spec row (rx_of row.chars cx.toNat)
  have hsz : cx.toNat ≤ row.chars.length := by simp only [erow.size] at h1; omega
  rw [hk]
  have hkc : k = cx.toNat := by
    rcases Nat.lt_trichotomy k cx.toNat with h | h | h
    · have := hk3 (by omega)
      have := rx_of_mono row.chars (k + 1) cx.toNat (by omega)
      omega
    · exact h
    · have := hk2 k (by omega) (le_refl _)
      have := rx_of_strict row.chars cx.toNat k h hk1
      omega
  rw [hkc]; omega

/-- Witness of C2 on the row `"a\tb"` at `cx = 2`. -/
theorem C2_cx_rx_round_trip_witness :
    ∃ rx, editor_row_cx_to_rx (mk_row [97, 9, 98]) 2 = some rx ∧
      editor_row_rx_to_cx (mk_row [97, 9, 98]) rx = 2 :=
  C2_cx_rx_round_trip (mk_row [97, 9, 98]) 2 (by decide) (by decide)

theorem spec_expand_step_length (r : List Nat) (c : Nat) :
    ((spec_expand_step r c).length : Int) = width_step (r.length : Int) c := by
  unfold spec_expand_step width_step
  by_cases hc : c = TAB
  · rw [if_pos hc, if_pos hc, c_rem_natCast]
    simp only [List.length_append, List.length_replicate, TEDITOR_TAB_STOP]
    omega
  · rw [if_neg hc, if_neg hc]; simp

theorem foldl_spec_expand_length (cs : List Nat) :
    ∀ r : List Nat,
      ((cs.foldl spec_expand_step r).length : Int) = cs.foldl width_step (r.length : Int) := by
  induction cs with
  | nil => intro r; rfl
  | cons c cs ih =>
    intro r
    simp only [List.foldl_cons]
    rw [ih, spec_expand_step_length]

theorem spec_tab_expansion_length (chars : List Nat) :
    ((spec_tab_expansion chars).length : Int) = rx_of chars chars.length := by
  have h := foldl_spec_expand_length chars []
  simp only [List.length_nil, Nat.cast_zero] at h
  simp only [spec_tab_expansion, rx_of, List.take_length, h]

theorem rsize_of_updated (row : erow) (hr : editor_update_row row = some row) :
    row.rsize = rx_of row.chars row.chars.length := by
  rw [editor_update_row_eq] at hr
  have h := congrArg erow.rsize (Option.some.inj hr)
  simp only at h
  rw [← h, spec_tab_expansion_length]

/-- Claim C3: for a row as `editor_update_row` leaves it and `0 <= rx < rsize`,
`editor_row_rx_to_cx` returns an index `i` with `0 <= i < size` whose expansion covers `rx`
(`cx_to_rx i <= rx < cx_to_rx (i+1)`), and that index is the only one; for `rx >= rsize` it
returns `size`; in every case the result lies in `[0, size]`. -/
theorem C3_rx_to_cx_covering (row : erow) (hr : editor_update_row row = some row) :
    (∀ rx : Int, 0 ≤ rx → rx < row.rsize →
        0 ≤ editor_row_rx_to_cx row rx ∧ editor_row_rx_to_cx row rx < row.size ∧
        (∃ a b, editor_row_cx_to_rx row (editor_row_rx_to_cx row rx) = some a ∧
                editor_row_cx_to_rx row (editor_row_rx_to_cx row rx + 1) = some b ∧
                a ≤ rx ∧ rx < b) ∧
        (∀ i a b : Int, 0 ≤ i → i < row.size →
            editor_row_cx_to_rx row i = some a → editor_row_cx_to_rx row (i + 1) = some b →
            a ≤ rx → rx < b → i = editor_row_rx_to_cx row rx)) ∧
    (∀ rx : Int, row.rsize ≤ rx → editor_row_rx_to_cx row rx = row.size) ∧
    (∀ rx : Int, 0 ≤ editor_row_rx_to_cx row rx ∧ editor_row_rx_to_cx row rx ≤ row.size) := by
  have hrs := rsize_of_updated row hr
  refine ⟨?_, ?_, ?_⟩
  · intro rx hrx0 hrx1
    obtain ⟨k, hk, hk1, hk2, hk3⟩ := editor_row_rx_to_cx_spec row rx
    have hklt : k < row.chars.length := by
      rcases Nat.lt_or_ge k row.chars.length with h | h
      · exact h
      · have hke : k = row.chars.length := by omega
        by_cases hz : row.chars.length = 0
        · rw [hz] at hrs
          have h0 : rx_of row.chars 0 = 0 := by simp [rx_of]
          omega
        · have := hk2 row.chars.length (by omega) (by omega)
          omega
    have hcov0 : rx_of row.chars k ≤ rx := by
      by_cases hz : k = 0
      · subst hz
        have h0 : rx_of row.chars 0 = 0 := by simp [rx_of]
        omega
      · exact hk2 k (by omega) (le_refl _)
    have hcov1 := hk3 hklt
    rw [hk]
    refine ⟨by omega, by simp only [erow.size]; omega, ?_, ?_⟩
    · refine ⟨rx_of row.chars k, rx_of row.chars (k + 1), ?_, ?_, hcov0, hcov1⟩
      · have := editor_row_cx_to_rx_eq row (k : Int) (by omega) (by simp only [erow.size]; omega)
        simpa using this
      · have := editor_row_cx_to_rx_eq row ((k : Int) + 1) (by omega)
          (by simp only [erow.size]; omega)
        have e : ((k : Int) + 1).toNat = k + 1 := by omega
        rw [e] at this; exact this
    · intro i a b hi0 hi1 ha hb hale hltb
      simp only [erow.size] at hi1
      rw [editor_row_cx_to_rx_eq row i hi0 (by simp only [erow.size]; omega)] at ha
      rw [editor_row_cx_to_rx_eq row (i + 1) (by omega) (by simp only [erow.size]; omega)] at hb
      have e : (i + 1).toNat = i.toNat + 1 := by omega
      rw [e] at hb
      have ha1 := Option.some.inj ha
      have hb1 := Option.some.inj hb
      rcases Nat.lt_trichotomy i.toNat k with h | h | h
      · have := rx_of_mono row.chars (i.toNat + 1) k (by omega); omega
      · omega
      · have := rx_of_mono row.chars (k + 1) i.toNat (by omega); omega
  · intro rx hrx
    obtain ⟨k, hk, hk1, hk2, hk3⟩ := editor_row_rx_to_cx_spec row rx
    rw [hk]; simp only [erow.size]
    rcases Nat.lt_or_ge k row.chars.length with h | h
    · have := hk3 h
      have := rx_of_mono row.chars (k + 1) row.chars.length (by omega)
      omega
    · omega
  · intro rx
    obtain ⟨k, hk, hk1, _, _⟩ := editor_row_rx_to_cx_spec row rx
    rw [hk]; simp only [erow.size]; omega

/-- Witness of C3 on the row `"a\tb"`. -/
theorem C3_rx_to_cx_covering_witness :
    editor_update_row (mk_row [97, 9, 98]) = some (mk_row [97, 9, 98]) ∧
    editor_row_rx_to_cx (mk_row [97, 9, 98]) 5 = 1 ∧
    editor_row_rx_to_cx (mk_row [97, 9, 98]) 9 = (mk_row [97, 9, 98]).size :=
  ⟨by decide, by decide,
   (C3_rx_to_cx_covering (mk_row [97, 9, 98]) (by decide)).2.1 9 (by decide)⟩

/-! ## Row store -/

theorem getElem?_insert_lt {α : Type} (l : List α) (n i : Nat) (x : α) (hn : n ≤ l.length)
    (h : i < n) : (l.take n ++ x :: l.drop n)[i]? = l[i]? := by
  rw [List.getElem?_append_left (by simp; omega), List.getElem?_take_of_lt h]

theorem getElem?_insert_eq {α : Type} (l : List α) (n : Nat) (x : α) (hn : n ≤ l.length) :
    (l.take n ++ x :: l.drop n)[n]? = some x := by
  rw [List.getElem?_append_right (by simp)]
  simp [Nat.min_eq_left hn]

theorem row_at_nonneg (rows : List erow) (i : Int) (h : 0 ≤ i) :
    row_at rows i = rows[i.toNat]? := by
  simp [row_at, not_lt.mpr h]

theorem row_at_some (rows : List erow) (i : Int) (row : erow) (h : row_at rows i = some row) :
    0 ≤ i ∧ i < (rows.length : Int) ∧ rows[i.toNat]? = some row := by
  unfold row_at at h
  by_cases hi : i < 0
  · simp [hi] at h
  · rw [if_neg hi] at h
    have hlt : i.toNat < rows.length := by
      by_contra hc
      rw [List.getElem?_eq_none (by omega)] at h
      exact Option.noConfusion h
    exact ⟨by omega, by omega, h⟩

theorem editor_insert_row_eq (E : editor_config) (at_ : Int) (s : List Nat)
    (h0 : 0 ≤ at_) (h1 : at_ ≤ E.numrows) :
    editor_insert_row E at_ s
      = some { E with
          editor_row := E.editor_row.take at_.toNat ++ mk_row s :: E.editor_row.drop at_.toNat,
          dirty := E.dirty + 1 } := by
  have hc : ¬ (at_ < 0 ∨ at_ > E.numrows) := by omega
  rw [editor_insert_row, if_neg hc, editor_update_row_mk]

theorem editor_del_row_eq (E : editor_config) (at_ : Int) (h0 : 0 ≤ at_) (h1 : at_ < E.numrows) :
    editor_del_row E at_
      = { E with
          editor_row := E.editor_row.take at_.toNat ++ E.editor_row.drop (at_.toNat + 1),
          dirty := E.dirty + 1 } := by
  have hc : ¬ (at_ < 0 ∨ at_ ≥ E.numrows) := by omega
  rw [editor_del_row, if_neg hc]

theorem set_take_drop {α : Type} (l : List α) (m : Nat) (a : α) (h : m + 1 < l.length) :
    (l.set m a).take (m + 1) ++ (l.set m a).drop (m + 2) = l.take m ++ a :: l.drop (m + 2) := by
  rw [List.drop_set_of_lt a l (by omega), List.set_take, List.set_eq_take_append_cons_drop,
    if_pos (by simp; omega), List.take_take, List.drop_take]
  simp

theorem getElem?_join_lt {α : Type} (l : List α) (m i : Nat) (a : α) (hm : m + 1 < l.length)
    (h : i < m) : (l.take m ++ a :: l.drop (m + 2))[i]? = l[i]? := by
  rw [List.getElem?_append_left (by simp; omega), List.getElem?_take_of_lt h]

theorem getElem?_join_eq {α : Type} (l : List α) (m : Nat) (a : α) (hm : m + 1 < l.length) :
    (l.take m ++ a :: l.drop (m + 2))[m]? = some a := by
  rw [List.getElem?_append_right (by simp)]
  simp [Nat.min_eq_left (by omega : m ≤ l.length)]

theorem getElem?_join_gt {α : Type} (l : List α) (m i : Nat) (a : α) (hm : m + 1 < l.length)
    (h : m < i) : (l.take m ++ a :: l.drop (m + 2))[i]? = l[i + 1]? := by
  rw [List.getElem?_append_right (by simp; omega)]
  simp only [List.length_take, Nat.min_eq_left (by omega : m ≤ l.length)]
  have e : i - m = (i - m - 1) + 1 := by omega
  rw [e, List.getElem?_cons_succ, List.getElem?_drop]
  congr 1; omega

theorem set_as_take_drop {α : Type} (l : List α) (m : Nat) (a : α) (h : m < l.length) :
    l.set m a = l.take m ++ a :: l.drop (m + 1) := by
  rw [List.set_eq_take_append_cons_drop, if_pos h]

theorem editor_update_row_with (row : erow) (cs : List Nat) :
    editor_update_row { row with chars := cs } = some (mk_row cs) := by
  rw [editor_update_row_eq]; rfl

theorem row_at_set_row_self (rows : List erow) (i : Int) (r : erow)
    (h0 : 0 ≤ i) (h1 : i < (rows.length : Int)) :
    row_at (set_row rows i r) i = some r := by
  rw [row_at_nonneg _ i h0, set_row, List.getElem?_set_self (by omega)]

theorem row_at_set_row_ne (rows : List erow) (i j : Int) (r : erow) (h0 : 0 ≤ i) (hj : j ≠ i) :
    row_at (set_row rows i r) j = row_at rows j := by
  unfold row_at set_row
  by_cases hneg : j < 0
  · simp [hneg]
  · rw [if_neg hneg, if_neg hneg, List.getElem?_set_ne (by omega)]

theorem editor_row_insert_char_eq (E : editor_config) (ri at_ c : Int) (row : erow)
    (hrow : row_at E.editor_row ri = some row) (h0 : 0 ≤ at_) (h1 : at_ ≤ row.size) :
    editor_row_insert_char E ri at_ c
      = some { E with
          editor_row := set_row E.editor_row ri
            (mk_row (row.chars.take at_.toNat ++ (c % 256).toNat :: row.chars.drop at_.toNat)),
          dirty := E.dirty + 1 } := by
  have hc : ¬ (at_ < 0 ∨ at_ > row.size) := by omega
  simp only [editor_row_insert_char, hrow, if_neg hc, editor_update_row_with]

theorem editor_row_del_char_eq (E : editor_config) (ri at_ : Int) (row : erow)
    (hrow : row_at E.editor_row ri = some row) (h0 : 0 ≤ at_) (h1 : at_ < row.size) :
    editor_row_del_char E ri at_
      = some { E with
          editor_row := set_row E.editor_row ri
            (mk_row (row.chars.take at_.toNat ++ row.chars.drop (at_.toNat + 1))),
          dirty := E.dirty + 1 } := by
  have hc : ¬ (at_ < 0 ∨ at_ ≥ row.size) := by omega
  simp only [editor_row_del_char, hrow, if_neg hc, editor_update_row_with]

theorem editor_row_append_string_eq (E : editor_config) (ri : Int) (s : List Nat) (row : erow)
    (hrow : row_at E.editor_row ri = some row) :
    editor_row_append_string E ri s
      = some { E with
          editor_row := set_row E.editor_row ri (mk_row (row.chars ++ s)),
          dirty := E.dirty + 1 } := by
  simp only [editor_row_append_string, hrow, editor_update_row_with]

theorem editor_insert_char_on_row (E : editor_config) (c : Int) (row : erow)
    (hrow : row_at E.editor_row E.cy = some row) (hcx0 : 0 ≤ E.cx) (hcx : E.cx ≤ row.size) :
    editor_insert_char E c
      = some { E with
          editor_row := set_row E.editor_row E.cy
            (mk_row (row.chars.take E.cx.toNat ++ (c % 256).toNat :: row.chars.drop E.cx.toNat)),
          dirty := E.dirty + 1,
          cx := E.cx + 1 } := by
  obtain ⟨h0, h1, _⟩ := row_at_some _ _ _ hrow
  have hne : ¬ E.cy = E.numrows := by simp only [editor_config.numrows]; omega
  simp only [editor_insert_char, if_neg hne, editor_row_insert_char_eq E E.cy E.cx c row hrow hcx0 hcx]

theorem editor_insert_char_virtual (E : editor_config) (c : Int)
    (hcy : E.cy = E.numrows) (hcx : E.cx = 0) :
    editor_insert_char E c
      = some { E with
          editor_row := E.editor_row ++ [mk_row [(c % 256).toNat]],
          dirty := E.dirty + 1 + 1,
          cx := 1 } := by
  have hn0 : (0 : Int) ≤ E.numrows := by simp [editor_config.numrows]
  have hins := editor_insert_row_eq E E.numrows [] hn0 (le_refl _)
  have hnat : E.numrows.toNat = E.editor_row.length := by simp [editor_config.numrows]
  rw [hnat] at hins
  simp only [List.take_length, List.drop_length] at hins
  have hrow : row_at (E.editor_row ++ [mk_row []]) E.cy = some (mk_row []) := by
    rw [row_at_nonneg _ _ (by omega), hcy, hnat]
    simp
  simp only [editor_insert_char, if_pos hcy, hins]
  rw [editor_row_insert_char_eq _ E.cy E.cx c (mk_row []) hrow (by simp [hcx])
    (by simp [hcx, erow.size, mk_row])]
  simp only [hcx, hcy, hnat, set_row, mk_row, List.take_nil, List.drop_nil, List.nil_append,
    Int.toNat_zero, zero_add]
  congr 2
  rw [List.set_eq_take_append_cons_drop, if_pos (by simp)]
  simp

/-- Claim C7: for a byte `c` (`0 <= c < 256`): with the cursor on an existing row and
`0 <= cx <= size`, `editor_insert_char` makes row `cy` equal to
`chars[0..cx) ++ [c] ++ chars[cx..size)` (render re-derived), leaves every other row and
`numrows` unchanged and sets `cx` to `cx+1`; with the cursor on the virtual row
(`cy = numrows`, `cx = 0`) the result is the old rows followed by the one-byte row `[c]`,
`numrows+1`, cursor `(cy, 1)`. -/
theorem C7_insert_char (E : editor_config) (c : Int) (hc0 : 0 ≤ c) (hc1 : c < 256) :
    (∀ row : erow, row_at E.editor_row E.cy = some row → 0 ≤ E.cx → E.cx ≤ row.size →
      ∃ E1, editor_insert_char E c = some E1 ∧
        row_at E1.editor_row E.cy
          = some (mk_row (row.chars.take E.cx.toNat ++ [c.toNat] ++ row.chars.drop E.cx.toNat)) ∧
        (∀ i : Int, i ≠ E.cy → row_at E1.editor_row i = row_at E.editor_row i) ∧
        E1.numrows = E.numrows ∧ E1.cx = E.cx + 1 ∧ E1.cy = E.cy) ∧
    (E.cy = E.numrows → E.cx = 0 →
      ∃ E1, editor_insert_char E c = some E1 ∧
        E1.editor_row = E.editor_row ++ [mk_row [c.toNat]] ∧
        E1.numrows = E.numrows + 1 ∧ E1.cx = 1 ∧ E1.cy = E.cy) := by
  have hbyte : (c % 256).toNat = c.toNat := by
    rw [Int.emod_eq_of_lt hc0 hc1]
  refine ⟨?_, ?_⟩
  · intro row hrow hcx0 hcx
    obtain ⟨h0, h1, _⟩ := row_at_some _ _ _ hrow
    refine ⟨_, editor_insert_char_on_row E c row hrow hcx0 hcx, ?_, ?_, ?_, rfl, rfl⟩
    · simp only [hbyte, List.append_assoc, List.singleton_append]
      exact row_at_set_row_self _ _ _ h0 h1
    · intro i hi
      exact row_at_set_row_ne _ _ _ _ h0 hi
    · simp [editor_config.numrows, set_row]
  · intro hcy hcx
    refine ⟨_, editor_insert_char_virtual E c hcy hcx, ?_, ?_, rfl, rfl⟩
    · simp only [hbyte]
    · simp [editor_config.numrows]

/-- Witness of C7: typing `x` at `(0, 1)` of `["ab"]`, and on the virtual row of `["ab"]`. -/
theorem C7_insert_char_witness :
    (∃ E1, editor_insert_char (mk_doc [[97, 98]] 0 1) 120 = some E1 ∧
        row_at E1.editor_row 0 = some (mk_row [97, 120, 98]) ∧
        (∀ i : Int, i ≠ 0 →
          row_at E1.editor_row i = row_at (mk_doc [[97, 98]] 0 1).editor_row i) ∧
        E1.numrows = 1 ∧ E1.cx = 2 ∧ E1.cy = 0) ∧
    (∃ E1, editor_insert_char (mk_doc [[97, 98]] 1 0) 120 = some E1 ∧
        E1.editor_row = [mk_row [97, 98], mk_row [120]] ∧
        E1.numrows = 2 ∧ E1.cx = 1 ∧ E1.cy = 1) :=
  ⟨(C7_insert_char (mk_doc [[97, 98]] 0 1) 120 (by decide) (by decide)).1
      (mk_row [97, 98]) (by decide) (by decide) (by decide),
   (C7_insert_char (mk_doc [[97, 98]] 1 0) 120 (by decide) (by decide)).2
      (by decide) (by decide)⟩

theorem editor_del_char_cx_pos (E : editor_config) (row : erow)
    (hrow : row_at E.editor_row E.cy = some row) (hcx0 : 0 < E.cx) (hcx : E.cx ≤ row.size) :
    editor_del_char E
      = some { E with
          editor_row := set_row E.editor_row E.cy
            (mk_row (row.chars.take (E.cx - 1).toNat ++ row.chars.drop ((E.cx - 1).toNat + 1))),
          dirty := E.dirty + 1,
          cx := E.cx - 1 } := by
  obtain ⟨h0, h1, _⟩ := row_at_some _ _ _ hrow
  have hne : ¬ E.cy = E.numrows := by simp only [editor_config.numrows]; omega
  have hne2 : ¬ (E.cx = 0 ∧ E.cy = 0) := by omega
  have hpos : E.cx > 0 := hcx0
  simp only [editor_del_char, if_neg hne, if_neg hne2, hrow, if_pos hpos,
    editor_row_del_char_eq E E.cy (E.cx - 1) row hrow (by omega) (by omega)]

theorem editor_del_char_join (E : editor_config) (row prev : erow)
    (hrow : row_at E.editor_row E.cy = some row)
    (hprev : row_at E.editor_row (E.cy - 1) = some prev) (hcx : E.cx = 0) :
    editor_del_char E
      = some { E with
          editor_row := E.editor_row.take (E.cy - 1).toNat
            ++ mk_row (prev.chars ++ row.chars) :: E.editor_row.drop ((E.cy - 1).toNat + 2),
          dirty := E.dirty + 1 + 1,
          cx := prev.size,
          cy := E.cy - 1 } := by
  obtain ⟨h0, h1, _⟩ := row_at_some _ _ _ hrow
  obtain ⟨hp0, hp1, _⟩ := row_at_some _ _ _ hprev
  have hne : ¬ E.cy = E.numrows := by simp only [editor_config.numrows]; omega
  have hne2 : ¬ (E.cx = 0 ∧ E.cy = 0) := by omega
  have hpos : ¬ E.cx > 0 := by omega
  have happ := editor_row_append_string_eq { E with cx := prev.size } (E.cy - 1) row.chars prev
    hprev
  simp only [editor_del_char, if_neg hne, if_neg hne2, hrow, if_neg hpos, hprev, happ]
  have hnum : ({ E with cx := prev.size,
                        editor_row := set_row E.editor_row (E.cy - 1)
                          (mk_row (prev.chars ++ row.chars)),
                        dirty := E.dirty + 1 } : editor_config).numrows = E.numrows := by
    simp [editor_config.numrows, set_row]
  rw [editor_del_row_eq _ E.cy h0 (by rw [hnum]; simp only [editor_config.numrows]; omega)]
  have e : E.cy.toNat = (E.cy - 1).toNat + 1 := by omega
  simp only [set_row, e]
  rw [set_take_drop _ _ _ (by omega)]

/-- Claim C6: with the cursor on an existing row (`0 <= cx <= size`), `editor_del_char`
(i) returns the state unchanged when `cx = 0` and `cy = 0`; (ii) when `cx > 0` removes exactly
the byte at index `cx-1` of row `cy` (render re-derived), leaves the other rows and `numrows`
unchanged and sets `cx` to `cx-1`; (iii) when `cx = 0` and `cy > 0` replaces row `cy-1` by the
row holding `rows[cy-1].chars ++ rows[cy].chars`, removes row `cy` (rows before `cy-1` keep
their index, rows after `cy` move down by one) and sets the cursor to
`(cy-1, old size of row cy-1)`. -/
theorem C6_del_char (E : editor_config) (row : erow)
    (hrow : row_at E.editor_row E.cy = some row) (_hcx0 : 0 ≤ E.cx) (hcx : E.cx ≤ row.size) :
    (E.cx = 0 → E.cy = 0 → editor_del_char E = some E) ∧
    (E.cx > 0 →
      ∃ E1, editor_del_char E = some E1 ∧
        row_at E1.editor_row E.cy
          = some (mk_row (row.chars.take (E.cx.toNat - 1) ++ row.chars.drop E.cx.toNat)) ∧
        (∀ i : Int, i ≠ E.cy → row_at E1.editor_row i = row_at E.editor_row i) ∧
        E1.numrows = E.numrows ∧ E1.cx = E.cx - 1 ∧ E1.cy = E.cy) ∧
    (E.cx = 0 → E.cy > 0 →
      ∃ prev E1, row_at E.editor_row (E.cy - 1) = some prev ∧ editor_del_char E = some E1 ∧
        E1.editor_row
          = E.editor_row.take (E.cy.toNat - 1) ++ [mk_row (prev.chars ++ row.chars)]
            ++ E.editor_row.drop (E.cy.toNat + 1) ∧
        (∀ i : Int, 0 ≤ i → i < E.cy - 1 → row_at E1.editor_row i = row_at E.editor_row i) ∧
        row_at E1.editor_row (E.cy - 1) = some (mk_row (prev.chars ++ row.chars)) ∧
        (∀ i : Int, E.cy < i → row_at E1.editor_row (i - 1) = row_at E.editor_row i) ∧
        E1.numrows = E.numrows - 1 ∧ E1.cy = E.cy - 1 ∧ E1.cx = prev.size) := by
  obtain ⟨h0, h1, _⟩ := row_at_some _ _ _ hrow
  refine ⟨?_, ?_, ?_⟩
  · intro hx hy
    have hne : ¬ E.cy = E.numrows := by simp only [editor_config.numrows]; omega
    simp only [editor_del_char, if_neg hne, if_pos (And.intro hx hy)]
  · intro hpos
    refine ⟨_, editor_del_char_cx_pos E row hrow hpos hcx, ?_, ?_, ?_, rfl, rfl⟩
    · have e1 : (E.cx - 1).toNat = E.cx.toNat - 1 := by omega
      have e2 : (E.cx - 1).toNat + 1 = E.cx.toNat := by omega
      rw [e2, e1]
      exact row_at_set_row_self _ _ _ h0 h1
    · intro i hi
      exact row_at_set_row_ne _ _ _ _ h0 hi
    · simp [editor_config.numrows, set_row]
  · intro hx hy
    have hprev : ∃ prev, row_at E.editor_row (E.cy - 1) = some prev := by
      rw [row_at_nonneg _ _ (by omega)]
      exact ⟨E.editor_row[(E.cy - 1).toNat], List.getElem?_eq_getElem (by omega)⟩
    obtain ⟨prev, hprev⟩ := hprev
    have em : (E.cy - 1).toNat = E.cy.toNat - 1 := by omega
    have em2 : (E.cy - 1).toNat + 2 = E.cy.toNat + 1 := by omega
    have hlen : E.cy.toNat - 1 + 1 < E.editor_row.length := by omega
    have hrows : ({ E with
          editor_row := E.editor_row.take (E.cy - 1).toNat
            ++ mk_row (prev.chars ++ row.chars) :: E.editor_row.drop ((E.cy - 1).toNat + 2),
          dirty := E.dirty + 1 + 1,
          cx := prev.size,
          cy := E.cy - 1 } : editor_config).editor_row
        = E.editor_row.take (E.cy.toNat - 1)
          ++ mk_row (prev.chars ++ row.chars) :: E.editor_row.drop (E.cy.toNat - 1 + 2) := by
      simp only [em]
    refine ⟨prev, _, hprev, editor_del_char_join E row prev hrow hprev hx, ?_, ?_, ?_, ?_, ?_,
      rfl, rfl⟩
    · rw [hrows]
      have e : E.cy.toNat - 1 + 2 = E.cy.toNat + 1 := by omega
      rw [e]
      simp only [List.append_assoc, List.singleton_append]
    · intro i hi0 hi1
      rw [row_at_nonneg _ i hi0, row_at_nonneg _ i hi0, hrows]
      exact getElem?_join_lt _ _ _ _ hlen (by omega)
    · rw [row_at_nonneg _ _ (by omega), hrows, em]
      exact getElem?_join_eq _ _ _ hlen
    · intro i hi
      rw [row_at_nonneg _ _ (by omega), row_at_nonneg _ i (by omega), hrows]
      have e : i.toNat = (i - 1).toNat + 1 := by omega
      rw [e]
      exact getElem?_join_gt _ _ _ _ hlen (by omega)
    · simp only [editor_config.numrows, List.length_append, List.length_take, List.length_cons,
        List.length_drop]
      omega

/-- Witness of C6: backspace at `(0, 0)` of `["a"]`, at `(0, 1)` of `["ab"]`, and at
`(1, 0)` of `["ab", "cd"]`, where it joins the rows. -/
theorem C6_del_char_witness :
    editor_del_char (mk_doc [[97]] 0 0) = some (mk_doc [[97]] 0 0) ∧
    (∃ E1, editor_del_char (mk_doc [[97, 98]] 0 1) = some E1 ∧
      row_at E1.editor_row 0 = some (mk_row [98]) ∧
      (∀ i : Int, i ≠ 0 → row_at E1.editor_row i = row_at (mk_doc [[97, 98]] 0 1).editor_row i) ∧
      E1.numrows = 1 ∧ E1.cx = 0 ∧ E1.cy = 0) ∧
    (∃ prev E1, row_at (mk_doc [[97, 98], [99, 100]] 1 0).editor_row 0 = some prev ∧
      editor_del_char (mk_doc [[97, 98], [99, 100]] 1 0) = some E1 ∧
      E1.editor_row = [mk_row (prev.chars ++ [99, 100])] ∧
      (∀ i : Int, 0 ≤ i → i < 0 →
        row_at E1.editor_row i = row_at (mk_doc [[97, 98], [99, 100]] 1 0).editor_row i) ∧
      row_at E1.editor_row 0 = some (mk_row (prev.chars ++ [99, 100])) ∧
      (∀ i : Int, 1 < i →
        row_at E1.editor_row (i - 1) = row_at (mk_doc [[97, 98], [99, 100]] 1 0).editor_row i) ∧
      E1.numrows = 1 ∧ E1.cy = 0 ∧ E1.cx = prev.size) :=
  ⟨(C6_del_char (mk_doc [[97]] 0 0) (mk_row [97]) (by decide) (by decide) (by decide)).1
      (by decide) (by decide),
   (C6_del_char (mk_doc [[97, 98]] 0 1) (mk_row [97, 98]) (by decide) (by decide)
      (by decide)).2.1 (by decide),
   (C6_del_char (mk_doc [[97, 98], [99, 100]] 1 0) (mk_row [99, 100]) (by decide) (by decide)
      (by decide)).2.2 (by decide) (by decide)⟩

theorem set_after_insert {α : Type} (l : List α) (n : Nat) (a b : α) (h : n < l.length) :
    (l.take (n + 1) ++ b :: l.drop (n + 1)).set n a = l.take n ++ a :: b :: l.drop (n + 1) := by
  rw [List.set_append, if_pos (by simp; omega), List.set_eq_take_append_cons_drop,
    if_pos (by simp; omega), List.take_take, List.drop_take]
  simp

theorem eq_take_cons_drop {α : Type} (l : List α) (n : Nat) (x : α) (h : l[n]? = some x) :
    l = l.take n ++ x :: l.drop (n + 1) := by
  have hn : n < l.length := by
    by_contra hc
    rw [List.getElem?_eq_none (by omega)] at h
    exact Option.noConfusion h
  rw [List.getElem?_eq_getElem hn] at h
  have hx := Option.some.inj h
  rw [← hx, ← List.drop_eq_getElem_cons hn, List.take_append_drop]

theorem getElem?_pair_fst {α : Type} (l t : List α) (n : Nat) (a b : α) (h : n ≤ l.length) :
    (l.take n ++ a :: b :: t)[n]? = some a := by
  rw [List.getElem?_append_right (by simp)]
  simp [Nat.min_eq_left h]

theorem getElem?_pair_snd {α : Type} (l t : List α) (n : Nat) (a b : α) (h : n ≤ l.length) :
    (l.take n ++ a :: b :: t)[n + 1]? = some b := by
  rw [List.getElem?_append_right (by simp)]
  simp [Nat.min_eq_left h]

theorem take_pair {α : Type} (l t : List α) (n : Nat) (a b : α) (h : n ≤ l.length) :
    (l.take n ++ a :: b :: t).take n = l.take n := by
  rw [List.take_append_of_le_length (by simp; omega), List.take_take]
  simp

theorem drop_pair {α : Type} (l t : List α) (n : Nat) (a b : α) (h : n ≤ l.length) :
    (l.take n ++ a :: b :: t).drop (n + 2) = t := by
  have e : n + 2 = (l.take n).length + 2 := by simp; omega
  rw [e, List.drop_append]
  rfl

/-- The two rows that `editor_insert_newline` leaves at `cy` and `cy+1`. -/
theorem editor_insert_newline_eq (E : editor_config) (row : erow)
    (hrow : row_at E.editor_row E.cy = some row) (hcx0 : 0 ≤ E.cx) (hcx : E.cx ≤ row.size) :
    editor_insert_newline E
      = some { E with
          editor_row := E.editor_row.take E.cy.toNat
            ++ (if E.cx = 0 then mk_row [] else mk_row (row.chars.take E.cx.toNat))
              :: (if E.cx = 0 then row else mk_row (row.chars.drop E.cx.toNat))
              :: E.editor_row.drop (E.cy.toNat + 1),
          dirty := E.dirty + 1,
          cy := E.cy + 1,
          cx := 0 } := by
  obtain ⟨h0, h1, hget⟩ := row_at_some _ _ _ hrow
  have hlt : E.cy.toNat < E.editor_row.length := by omega
  by_cases hz : E.cx = 0
  · have hins := editor_insert_row_eq E E.cy [] h0
      (by simp only [editor_config.numrows]; omega)
    simp only [editor_insert_newline, if_pos hz, hins]
    have hd : E.editor_row.drop E.cy.toNat = row :: E.editor_row.drop (E.cy.toNat + 1) := by
      rw [List.drop_eq_getElem_cons hlt]
      rw [List.getElem?_eq_getElem hlt] at hget
      rw [Option.some.inj hget]
    rw [hd]
  · have hc : ¬ (E.cx < 0 ∨ E.cx > row.size) := by omega
    have hins := editor_insert_row_eq E (E.cy + 1) (row.chars.drop E.cx.toNat) (by omega)
      (by simp only [editor_config.numrows]; omega)
    have e : (E.cy + 1).toNat = E.cy.toNat + 1 := by omega
    rw [e] at hins
    have hrow1 : row_at (E.editor_row.take (E.cy.toNat + 1)
        ++ mk_row (row.chars.drop E.cx.toNat) :: E.editor_row.drop (E.cy.toNat + 1)) E.cy
        = some row := by
      rw [row_at_nonneg _ _ h0, getElem?_insert_lt _ _ _ _ (by omega) (by omega)]
      exact hget
    simp only [editor_insert_newline, if_neg hz, hrow, if_neg hc, hins, hrow1,
      editor_update_row_with, set_row]
    rw [set_after_insert _ _ _ _ hlt]

/-- Claim C4: with the cursor on an existing row and `0 <= cx <= size`,
`editor_insert_newline` returns the state whose row sequence is
`rows[0..cy) ++ [chars[0..cx), chars[cx..size)] ++ rows(cy..numrows)` with
`chars = rows[cy].chars` (for `cx = 0` an empty row in front of the untouched current row,
otherwise two freshly rendered rows), and whose cursor is `(cy+1, 0)`. -/
theorem C4_insert_newline (E : editor_config) (row : erow)
    (hrow : row_at E.editor_row E.cy = some row) (hcx0 : 0 ≤ E.cx) (hcx : E.cx ≤ row.size) :
    ∃ E1, editor_insert_newline E = some E1 ∧
      doc_chars E1
        = (doc_chars E).take E.cy.toNat
          ++ [row.chars.take E.cx.toNat, row.chars.drop E.cx.toNat]
          ++ (doc_chars E).drop (E.cy.toNat + 1) ∧
      (E.cx = 0 →
        E1.editor_row = E.editor_row.take E.cy.toNat ++ [mk_row [], row]
          ++ E.editor_row.drop (E.cy.toNat + 1)) ∧
      (0 < E.cx →
        E1.editor_row = E.editor_row.take E.cy.toNat
          ++ [mk_row (row.chars.take E.cx.toNat), mk_row (row.chars.drop E.cx.toNat)]
          ++ E.editor_row.drop (E.cy.toNat + 1)) ∧
      E1.numrows = E.numrows + 1 ∧
      E1.cy = E.cy + 1 ∧ E1.cx = 0 := by
  obtain ⟨h0, h1, hget⟩ := row_at_some _ _ _ hrow
  refine ⟨_, editor_insert_newline_eq E row hrow hcx0 hcx, ?_, ?_, ?_, ?_, rfl, rfl⟩
  · by_cases hz : E.cx = 0
    · simp [doc_chars, hz, mk_row]
    · simp [doc_chars, hz, mk_row]
  · intro hz
    simp [hz]
  · intro hpos
    have hz : ¬ E.cx = 0 := by omega
    simp [hz]
  · simp only [editor_config.numrows, List.length_append, List.length_take, List.length_cons,
      List.length_drop]
    omega

/-- Witness of C4: `["hello", "world"]` with the cursor at `(0, 5)` becomes
`["hello", "", "world"]` with the cursor at `(1, 0)`. -/
theorem C4_insert_newline_witness :
    ∃ E1, editor_insert_newline
        (mk_doc [[104, 101, 108, 108, 111], [119, 111, 114, 108, 100]] 0 5) = some E1 ∧
      doc_chars E1 = [[104, 101, 108, 108, 111], [], [119, 111, 114, 108, 100]] ∧
      E1.cy = 1 ∧ E1.cx = 0 := by
  obtain ⟨E1, h1, h2, _, _, _, h3, h4⟩ :=
    C4_insert_newline (mk_doc [[104, 101, 108, 108, 111], [119, 111, 114, 108, 100]] 0 5)
      (mk_row [104, 101, 108, 108, 111]) (by decide) (by decide) (by decide)
  exact ⟨E1, h1, h2, h3, h4⟩

theorem mk_row_of_updated (row : erow) (hr : editor_update_row row = some row) :
    mk_row row.chars = row := by
  rw [editor_update_row_eq] at hr
  exact Option.some.inj hr

/-- Claim C5: split/join inverse law: with the cursor on an existing row and
`0 <= cx <= size`, `editor_insert_newline` followed by `editor_del_char` returns a state with
the original sequence of row `chars`, the original `numrows` and the cursor back at
`(cy, cx)`; when row `cy` carried its derived render, the rows (chars, render, rsize) are
identical to the original ones. -/
theorem C5_split_join_inverse (E : editor_config) (row : erow)
    (hrow : row_at E.editor_row E.cy = some row) (hcx0 : 0 ≤ E.cx) (hcx : E.cx ≤ row.size) :
    ∃ E1 E2, editor_insert_newline E = some E1 ∧ editor_del_char E1 = some E2 ∧
      doc_chars E2 = doc_chars E ∧ E2.numrows = E.numrows ∧
      E2.cy = E.cy ∧ E2.cx = E.cx ∧
      (editor_update_row row = some row → E2.editor_row = E.editor_row) := by
  obtain ⟨h0, h1, hget⟩ := row_at_some _ _ _ hrow
  have hlt : E.cy.toNat ≤ E.editor_row.length := by omega
  have hsplit := eq_take_cons_drop E.editor_row E.cy.toNat row hget
  have hnew := editor_insert_newline_eq E row hrow hcx0 hcx
  generalize hA : (if E.cx = 0 then mk_row [] else mk_row (row.chars.take E.cx.toNat)) = A
    at hnew
  generalize hB : (if E.cx = 0 then row else mk_row (row.chars.drop E.cx.toNat)) = B at hnew
  have hAB : A.chars ++ B.chars = row.chars := by
    by_cases hz : E.cx = 0
    · rw [← hA, ← hB, if_pos hz, if_pos hz]; rfl
    · rw [← hA, ← hB, if_neg hz, if_neg hz]
      exact List.take_append_drop _ _
  have hAsize : A.size = E.cx := by
    by_cases hz : E.cx = 0
    · rw [← hA, if_pos hz, hz]; rfl
    · rw [← hA, if_neg hz]
      simp only [erow.size, mk_row, List.length_take] at hcx ⊢
      omega
  have e1 : (E.cy + 1 - 1).toNat = E.cy.toNat := by
    have : E.cy + 1 - 1 = E.cy := by omega
    rw [this]
  have e2 : (E.cy + 1).toNat = E.cy.toNat + 1 := by omega
  have hjoin := editor_del_char_join
    { E with
      editor_row := E.editor_row.take E.cy.toNat ++ A :: B :: E.editor_row.drop (E.cy.toNat + 1),
      dirty := E.dirty + 1, cy := E.cy + 1, cx := 0 } B A
    (by
      show row_at _ (E.cy + 1) = some B
      rw [row_at_nonneg _ _ (by omega), e2]
      exact getElem?_pair_snd _ _ _ _ _ hlt)
    (by
      show row_at _ (E.cy + 1 - 1) = some A
      rw [row_at_nonneg _ _ (by omega), e1]
      exact getElem?_pair_fst _ _ _ _ _ hlt)
    rfl
  simp only [e1, take_pair _ _ _ _ _ hlt, drop_pair _ _ _ _ _ hlt, hAB] at hjoin
  refine ⟨_, _, hnew, hjoin, ?_, ?_, ?_, hAsize, ?_⟩
  · simp only [doc_chars, List.map_append, List.map_cons]
    conv_rhs => rw [hsplit]
    simp [mk_row]
  · simp only [editor_config.numrows]
    conv_rhs => rw [hsplit]
    simp
  · show E.cy + 1 - 1 = E.cy
    omega
  · intro hr
    show E.editor_row.take E.cy.toNat ++ mk_row row.chars :: E.editor_row.drop (E.cy.toNat + 1)
      = E.editor_row
    rw [mk_row_of_updated row hr]
    exact hsplit.symm

/-- Witness of C5: splitting `"a\tb"` in `["a\tb", "c"]` at `cx = 2` and joining again. -/
theorem C5_split_join_inverse_witness :
    ∃ E1 E2, editor_insert_newline (mk_doc [[97, 9, 98], [99]] 0 2) = some E1 ∧
      editor_del_char E1 = some E2 ∧
      doc_chars E2 = [[97, 9, 98], [99]] ∧ E2.numrows = 2 ∧ E2.cy = 0 ∧ E2.cx = 2 ∧
      (editor_update_row (mk_row [97, 9, 98]) = some (mk_row [97, 9, 98]) →
        E2.editor_row = (mk_doc [[97, 9, 98], [99]] 0 2).editor_row) :=
  C5_split_join_inverse (mk_doc [[97, 9, 98], [99]] 0 2) (mk_row [97, 9, 98])
    (by decide) (by decide) (by decide)

/-! ## Repeated backspace -/

theorem total_size_append (xs ys : List erow) :
    total_size (xs ++ ys) = total_size xs + total_size ys := by
  simp [total_size]

theorem row_at_last (front : List erow) (last : erow) :
    row_at (front ++ [last]) (front.length : Int) = some last := by
  rw [row_at_nonneg _ _ (by omega)]
  simp

theorem at_end_cursor_ok (E : editor_config) (h : at_end_of_last_row E) :
    ∃ row, row_at E.editor_row E.cy = some row ∧ 0 ≤ E.cy ∧ E.cy < E.numrows ∧
      0 ≤ E.cx ∧ E.cx ≤ row.size := by
  obtain ⟨front, last, hrows, hcy, hcx⟩ := h
  refine ⟨last, ?_, ?_, ?_, ?_, ?_⟩
  · rw [hrows, hcy]; exact row_at_last front last
  · omega
  · simp only [editor_config.numrows, hrows, List.length_append, List.length_singleton]
    omega
  · simp only [hcx, erow.size]; omega
  · omega

/-- One backspace at the end of the last row, while anything is left to delete. -/
theorem editor_del_char_at_end (E : editor_config) (h : at_end_of_last_row E)
    (hpos : 0 < backspace_count E) :
    ∃ E1, editor_del_char E = some E1 ∧ at_end_of_last_row E1 ∧
      backspace_count E1 + 1 = backspace_count E := by
  obtain ⟨front, last, hrows, hcy, hcx⟩ := h
  have hrow : row_at E.editor_row E.cy = some last := by
    rw [hrows, hcy]; exact row_at_last front last
  by_cases hz : E.cx = 0
  · -- the last row is empty: join with the previous row
    have hlen0 : last.chars.length = 0 := by
      simp only [erow.size] at hcx; omega
    have hnil : last.chars = [] := List.length_eq_zero.mp hlen0
    have hfront : front ≠ [] := by
      intro hf
      simp only [backspace_count, hrows, hf, total_size, List.nil_append, List.map_cons,
        List.map_nil, List.sum_cons, List.sum_nil, List.length_singleton, hlen0] at hpos
      omega
    obtain ⟨front1, prev, hf1⟩ : ∃ front1 prev, front = front1 ++ [prev] :=
      ⟨front.dropLast, front.getLast hfront, (List.dropLast_append_getLast hfront).symm⟩
    have hcy1 : E.cy - 1 = (front1.length : Int) := by
      rw [hcy, hf1]; simp
    have hprev : row_at E.editor_row (E.cy - 1) = some prev := by
      have e : ((front1.length : Int)).toNat = front1.length := by omega
      rw [hrows, hf1, hcy1, List.append_assoc, row_at_nonneg _ _ (by omega), e,
        List.getElem?_append_right (le_refl _)]
      simp
    refine ⟨_, editor_del_char_join E last prev hrow hprev hz, ?_, ?_⟩
    · refine ⟨front1, mk_row (prev.chars ++ last.chars), ?_, hcy1, ?_⟩
      · show E.editor_row.take (E.cy - 1).toNat
            ++ mk_row (prev.chars ++ last.chars) :: E.editor_row.drop ((E.cy - 1).toNat + 2) = _
        rw [hcy1, hrows, hf1]
        have e : ((front1.length : Int)).toNat = front1.length := by omega
        rw [e, List.append_assoc, List.take_left' rfl, List.drop_append]
        rfl
      · show prev.size = (mk_row (prev.chars ++ last.chars)).size
        simp [erow.size, mk_row, hlen0]
    · show total_size (E.editor_row.take (E.cy - 1).toNat
            ++ mk_row (prev.chars ++ last.chars) :: E.editor_row.drop ((E.cy - 1).toNat + 2))
          + (E.editor_row.take (E.cy - 1).toNat
            ++ mk_row (prev.chars ++ last.chars)
              :: E.editor_row.drop ((E.cy - 1).toNat + 2)).length - 1 + 1 = backspace_count E
      rw [hcy1]
      simp only [backspace_count]
      rw [hrows, hf1]
      have e : ((front1.length : Int)).toNat = front1.length := by omega
      rw [e, List.append_assoc, List.take_left' rfl, List.drop_append]
      simp [total_size, mk_row, hnil]
      omega
  · -- the last row is not empty: its last byte goes
    have hcxpos : 0 < E.cx := by
      simp only [hcx, erow.size] at hz ⊢; omega
    have hsz : 0 < last.chars.length := by
      simp only [hcx, erow.size] at hcxpos; omega
    have e1 : (E.cx - 1).toNat = last.chars.length - 1 := by
      simp only [hcx, erow.size]; omega
    have hdrop : last.chars.drop (last.chars.length - 1 + 1) = [] := by
      rw [List.drop_eq_nil_iff]; omega
    have hset : set_row E.editor_row E.cy
          (mk_row (last.chars.take (E.cx - 1).toNat ++ last.chars.drop ((E.cx - 1).toNat + 1)))
        = front ++ [mk_row (last.chars.take (last.chars.length - 1))] := by
      have e : ((front.length : Int)).toNat = front.length := by omega
      rw [e1, hdrop, List.append_nil, hrows, hcy, set_row, e]
      simp
    refine ⟨_, editor_del_char_cx_pos E last hrow hcxpos (by omega), ?_, ?_⟩
    · refine ⟨front, mk_row (last.chars.take (last.chars.length - 1)), hset, hcy, ?_⟩
      show E.cx - 1 = (mk_row (last.chars.take (last.chars.length - 1))).size
      simp only [hcx, erow.size, mk_row, List.length_take]
      omega
    · show total_size (set_row E.editor_row E.cy _) + (set_row E.editor_row E.cy _).length
          - 1 + 1 = backspace_count E
      rw [hset]
      simp only [backspace_count]
      rw [hrows]
      simp only [total_size_append, List.length_append, List.length_singleton]
      simp only [total_size, mk_row, List.map_cons, List.map_nil, List.sum_cons, List.sum_nil,
        List.length_take]
      omega

theorem del_char_iter_at_end (k : Nat) :
    ∀ E : editor_config, at_end_of_last_row E → k ≤ backspace_count E →
      ∃ Ek, del_char_iter k E = some Ek ∧ at_end_of_last_row Ek ∧
        backspace_count Ek + k = backspace_count E := by
  induction k with
  | zero => intro E h _; exact ⟨E, rfl, h, rfl⟩
  | succ k ih =>
    intro E h hk
    obtain ⟨E1, hd, hJ, hm⟩ := editor_del_char_at_end E h (by omega)
    obtain ⟨Ek, hit, hJk, hmk⟩ := ih E1 hJ (by omega)
    refine ⟨Ek, ?_, hJk, by omega⟩
    simp only [del_char_iter, hd, hit]

/-- Claim C8: from a document with `numrows >= 1` and the cursor at the end of the last row,
every one of the first `N = (sum of row sizes) + numrows - 1` backspaces is defined, each
state on the way has `0 <= cy < numrows` and `0 <= cx <= rows[cy].size` and still needs
exactly `N - k` backspaces, and after exactly `N` of them the document is a single empty row
with the cursor at `(0, 0)`, on which `editor_del_char` changes nothing.  On an empty document
(`numrows = 0`, cursor row 0) `editor_del_char` changes nothing, so `numrows` stays 0. -/
theorem C8_backspace_from_end (E : editor_config) :
    (∀ last : erow, 1 ≤ E.numrows → E.cy = E.numrows - 1 →
        row_at E.editor_row E.cy = some last → E.cx = last.size →
      (∀ k : Nat, k ≤ backspace_count E →
        ∃ Ek row, del_char_iter k E = some Ek ∧
          0 ≤ Ek.cy ∧ Ek.cy < Ek.numrows ∧ row_at Ek.editor_row Ek.cy = some row ∧
          0 ≤ Ek.cx ∧ Ek.cx ≤ row.size ∧
          backspace_count Ek + k = backspace_count E) ∧
      (∃ EN r, del_char_iter (backspace_count E) E = some EN ∧
          EN.editor_row = [r] ∧ r.chars = [] ∧ EN.cy = 0 ∧ EN.cx = 0 ∧
          editor_del_char EN = some EN)) ∧
    (E.numrows = 0 → E.cy = 0 →
      editor_del_char E = some E ∧
      ∀ E1, editor_del_char E = some E1 → E1.numrows = 0) := by
  refine ⟨?_, ?_⟩
  · intro last hn hcy hlast hcx
    obtain ⟨h0, h1, hget⟩ := row_at_some _ _ _ hlast
    have hJ : at_end_of_last_row E := by
      have hsplit := eq_take_cons_drop E.editor_row E.cy.toNat last hget
      have hd : E.editor_row.drop (E.cy.toNat + 1) = [] := by
        rw [List.drop_eq_nil_iff]
        simp only [editor_config.numrows] at hcy; omega
      rw [hd] at hsplit
      refine ⟨E.editor_row.take E.cy.toNat, last, hsplit, ?_, hcx⟩
      simp only [List.length_take]
      omega
    refine ⟨?_, ?_⟩
    · intro k hk
      obtain ⟨Ek, hit, hJk, hmk⟩ := del_char_iter_at_end k E hJ hk
      obtain ⟨row, hr, c0, c1, x0, x1⟩ := at_end_cursor_ok Ek hJk
      exact ⟨Ek, row, hit, c0, c1, hr, x0, x1, hmk⟩
    · obtain ⟨EN, hit, hJN, hmN⟩ := del_char_iter_at_end (backspace_count E) E hJ (le_refl _)
      have hzero : backspace_count EN = 0 := by omega
      obtain ⟨front, r, hrows, hcyN, hcxN⟩ := hJN
      simp only [backspace_count, hrows, total_size_append, List.length_append,
        List.length_singleton] at hzero
      have hfl : front.length = 0 := by omega
      have hf : front = [] := List.length_eq_zero.mp hfl
      have hrl : r.chars.length = 0 := by
        simp only [total_size, List.map_cons, List.map_nil, List.sum_cons, List.sum_nil] at hzero
        omega
      have hcy0 : EN.cy = 0 := by rw [hcyN, hfl]; rfl
      have hcx0 : EN.cx = 0 := by rw [hcxN, erow.size, hrl]; rfl
      refine ⟨EN, r, hit, by rw [hrows, hf]; rfl, List.length_eq_zero.mp hrl, hcy0, hcx0, ?_⟩
      have hne : ¬ EN.cy = EN.numrows := by
        simp only [editor_config.numrows, hrows, hf, hcy0]
        simp
      simp only [editor_del_char, if_neg hne, if_pos (And.intro hcx0 hcy0)]
  · intro hn hcy
    have hd : editor_del_char E = some E := by
      have : E.cy = E.numrows := by omega
      simp only [editor_del_char, if_pos this]
    refine ⟨hd, ?_⟩
    intro E1 h1
    rw [hd] at h1
    rw [← Option.some.inj h1]
    exact hn

/-- Witness of C8: five backspaces empty `["ab", "cd"]` from `(1, 2)`; the empty document. -/
theorem C8_backspace_from_end_witness :
    (∃ EN r, del_char_iter 5 (mk_doc [[97, 98], [99, 100]] 1 2) = some EN ∧
        EN.editor_row = [r] ∧ r.chars = [] ∧ EN.cy = 0 ∧ EN.cx = 0 ∧
        editor_del_char EN = some EN) ∧
    (editor_del_char (mk_doc [] 0 0) = some (mk_doc [] 0 0) ∧
      ∀ E1, editor_del_char (mk_doc [] 0 0) = some E1 → E1.numrows = 0) :=
  ⟨((C8_backspace_from_end (mk_doc [[97, 98], [99, 100]] 1 2)).1 (mk_row [99, 100])
      (by decide) (by decide) (by decide) (by decide)).2,
   (C8_backspace_from_end (mk_doc [] 0 0)).2 (by decide) (by decide)⟩

/-! ## Out-of-range indices -/

theorem editor_row_insert_char_clamped (E : editor_config) (ri at_ c : Int) (row : erow)
    (hrow : row_at E.editor_row ri = some row) (h : at_ < 0 ∨ at_ > row.size) :
    editor_row_insert_char E ri at_ c
      = some { E with
          editor_row := set_row E.editor_row ri (mk_row (row.chars ++ [(c % 256).toNat])),
          dirty := E.dirty + 1 } := by
  have e : row.size.toNat = row.chars.length := by simp [erow.size]
  simp only [editor_row_insert_char, hrow, if_pos h, editor_update_row_with, e,
    List.take_length, List.drop_length]

/-- Counterexample to C11 as stated: on the row `"ab"` the out-of-range column `at = 5`
passed to `editor_row_insert_char` does not leave the state unchanged: the byte is appended
at the end of the row and `dirty` grows. -/
theorem C11_insert_char_out_of_range_not_noop :
    (5 : Int) > (mk_row [97, 98]).size ∧
    editor_row_insert_char (mk_doc [[97, 98]] 0 0) 0 5 120 ≠ some (mk_doc [[97, 98]] 0 0) ∧
    (editor_row_insert_char (mk_doc [[97, 98]] 0 0) 0 5 120).map doc_chars
      = some [[97, 98, 120]] ∧
    (editor_row_insert_char (mk_doc [[97, 98]] 0 0) 0 5 120).map editor_config.dirty
      = some 1 := by
  refine ⟨by decide, by decide, by decide, by decide⟩

/-- Claim C11 (amended): `editor_insert_row` with `at < 0` or `at > numrows`,
`editor_del_row` with `at < 0` or `at >= numrows` and `editor_row_del_char` with `at < 0` or
`at >= size` return the whole state unchanged; `editor_row_insert_char` with `at < 0` or
`at > size` clamps `at` to `size`: it appends the byte at the end of the row, re-derives the
render and increments `dirty`, the cursor and the other rows staying as they were. -/
theorem C11_out_of_range (E : editor_config) :
    (∀ (at_ : Int) (s : List Nat), at_ < 0 ∨ at_ > E.numrows →
        editor_insert_row E at_ s = some E) ∧
    (∀ at_ : Int, at_ < 0 ∨ at_ ≥ E.numrows → editor_del_row E at_ = E) ∧
    (∀ (ri at_ : Int) (row : erow), row_at E.editor_row ri = some row →
        at_ < 0 ∨ at_ ≥ row.size → editor_row_del_char E ri at_ = some E) ∧
    (∀ (ri at_ c : Int) (row : erow), row_at E.editor_row ri = some row →
        at_ < 0 ∨ at_ > row.size →
        ∃ E1, editor_row_insert_char E ri at_ c = some E1 ∧
          row_at E1.editor_row ri = some (mk_row (row.chars ++ [(c % 256).toNat])) ∧
          (∀ i : Int, i ≠ ri → row_at E1.editor_row i = row_at E.editor_row i) ∧
          E1.numrows = E.numrows ∧ E1.dirty = E.dirty + 1 ∧
          E1.cx = E.cx ∧ E1.cy = E.cy) := by
  refine ⟨?_, ?_, ?_, ?_⟩
  · intro at_ s h
    simp only [editor_insert_row, if_pos h]
  · intro at_ h
    simp only [editor_del_row, if_pos h]
  · intro ri at_ row hrow h
    simp only [editor_row_del_char, hrow, if_pos h]
  · intro ri at_ c row hrow h
    obtain ⟨h0, h1, _⟩ := row_at_some _ _ _ hrow
    refine ⟨_, editor_row_insert_char_clamped E ri at_ c row hrow h, ?_, ?_, ?_, rfl, rfl, rfl⟩
    · exact row_at_set_row_self _ _ _ h0 h1
    · intro i hi
      exact row_at_set_row_ne _ _ _ _ h0 hi
    · simp [editor_config.numrows, set_row]

/-- Witness of C11 (amended) on `["ab", "c"]`: the three no-ops and the clamped insertion. -/
theorem C11_out_of_range_witness :
    editor_insert_row (mk_doc [[97, 98], [99]] 0 0) 3 [120] = some (mk_doc [[97, 98], [99]] 0 0) ∧
    editor_del_row (mk_doc [[97, 98], [99]] 0 0) 2 = mk_doc [[97, 98], [99]] 0 0 ∧
    editor_row_del_char (mk_doc [[97, 98], [99]] 0 0) 0 2 = some (mk_doc [[97, 98], [99]] 0 0) ∧
    (∃ E1, editor_row_insert_char (mk_doc [[97, 98], [99]] 0 0) 0 (-1) 120 = some E1 ∧
      row_at E1.editor_row 0 = some (mk_row [97, 98, 120]) ∧
      (∀ i : Int, i ≠ 0 →
        row_at E1.editor_row i = row_at (mk_doc [[97, 98], [99]] 0 0).editor_row i) ∧
      E1.numrows = 2 ∧ E1.dirty = 1 ∧ E1.cx = 0 ∧ E1.cy = 0) :=
  ⟨(C11_out_of_range (mk_doc [[97, 98], [99]] 0 0)).1 3 [120] (by decide),
   (C11_out_of_range (mk_doc [[97, 98], [99]] 0 0)).2.1 2 (by decide),
   (C11_out_of_range (mk_doc [[97, 98], [99]] 0 0)).2.2.1 0 2 (mk_row [97, 98]) (by decide)
      (by decide),
   (C11_out_of_range (mk_doc [[97, 98], [99]] 0 0)).2.2.2 0 (-1) 120 (mk_row [97, 98])
      (by decide) (by decide)⟩

/-! ## Save serialisation -/

theorem rows_to_string_copy_eq (rows : List erow) :
    ∀ buf : List Nat, rows_to_string_copy rows buf = buf ++ spec_saved_bytes rows := by
  induction rows with
  | nil => intro buf; simp [rows_to_string_copy, spec_saved_bytes]
  | cons r rs ih =>
    intro buf
    rw [rows_to_string_copy, ih]
    simp [spec_saved_bytes]

theorem rows_to_string_len_eq (rows : List erow) :
    ∀ totlen : Int,
      rows_to_string_len rows totlen = totlen + ((total_size rows + rows.length : Nat) : Int) := by
  induction rows with
  | nil => intro totlen; simp [rows_to_string_len, total_size]
  | cons r rs ih =>
    intro totlen
    rw [rows_to_string_len, ih]
    simp only [total_size, erow.size, List.map_cons, List.sum_cons, List.length_cons]
    push_cast
    omega

theorem spec_saved_bytes_length (rows : List erow) :
    (spec_saved_bytes rows).length = total_size rows + rows.length := by
  induction rows with
  | nil => rfl
  | cons r rs ih =>
    have h : spec_saved_bytes (r :: rs) = r.chars ++ 10 :: spec_saved_bytes rs := rfl
    rw [h]
    simp only [List.length_append, List.length_cons, ih, total_size, List.map_cons,
      List.sum_cons]
    omega

/-- Claim C12: for every document `editor_rows_to_string` returns the concatenation, in row
order, of each row's `chars` followed by exactly one `'\n'`, and reports
`buflen = (sum of row sizes) + numrows`, which is the length of that buffer.  The rows
`["foo", "bar"]` give exactly `"foo\nbar\n"` with `buflen = 8`. -/
theorem C12_rows_to_string :
    (∀ E : editor_config,
      (editor_rows_to_string E).1 = spec_saved_bytes E.editor_row ∧
      (editor_rows_to_string E).2 = (total_size E.editor_row : Int) + E.numrows ∧
      (editor_rows_to_string E).2 = (((editor_rows_to_string E).1.length : Nat) : Int)) ∧
    (∀ (r : erow) (rs : List erow),
      spec_saved_bytes (r :: rs) = r.chars ++ [10] ++ spec_saved_bytes rs) ∧
    spec_saved_bytes [] = [] ∧
    editor_rows_to_string (mk_doc [[102, 111, 111], [98, 97, 114]] 0 0)
      = ([102, 111, 111, 10, 98, 97, 114, 10], 8) := by
  refine ⟨?_, ?_, rfl, by decide⟩
  · intro E
    have h1 : (editor_rows_to_string E).1 = spec_saved_bytes E.editor_row := by
      simp [editor_rows_to_string, rows_to_string_copy_eq]
    have h2 : (editor_rows_to_string E).2
        = ((total_size E.editor_row + E.editor_row.length : Nat) : Int) := by
      simp [editor_rows_to_string, rows_to_string_len_eq]
    refine ⟨h1, ?_, ?_⟩
    · rw [h2]; simp [editor_config.numrows]
    · rw [h2, h1, spec_saved_bytes_length]
  · intro r rs
    simp [spec_saved_bytes]

/-! ## Viewport -/

theorem row_at_of_lt (rows : List erow) (i : Int) (h0 : 0 ≤ i) (h1 : i < (rows.length : Int)) :
    ∃ row, row_at rows i = some row := by
  rw [row_at_nonneg _ _ h0]
  exact ⟨rows[i.toNat], List.getElem?_eq_getElem (by omega)⟩

theorem rowlen_of_row_at (E : editor_config) (row : erow)
    (h : row_at E.editor_row E.cy = some row) : rowlen E = row.size := by
  simp only [rowlen, h]

theorem editor_row_cx_to_rx_some (row : erow) (cx : Int) (h : cx ≤ row.size) :
    ∃ rx, editor_row_cx_to_rx row cx = some rx := by
  by_cases h0 : 0 ≤ cx
  · exact ⟨_, editor_row_cx_to_rx_eq row cx h0 h⟩
  · have e : cx.toNat = 0 := by omega
    exact ⟨0, by simp [editor_row_cx_to_rx, e, cx_to_rx_loop]⟩

/-- What `editor_scroll` returns once the render column `rx` of the cursor is known. -/
theorem editor_scroll_some (E E1 : editor_config) (h : editor_scroll E = some E1) :
    ∃ rx : Int,
      (if E.cy < E.numrows then
          match row_at E.editor_row E.cy with
          | none => none
          | some row => editor_row_cx_to_rx row E.cx
        else some 0) = some rx ∧
      E1 = { E with
        rx := rx,
        rowoff := (if E.cy ≥ (if E.cy < E.rowoff then E.cy else E.rowoff) + E.row
                   then E.cy - E.row + 1 else (if E.cy < E.rowoff then E.cy else E.rowoff)),
        coloff := (if E.cx ≥ (if E.cx < E.coloff then rx else E.coloff) + E.col
                   then rx - E.col + 1 else (if E.cx < E.coloff then rx else E.coloff)) } := by
  unfold editor_scroll at h
  split at h
  · exact Option.noConfusion h
  · rename_i rx hrx
    exact ⟨rx, hrx, (Option.some.inj h).symm⟩

theorem editor_scroll_defined (E : editor_config) (h0 : 0 ≤ E.cy)
    (hcx : E.cy < E.numrows → E.cx ≤ rowlen E) : ∃ E1, editor_scroll E = some E1 := by
  unfold editor_scroll
  by_cases hlt : E.cy < E.numrows
  · obtain ⟨row, hrow⟩ := row_at_of_lt E.editor_row E.cy h0
      (by simpa [editor_config.numrows] using hlt)
    have hsz := hcx hlt
    rw [rowlen_of_row_at E row hrow] at hsz
    obtain ⟨rx, hrx⟩ := editor_row_cx_to_rx_some row E.cx hsz
    simp only [if_pos hlt, hrow, hrx]
    exact ⟨_, rfl⟩
  · simp only [if_neg hlt]
    exact ⟨_, rfl⟩

/-- Claim C17: for a window height `row >= 1` and `0 <= cy <= numrows`, whatever `rowoff`
was, every state that `editor_scroll` returns keeps `cy` and has
`rowoff <= cy < rowoff + row`; and `editor_scroll` does return a state whenever `cx` is
within the row under the cursor. -/
theorem C17_scroll_vertical (E : editor_config) (hrow : 1 ≤ E.row) (h0 : 0 ≤ E.cy)
    (_h1 : E.cy ≤ E.numrows) :
    (∀ E1, editor_scroll E = some E1 →
      E1.cy = E.cy ∧ E1.row = E.row ∧ E1.rowoff ≤ E1.cy ∧ E1.cy < E1.rowoff + E1.row) ∧
    ((E.cy < E.numrows → E.cx ≤ rowlen E) → ∃ E1, editor_scroll E = some E1) := by
  refine ⟨?_, editor_scroll_defined E h0⟩
  intro E1 h
  obtain ⟨rx, _, hE1⟩ := editor_scroll_some E E1 h
  subst hE1
  refine ⟨rfl, rfl, ?_, ?_⟩
  · show (if E.cy ≥ (if E.cy < E.rowoff then E.cy else E.rowoff) + E.row
          then E.cy - E.row + 1 else (if E.cy < E.rowoff then E.cy else E.rowoff)) ≤ E.cy
    split_ifs <;> omega
  · show E.cy < (if E.cy ≥ (if E.cy < E.rowoff then E.cy else E.rowoff) + E.row
          then E.cy - E.row + 1 else (if E.cy < E.rowoff then E.cy else E.rowoff)) + E.row
    split_ifs <;> omega

/-- Witness of C17: a 24-line window scrolled far below a cursor on row 1. -/
theorem C17_scroll_vertical_witness :
    (∀ E1, editor_scroll { (mk_doc [[97], [98], [99]] 1 0) with rowoff := 40 } = some E1 →
      E1.cy = 1 ∧ E1.row = 24 ∧ E1.rowoff ≤ E1.cy ∧ E1.cy < E1.rowoff + E1.row) ∧
    (∃ E1, editor_scroll { (mk_doc [[97], [98], [99]] 1 0) with rowoff := 40 } = some E1) :=
  ⟨(C17_scroll_vertical { (mk_doc [[97], [98], [99]] 1 0) with rowoff := 40 }
      (by decide) (by decide) (by decide)).1,
   (C17_scroll_vertical { (mk_doc [[97], [98], [99]] 1 0) with rowoff := 40 }
      (by decide) (by decide) (by decide)).2 (by decide)⟩

/-- Claim C18, evaluated where it fails: on a row of ten tabs with the cursor at its end
(`cx = 10`, render column `rx = 80`) in an 80-column window with `coloff = 0`,
`editor_scroll` compares `cx` (not `rx`) with the window and leaves `coloff = 0`, so that
`rx < coloff + col` does not hold. -/
theorem C18_scroll_horizontal_fails :
    cursor_ok (mk_doc [[9, 9, 9, 9, 9, 9, 9, 9, 9, 9]] 0 10) ∧
    1 ≤ (mk_doc [[9, 9, 9, 9, 9, 9, 9, 9, 9, 9]] 0 10).col ∧
    ∃ E1, editor_scroll (mk_doc [[9, 9, 9, 9, 9, 9, 9, 9, 9, 9]] 0 10) = some E1 ∧
      E1.rx = 80 ∧ E1.coloff = 0 ∧ E1.col = 80 ∧
      editor_row_cx_to_rx (mk_row [9, 9, 9, 9, 9, 9, 9, 9, 9, 9]) 10 = some E1.rx ∧
      ¬ (E1.rx < E1.coloff + E1.col) := by
  refine ⟨by decide, by decide,
    { (mk_doc [[9, 9, 9, 9, 9, 9, 9, 9, 9, 9]] 0 10) with rx := 80 }, rfl, ?_⟩
  exact ⟨rfl, rfl, rfl, rfl, by decide⟩

/-! ## Cursor invariant -/

theorem cursor_ok_cases (E : editor_config) (h : cursor_ok E) :
    (E.cy = E.numrows ∧ E.cx = 0) ∨
    (∃ row, row_at E.editor_row E.cy = some row ∧ 0 ≤ E.cx ∧ E.cx ≤ row.size) := by
  obtain ⟨h0, h1, hx, hlt, heq⟩ := h
  by_cases hc : E.cy = E.numrows
  · exact Or.inl ⟨hc, heq hc⟩
  · have hlt1 : E.cy < E.numrows := by omega
    obtain ⟨row, hrow⟩ := row_at_of_lt E.editor_row E.cy h0
      (by simpa [editor_config.numrows] using hlt1)
    have := hlt hlt1
    rw [rowlen_of_row_at E row hrow] at this
    exact Or.inr ⟨row, hrow, hx, this⟩

theorem cursor_ok_of_row (E : editor_config) (row : erow)
    (hrow : row_at E.editor_row E.cy = some row) (h0 : 0 ≤ E.cx) (h1 : E.cx ≤ row.size) :
    cursor_ok E := by
  obtain ⟨c0, c1, _⟩ := row_at_some _ _ _ hrow
  refine ⟨c0, by simp only [editor_config.numrows]; omega, h0, ?_, ?_⟩
  · intro _; rw [rowlen_of_row_at E row hrow]; exact h1
  · intro hc; simp only [editor_config.numrows] at hc; omega

theorem cursor_ok_of_virtual (E : editor_config) (hcy : E.cy = E.numrows) (hcx : E.cx = 0) :
    cursor_ok E := by
  have hn : (0 : Int) ≤ E.numrows := by simp [editor_config.numrows]
  refine ⟨by omega, by omega, by omega, ?_, fun _ => hcx⟩
  intro h; omega

/-- The tail of `editor_move_cursor` restores the invariant from a cursor with
`0 <= cy <= numrows` and `0 <= cx`, touching only `cx`. -/
theorem snap_cursor_ok (E : editor_config) (h0 : 0 ≤ E.cy) (h1 : E.cy ≤ E.numrows)
    (hx : 0 ≤ E.cx) :
    ∃ cx1 : Int, snap_cursor E = some { E with cx := cx1 } ∧
      cursor_ok { E with cx := cx1 } ∧ cx1 = min E.cx (rowlen E) := by
  unfold snap_cursor
  by_cases hc : E.cy ≥ E.numrows
  · have hcy : E.cy = E.numrows := by omega
    have hnone : row_at E.editor_row E.cy = none := by
      rw [row_at_nonneg _ _ h0, List.getElem?_eq_none]
      simp only [editor_config.numrows] at hcy; omega
    have hlen : rowlen E = 0 := by simp only [rowlen, hnone]
    rw [if_pos hc]
    by_cases hpos : E.cx > 0
    · refine ⟨0, by rw [if_pos hpos], cursor_ok_of_virtual _ hcy rfl, ?_⟩
      rw [hlen]; omega
    · have hz : E.cx = 0 := by omega
      refine ⟨E.cx, by rw [if_neg hpos], cursor_ok_of_virtual _ hcy hz, ?_⟩
      rw [hlen]; omega
  · obtain ⟨row, hrow⟩ := row_at_of_lt E.editor_row E.cy h0
      (by simp only [editor_config.numrows] at hc; omega)
    have hlen := rowlen_of_row_at E row hrow
    have hsz : (0 : Int) ≤ row.size := by simp [erow.size]
    rw [if_neg hc]
    simp only [hrow]
    by_cases hgt : E.cx > row.size
    · refine ⟨row.size, by rw [if_pos hgt], cursor_ok_of_row _ row hrow hsz (le_refl _), ?_⟩
      rw [hlen]; omega
    · refine ⟨E.cx, by rw [if_neg hgt],
        cursor_ok_of_row _ row hrow hx (by show E.cx ≤ row.size; omega), ?_⟩
      rw [hlen]; omega

/-- The `switch` of `editor_move_cursor` on a valid cursor: it returns, touches only `cx`
and `cy`, and leaves `0 <= cy <= numrows` and `0 <= cx`. -/
theorem move_cursor_switch_ok (E : editor_config) (key : Int) (h : cursor_ok E) :
    ∃ cx1 cy1 : Int, move_cursor_switch E key = some { E with cx := cx1, cy := cy1 } ∧
      0 ≤ cy1 ∧ cy1 ≤ E.numrows ∧ 0 ≤ cx1 := by
  have hn : (0 : Int) ≤ E.numrows := by simp [editor_config.numrows]
  have hc0 := h.1
  have hc1 := h.2.1
  have hx0 := h.2.2.1
  have hsame : ∃ cx1 cy1 : Int, some E = some ({ E with cx := cx1, cy := cy1 } : editor_config) ∧
      0 ≤ cy1 ∧ cy1 ≤ E.numrows ∧ 0 ≤ cx1 := ⟨E.cx, E.cy, rfl, hc0, hc1, hx0⟩
  unfold move_cursor_switch
  by_cases kl : key = ARROW_LEFT
  · rw [if_pos kl]
    by_cases hx : E.cx ≠ 0
    · rw [if_pos hx]
      exact ⟨E.cx - 1, E.cy, rfl, hc0, hc1, by omega⟩
    · rw [if_neg hx]
      by_cases hy : E.cy > 0
      · obtain ⟨prev, hprev⟩ := row_at_of_lt E.editor_row (E.cy - 1) (by omega)
          (by simp only [editor_config.numrows] at hc1; omega)
        rw [if_pos hy]
        simp only [hprev]
        exact ⟨prev.size, E.cy - 1, rfl, by omega, by omega, by simp [erow.size]⟩
      · rw [if_neg hy]; exact hsame
  · rw [if_neg kl]
    by_cases kr : key = ARROW_RIGHT
    · rw [if_pos kr]
      by_cases hge : E.cy ≥ E.numrows
      · rw [if_pos hge]; exact hsame
      · obtain ⟨row, hrow⟩ := row_at_of_lt E.editor_row E.cy hc0
          (by simp only [editor_config.numrows] at hge; omega)
        rw [if_neg hge]
        simp only [hrow]
        by_cases hlt : E.cx < row.size
        · rw [if_pos hlt]
          exact ⟨E.cx + 1, E.cy, rfl, hc0, hc1, by omega⟩
        · rw [if_neg hlt]
          by_cases heq : E.cx = row.size
          · rw [if_pos heq]
            exact ⟨0, E.cy + 1, rfl, by omega, by omega, le_refl _⟩
          · rw [if_neg heq]; exact hsame
    · rw [if_neg kr]
      by_cases ku : key = ARROW_UP
      · rw [if_pos ku]
        by_cases hy : E.cy ≠ 0
        · rw [if_pos hy]
          exact ⟨E.cx, E.cy - 1, rfl, by omega, by omega, hx0⟩
        · rw [if_neg hy]; exact hsame
      · rw [if_neg ku]
        by_cases kd : key = ARROW_DOWN
        · rw [if_pos kd]
          by_cases hy : E.cy < E.numrows
          · rw [if_pos hy]
            exact ⟨E.cx, E.cy + 1, rfl, by omega, by omega, hx0⟩
          · rw [if_neg hy]; exact hsame
        · rw [if_neg kd]; exact hsame

theorem editor_move_cursor_ok (E : editor_config) (key : Int) (h : cursor_ok E) :
    ∃ cx1 cy1 : Int, editor_move_cursor E key = some { E with cx := cx1, cy := cy1 } ∧
      cursor_ok { E with cx := cx1, cy := cy1 } := by
  obtain ⟨cx1, cy1, hsw, h0, h1, hx⟩ := move_cursor_switch_ok E key h
  obtain ⟨cx2, hsnap, hok, _⟩ := snap_cursor_ok { E with cx := cx1, cy := cy1 } h0 h1 hx
  exact ⟨cx2, cy1, by simp only [editor_move_cursor, hsw, hsnap], hok⟩

theorem keypress_end_ok (E : editor_config) (h : cursor_ok E) :
    ∃ cx1 : Int, keypress_end E = some { E with cx := cx1 } ∧ cursor_ok { E with cx := cx1 } := by
  unfold keypress_end
  rcases cursor_ok_cases E h with ⟨hcy, hcx⟩ | ⟨row, hrow, _, _⟩
  · have hlt : ¬ E.cy < E.numrows := by omega
    rw [if_neg hlt]
    exact ⟨E.cx, rfl, h⟩
  · obtain ⟨c0, c1, _⟩ := row_at_some _ _ _ hrow
    have hlt : E.cy < E.numrows := by simp only [editor_config.numrows]; omega
    rw [if_pos hlt]
    simp only [hrow]
    exact ⟨row.size, rfl, cursor_ok_of_row _ row hrow (by simp [erow.size]) (le_refl _)⟩

/-! ## Effect of the operations on the rows and on `dirty` -/

theorem edit_rel_refl (E : editor_config) : edit_rel E E := Or.inl ⟨rfl, rfl⟩

theorem edit_rel_of_same (E E1 : editor_config) (h1 : E1.editor_row = E.editor_row)
    (h2 : E1.dirty = E.dirty) : edit_rel E E1 := Or.inl ⟨h1, h2⟩

theorem edit_rel_trans (E E1 E2 : editor_config) (h1 : edit_rel E E1) (h2 : edit_rel E1 E2) :
    edit_rel E E2 := by
  rcases h1 with ⟨r1, d1⟩ | ⟨m1, d1⟩
  · rcases h2 with ⟨r2, d2⟩ | ⟨m2, d2⟩
    · exact Or.inl ⟨r2.trans r1, d2.trans d1⟩
    · refine Or.inr ⟨?_, by omega⟩
      intro r hr
      rw [← r1]; exact m2 r hr
  · rcases h2 with ⟨r2, d2⟩ | ⟨m2, d2⟩
    · refine Or.inr ⟨?_, by omega⟩
      intro r hr
      rw [r2] at hr; exact m1 r hr
    · refine Or.inr ⟨?_, by omega⟩
      intro r hr
      rcases m2 r hr with h | h
      · exact m1 r h
      · exact Or.inr h

theorem edit_rel_rows (E : editor_config) (rows : List erow) (E1 : editor_config)
    (hr : E1.editor_row = rows) (hd : E1.dirty = E.dirty + 1)
    (hm : ∀ r ∈ rows, r ∈ E.editor_row ∨ ∃ cs, r = mk_row cs) : edit_rel E E1 := by
  refine Or.inr ⟨?_, by omega⟩
  rw [hr]; exact hm

theorem mem_set_row (rows : List erow) (i : Int) (cs : List Nat) :
    ∀ r ∈ set_row rows i (mk_row cs), r ∈ rows ∨ ∃ cs1, r = mk_row cs1 := by
  intro r hr
  rcases List.mem_or_eq_of_mem_set hr with h | h
  · exact Or.inl h
  · exact Or.inr ⟨cs, h⟩

theorem mem_take_cons_drop (rows : List erow) (n m : Nat) (cs : List Nat) :
    ∀ r ∈ rows.take n ++ mk_row cs :: rows.drop m, r ∈ rows ∨ ∃ cs1, r = mk_row cs1 := by
  intro r hr
  rcases List.mem_append.mp hr with h | h
  · exact Or.inl (List.mem_of_mem_take h)
  · rcases List.mem_cons.mp h with h | h
    · exact Or.inr ⟨cs, h⟩
    · exact Or.inl (List.mem_of_mem_drop h)

theorem mem_take_drop (rows : List erow) (n m : Nat) :
    ∀ r ∈ rows.take n ++ rows.drop m, r ∈ rows ∨ ∃ cs1, r = mk_row cs1 := by
  intro r hr
  rcases List.mem_append.mp hr with h | h
  · exact Or.inl (List.mem_of_mem_take h)
  · exact Or.inl (List.mem_of_mem_drop h)

theorem editor_insert_row_rel (E E1 : editor_config) (at_ : Int) (s : List Nat)
    (h : editor_insert_row E at_ s = some E1) : edit_rel E E1 := by
  unfold editor_insert_row at h
  split at h
  · rw [← Option.some.inj h]; exact edit_rel_refl E
  · simp only [editor_update_row_mk] at h
    rw [← Option.some.inj h]
    exact edit_rel_rows E _ _ rfl rfl (mem_take_cons_drop _ _ _ _)

theorem editor_del_row_rel (E : editor_config) (at_ : Int) : edit_rel E (editor_del_row E at_) := by
  unfold editor_del_row
  split
  · exact edit_rel_refl E
  · exact edit_rel_rows E _ _ rfl rfl (mem_take_drop _ _ _)

theorem editor_row_insert_char_rel (E E1 : editor_config) (ri at_ c : Int)
    (h : editor_row_insert_char E ri at_ c = some E1) :
    edit_rel E E1 ∧ E.dirty < E1.dirty ∧ E1.cx = E.cx ∧ E1.cy = E.cy := by
  unfold editor_row_insert_char at h
  split at h
  · exact Option.noConfusion h
  · simp only [editor_update_row_with] at h
    rw [← Option.some.inj h]
    refine ⟨edit_rel_rows E _ _ rfl rfl (mem_set_row _ _ _), ?_, rfl, rfl⟩
    show E.dirty < E.dirty + 1
    omega

theorem editor_row_del_char_rel (E E1 : editor_config) (ri at_ : Int)
    (h : editor_row_del_char E ri at_ = some E1) :
    edit_rel E E1 ∧ E1.cx = E.cx ∧ E1.cy = E.cy := by
  unfold editor_row_del_char at h
  split at h
  · exact Option.noConfusion h
  · split at h
    · rw [← Option.some.inj h]; exact ⟨edit_rel_refl E, rfl, rfl⟩
    · simp only [editor_update_row_with] at h
      rw [← Option.some.inj h]
      exact ⟨edit_rel_rows E _ _ rfl rfl (mem_set_row _ _ _), rfl, rfl⟩

theorem editor_row_append_string_rel (E E1 : editor_config) (ri : Int) (s : List Nat)
    (h : editor_row_append_string E ri s = some E1) :
    edit_rel E E1 ∧ E.dirty < E1.dirty ∧ E1.cx = E.cx ∧ E1.cy = E.cy := by
  unfold editor_row_append_string at h
  split at h
  · exact Option.noConfusion h
  · simp only [editor_update_row_with] at h
    rw [← Option.some.inj h]
    refine ⟨edit_rel_rows E _ _ rfl rfl (mem_set_row _ _ _), ?_, rfl, rfl⟩
    show E.dirty < E.dirty + 1
    omega

theorem editor_insert_char_rel (E E1 : editor_config) (c : Int)
    (h : editor_insert_char E c = some E1) : edit_rel E E1 ∧ E.dirty < E1.dirty := by
  unfold editor_insert_char at h
  split at h
  · exact Option.noConfusion h
  · rename_i Ea ha
    have hrel_a : edit_rel E Ea := by
      split at ha
      · exact editor_insert_row_rel E Ea _ _ ha
      · rw [← Option.some.inj ha]; exact edit_rel_refl E
    split at h
    · exact Option.noConfusion h
    · rename_i Eb hb
      obtain ⟨hrel_b, hd, _, _⟩ := editor_row_insert_char_rel Ea Eb _ _ _ hb
      have hrel : edit_rel E Eb := edit_rel_trans E Ea Eb hrel_a hrel_b
      rw [← Option.some.inj h]
      have hda : E.dirty ≤ Ea.dirty := by
        rcases hrel_a with ⟨_, d⟩ | ⟨_, d⟩ <;> omega
      refine ⟨edit_rel_trans E Eb _ hrel (edit_rel_of_same _ _ rfl rfl), ?_⟩
      show E.dirty < Eb.dirty
      omega

theorem editor_del_char_rel (E E1 : editor_config) (h : editor_del_char E = some E1) :
    edit_rel E E1 := by
  unfold editor_del_char at h
  split at h
  · rw [← Option.some.inj h]; exact edit_rel_refl E
  · split at h
    · rw [← Option.some.inj h]; exact edit_rel_refl E
    · split at h
      · exact Option.noConfusion h
      · split at h
        · split at h
          · exact Option.noConfusion h
          · rename_i Eb hb
            rw [← Option.some.inj h]
            exact edit_rel_trans E Eb _ (editor_row_del_char_rel E Eb _ _ hb).1
              (edit_rel_of_same _ _ rfl rfl)
        · split at h
          · exact Option.noConfusion h
          · dsimp only at h
            split at h
            · exact Option.noConfusion h
            · rename_i Eb hb
              rw [← Option.some.inj h]
              have h2 := (editor_row_append_string_rel _ Eb _ _ hb).1
              have h3 := editor_del_row_rel Eb Eb.cy
              exact edit_rel_trans E _ _
                (edit_rel_trans E _ _
                  (edit_rel_trans E _ _ (edit_rel_of_same E _ rfl rfl) h2) h3)
                (edit_rel_of_same _ _ rfl rfl)

theorem editor_insert_newline_rel (E E1 : editor_config) (h : editor_insert_newline E = some E1) :
    edit_rel E E1 := by
  unfold editor_insert_newline at h
  split at h
  · exact Option.noConfusion h
  · rename_i Ea ha
    rw [← Option.some.inj h]
    refine edit_rel_trans E Ea _ ?_ (edit_rel_of_same _ _ rfl rfl)
    split at ha
    · exact editor_insert_row_rel E Ea _ _ ha
    · split at ha
      · exact Option.noConfusion ha
      · rename_i row hrow
        obtain ⟨c0, c1, _⟩ := row_at_some _ _ _ hrow
        split at ha
        · exact Option.noConfusion ha
        · rw [editor_insert_row_eq E (E.cy + 1) _ (by omega)
            (by simp only [editor_config.numrows]; omega)] at ha
          simp only [editor_update_row_with] at ha
          split at ha
          · exact Option.noConfusion ha
          · rw [← Option.some.inj ha]
            refine edit_rel_rows E _ _ rfl rfl ?_
            intro r hr
            rcases mem_set_row _ _ _ r hr with h1 | h1
            · exact mem_take_cons_drop _ _ _ _ r h1
            · exact Or.inr h1

/-! ## The edit operations on a valid cursor -/

theorem editor_insert_char_ok (E : editor_config) (c : Int) (h : cursor_ok E) :
    ∃ E1, editor_insert_char E c = some E1 ∧ cursor_ok E1 := by
  rcases cursor_ok_cases E h with ⟨hcy, hcx⟩ | ⟨row, hrow, hx0, hx1⟩
  · refine ⟨_, editor_insert_char_virtual E c hcy hcx, ?_⟩
    refine cursor_ok_of_row _ (mk_row [(c % 256).toNat]) ?_ ?_ ?_
    · show row_at (E.editor_row ++ [mk_row [(c % 256).toNat]]) E.cy = some _
      rw [hcy]
      exact row_at_last _ _
    · show (0 : Int) ≤ 1
      decide
    · show (1 : Int) ≤ (mk_row [(c % 256).toNat]).size
      simp [erow.size, mk_row]
  · obtain ⟨c0, c1, _⟩ := row_at_some _ _ _ hrow
    refine ⟨_, editor_insert_char_on_row E c row hrow hx0 hx1, ?_⟩
    refine cursor_ok_of_row _ _ (row_at_set_row_self _ _ _ c0 c1) ?_ ?_
    · show 0 ≤ E.cx + 1
      omega
    · show E.cx + 1 ≤ (mk_row _).size
      simp only [erow.size, mk_row, List.length_append, List.length_cons, List.length_take,
        List.length_drop] at hx1 ⊢
      omega

theorem editor_del_char_ok (E : editor_config) (h : cursor_ok E) :
    ∃ E1, editor_del_char E = some E1 ∧ cursor_ok E1 := by
  rcases cursor_ok_cases E h with ⟨hcy, hcx⟩ | ⟨row, hrow, hx0, hx1⟩
  · exact ⟨E, by simp only [editor_del_char, if_pos hcy], h⟩
  · obtain ⟨c0, c1, _⟩ := row_at_some _ _ _ hrow
    have hne : ¬ E.cy = E.numrows := by simp only [editor_config.numrows]; omega
    by_cases hpos : 0 < E.cx
    · refine ⟨_, editor_del_char_cx_pos E row hrow hpos hx1, ?_⟩
      refine cursor_ok_of_row _ _ (row_at_set_row_self _ _ _ c0 c1) ?_ ?_
      · show 0 ≤ E.cx - 1
        omega
      · show E.cx - 1 ≤ (mk_row _).size
        simp only [erow.size, mk_row, List.length_append, List.length_take,
          List.length_drop] at hx1 ⊢
        omega
    · have hz : E.cx = 0 := by omega
      by_cases hy : E.cy = 0
      · exact ⟨E, by simp only [editor_del_char, if_neg hne, if_pos (And.intro hz hy)], h⟩
      · obtain ⟨prev, hprev⟩ := row_at_of_lt E.editor_row (E.cy - 1) (by omega) (by omega)
        refine ⟨_, editor_del_char_join E row prev hrow hprev hz, ?_⟩
        refine cursor_ok_of_row _ (mk_row (prev.chars ++ row.chars)) ?_ ?_ ?_
        · show row_at (E.editor_row.take (E.cy - 1).toNat
              ++ mk_row (prev.chars ++ row.chars) :: E.editor_row.drop ((E.cy - 1).toNat + 2))
              (E.cy - 1) = some _
          rw [row_at_nonneg _ _ (by omega)]
          exact getElem?_join_eq _ _ _ (by omega)
        · show 0 ≤ prev.size
          simp [erow.size]
        · show prev.size ≤ (mk_row (prev.chars ++ row.chars)).size
          simp [erow.size, mk_row]

theorem editor_insert_newline_ok (E : editor_config) (h : cursor_ok E) :
    ∃ E1, editor_insert_newline E = some E1 ∧ cursor_ok E1 := by
  rcases cursor_ok_cases E h with ⟨hcy, hcx⟩ | ⟨row, hrow, hx0, hx1⟩
  · have hn : (0 : Int) ≤ E.numrows := by simp [editor_config.numrows]
    have hins := editor_insert_row_eq E E.cy [] (by omega) (by omega)
    have hres : editor_insert_newline E
        = some { E with
            editor_row := E.editor_row.take E.cy.toNat
              ++ mk_row [] :: E.editor_row.drop E.cy.toNat,
            dirty := E.dirty + 1, cy := E.cy + 1, cx := 0 } := by
      simp only [editor_insert_newline, if_pos hcx, hins]
    refine ⟨_, hres, ?_⟩
    refine cursor_ok_of_virtual _ ?_ rfl
    show E.cy + 1 = ((E.editor_row.take E.cy.toNat
      ++ mk_row [] :: E.editor_row.drop E.cy.toNat).length : Int)
    simp only [editor_config.numrows] at hcy
    simp only [List.length_append, List.length_take, List.length_cons, List.length_drop]
    omega
  · obtain ⟨c0, c1, _⟩ := row_at_some _ _ _ hrow
    refine ⟨_, editor_insert_newline_eq E row hrow hx0 hx1, ?_⟩
    refine cursor_ok_of_row _
      (if E.cx = 0 then row else mk_row (row.chars.drop E.cx.toNat)) ?_ (le_refl _) ?_
    · show row_at _ (E.cy + 1) = some _
      rw [row_at_nonneg _ _ (by omega)]
      have e : (E.cy + 1).toNat = E.cy.toNat + 1 := by omega
      rw [e]
      exact getElem?_pair_snd _ _ _ _ _ (by omega)
    · show (0 : Int) ≤ erow.size _
      simp [erow.size]

theorem keypress_delete_ok (E : editor_config) (c : Int) (h : cursor_ok E) :
    ∃ E1, keypress_delete E c = some E1 ∧ cursor_ok E1 := by
  unfold keypress_delete
  by_cases hc : c = DEL_KEY
  · obtain ⟨cx1, cy1, hmv, hok⟩ := editor_move_cursor_ok E ARROW_RIGHT h
    obtain ⟨E1, hd, hok1⟩ := editor_del_char_ok _ hok
    exact ⟨E1, by simp only [if_pos hc, hmv, hd], hok1⟩
  · obtain ⟨E1, hd, hok1⟩ := editor_del_char_ok E h
    exact ⟨E1, by simp only [if_neg hc, hd], hok1⟩

/-! ## Incremental search -/

theorem strstr_loop_none (needle : List Nat) (hay : List Nat) :
    ∀ off : Nat, strstr_loop needle hay off = none → ¬ needle <:+: hay := by
  induction hay with
  | nil =>
    intro off h hin
    have hn : needle = [] := List.eq_nil_of_infix_nil hin
    subst hn
    simp [strstr_loop] at h
  | cons a t ih =>
    intro off h hin
    rw [strstr_loop] at h
    split at h
    · exact Option.noConfusion h
    · rename_i hp
      rcases List.infix_cons_iff.mp hin with h1 | h1
      · exact hp (List.isPrefixOf_iff_prefix.mpr h1)
      · exact ih (off + 1) h h1

theorem strstr_loop_some (needle : List Nat) (hay : List Nat) :
    ∀ off o : Nat, strstr_loop needle hay off = some o →
      off ≤ o ∧ first_occurrence needle hay (o - off) := by
  induction hay with
  | nil =>
    intro off o h
    rw [strstr_loop] at h
    split at h
    · rename_i hp
      have ho : off = o := Option.some.inj h
      subst ho
      refine ⟨le_refl _, by simp, ?_, ?_⟩
      · simpa using List.isPrefixOf_iff_prefix.mp hp
      · intro j hj; omega
    · exact Option.noConfusion h
  | cons a t ih =>
    intro off o h
    rw [strstr_loop] at h
    split at h
    · rename_i hp
      have ho : off = o := Option.some.inj h
      subst ho
      refine ⟨le_refl _, by simp, ?_, ?_⟩
      · simpa using List.isPrefixOf_iff_prefix.mp hp
      · intro j hj; omega
    · rename_i hp
      obtain ⟨h1, h2, h3, h4⟩ := ih (off + 1) o h
      have e : o - off = (o - (off + 1)) + 1 := by omega
      refine ⟨by omega, ?_, ?_, ?_⟩
      · rw [e]; simp only [List.length_cons]; omega
      · rw [e, List.drop_succ_cons]; exact h3
      · intro j hj
        cases j with
        | zero =>
          intro hpre
          exact hp (List.isPrefixOf_iff_prefix.mpr (by simpa using hpre))
        | succ j =>
          rw [List.drop_succ_cons]
          exact h4 j (by omega)

theorem first_occurrence_infix (needle hay : List Nat) (o : Nat)
    (h : first_occurrence needle hay o) : needle <:+: hay :=
  List.IsInfix.trans h.2.1.isInfix (List.drop_suffix o hay).isInfix

/-- The C library `strstr` returns a null pointer exactly when the string `needle` does not
occur in the string `haystack`, and otherwise the offset of its first occurrence. -/
theorem strstr_spec (haystack needle : List Nat) :
    (strstr haystack needle = none ∧ ¬ cstr needle <:+: cstr haystack) ∨
    (∃ o, strstr haystack needle = some o ∧ cstr needle <:+: cstr haystack ∧
      first_occurrence (cstr needle) (cstr haystack) o) := by
  unfold strstr
  cases h : strstr_loop (cstr needle) (cstr haystack) 0 with
  | none => exact Or.inl ⟨rfl, strstr_loop_none _ _ 0 h⟩
  | some o =>
    have h1 := (strstr_loop_some _ _ 0 o h).2
    simp only [Nat.sub_zero] at h1
    exact Or.inr ⟨o, rfl, first_occurrence_infix _ _ _ h1, h1⟩

theorem neg_one_emod (n : Int) (hn : 1 ≤ n) : (-1 : Int) % n = n - 1 := by
  have e : (-1 : Int) = (n - 1) + (-1) * n := by ring
  rw [e, Int.add_mul_emod_self, Int.emod_eq_of_lt (by omega) (by omega)]

/-- The wrap-around of `current` in `editor_find_callback` is the step of the cyclic order. -/
theorem find_wrap_eq (n c d : Int) (hn : 1 ≤ n) (hd : d = 1 ∨ d = -1)
    (hc : (c = -1 ∧ d = 1) ∨ (0 ≤ c ∧ c < n)) :
    (if c + d = -1 then n - 1 else if c + d = n then 0 else c + d) = scan_row n c d 1 := by
  have e : scan_row n c d 1 = (c + d) % n := by simp [scan_row]
  rw [e]
  by_cases h1 : c + d = -1
  · rw [if_pos h1, h1, neg_one_emod n hn]
  · rw [if_neg h1]
    by_cases h2 : c + d = n
    · rw [if_pos h2, h2, Int.emod_self]
    · rw [if_neg h2, Int.emod_eq_of_lt (by omega) (by omega)]

theorem scan_row_range (n c d : Int) (j : Nat) (hn : 1 ≤ n) :
    0 ≤ scan_row n c d j ∧ scan_row n c d j < n :=
  ⟨Int.emod_nonneg _ (by omega), Int.emod_lt_of_pos _ (by omega)⟩

theorem scan_row_succ (n c d : Int) (j : Nat) :
    scan_row n (scan_row n c d 1) d j = scan_row n c d (j + 1) := by
  simp only [scan_row, Int.emod_add_emod]
  congr 1
  push_cast
  ring

/-- The loop of `editor_find_callback` run for `k` rows from `current = c`: either none of
the rows `scan_row 1 .. k` is matched by `strstr` and the state is returned as it was, or
the first matched one receives the cursor. -/
theorem find_loop_char (E : editor_config) (q : List Nat) (S : find_state)
    (hd : S.direction = 1 ∨ S.direction = -1) :
    ∀ (k : Nat) (c : Int),
      ((c = -1 ∧ S.direction = 1) ∨ (0 ≤ c ∧ c < E.numrows)) → (k : Int) ≤ E.numrows →
      (find_loop E q S k c = some (E, S) ∧
        ∀ j : Nat, 1 ≤ j → j ≤ k → ∀ row,
          row_at E.editor_row (scan_row E.numrows c S.direction j) = some row →
          strstr row.render q = none) ∨
      (∃ (j0 : Nat) (row : erow) (off : Nat), 1 ≤ j0 ∧ j0 ≤ k ∧
        row_at E.editor_row (scan_row E.numrows c S.direction j0) = some row ∧
        strstr row.render q = some off ∧
        (∀ j : Nat, 1 ≤ j → j < j0 → ∀ row1,
          row_at E.editor_row (scan_row E.numrows c S.direction j) = some row1 →
          strstr row1.render q = none) ∧
        find_loop E q S k c
          = some ({ E with cy := scan_row E.numrows c S.direction j0,
                           cx := editor_row_rx_to_cx row (off : Int),
                           rowoff := E.numrows },
                  { S with last_match := scan_row E.numrows c S.direction j0 })) := by
  intro k
  induction k with
  | zero =>
    intro c _ _
    left
    refine ⟨rfl, ?_⟩
    intro j h1 h2; omega
  | succ k ih =>
    intro c hc hk
    have hn : 1 ≤ E.numrows := by omega
    have hw := find_wrap_eq E.numrows c S.direction hn hd hc
    obtain ⟨r0, r1⟩ := scan_row_range E.numrows c S.direction 1 hn
    obtain ⟨row, hrow⟩ := row_at_of_lt E.editor_row _ r0
      (by simpa [editor_config.numrows] using r1)
    rw [find_loop]
    simp only [hw, hrow]
    cases hs : strstr row.render q with
    | some off =>
      right
      refine ⟨1, row, off, le_refl _, by omega, hrow, hs, ?_, rfl⟩
      intro j h1 h2; omega
    | none =>
      simp only []
      rcases ih (scan_row E.numrows c S.direction 1) (Or.inr ⟨r0, r1⟩) (by omega) with
        ⟨hE, hall⟩ | ⟨j0, row1, off, h1, h2, hr1, hs1, hbefore, hE⟩
      · left
        refine ⟨hE, ?_⟩
        intro j hj1 hj2 rowj hrj
        by_cases hj : j = 1
        · subst hj
          rw [hrow] at hrj
          rw [← Option.some.inj hrj]; exact hs
        · have e : j = (j - 1) + 1 := by omega
          rw [e, ← scan_row_succ] at hrj
          exact hall (j - 1) (by omega) (by omega) rowj hrj
      · right
        simp only [scan_row_succ] at hr1 hbefore hE
        refine ⟨j0 + 1, row1, off, by omega, by omega, hr1, hs1, ?_, hE⟩
        intro j hj1 hj2 rowj hrj
        by_cases hj : j = 1
        · subst hj
          rw [hrow] at hrj
          rw [← Option.some.inj hrj]; exact hs
        · have e : j = (j - 1) + 1 := by omega
          rw [e] at hrj
          exact hbefore (j - 1) (by omega) (by omega) rowj hrj

/-- Every row index is reached by the cyclic order within `n` steps. -/
theorem scan_row_cover (n m d i : Int) (hn : 1 ≤ n) (hd : d = 1 ∨ d = -1)
    (hi0 : 0 ≤ i) (hi1 : i < n) :
    ∃ j : Nat, 1 ≤ j ∧ (j : Int) ≤ n ∧ scan_row n m d j = i := by
  have hdd : d * d = 1 := by rcases hd with h | h <;> rw [h] <;> rfl
  have hr0 : 0 ≤ ((i - m) * d - 1) % n := Int.emod_nonneg _ (by omega)
  have hr1 : ((i - m) * d - 1) % n < n := Int.emod_lt_of_pos _ (by omega)
  have ht : n * (((i - m) * d - 1) / n) + ((i - m) * d - 1) % n = (i - m) * d - 1 :=
    Int.ediv_add_emod _ _
  refine ⟨(((i - m) * d - 1) % n + 1).toNat, by omega, by omega, ?_⟩
  have hcast : (((((i - m) * d - 1) % n + 1).toNat : Nat) : Int) = ((i - m) * d - 1) % n + 1 := by
    omega
  have e : m + (((i - m) * d - 1) % n + 1) * d = i + (-(((i - m) * d - 1) / n) * d) * n := by
    linear_combination d * ht + (i - m) * hdd
  rw [scan_row, hcast, e, Int.add_mul_emod_self, Int.emod_eq_of_lt hi0 hi1]

theorem strstr_none_iff (render q : List Nat) :
    strstr render q = none ↔ ¬ cstr q <:+: cstr render := by
  rcases strstr_spec render q with ⟨h1, h2⟩ | ⟨o, h1, h2, _⟩
  · exact ⟨fun _ => h2, fun _ => h1⟩
  · constructor
    · intro h; rw [h1] at h; exact Option.noConfusion h
    · intro h; exact absurd h2 h

theorem strstr_some (render q : List Nat) (o : Nat) (h : strstr render q = some o) :
    cstr q <:+: cstr render ∧ first_occurrence (cstr q) (cstr render) o := by
  rcases strstr_spec render q with ⟨h1, _⟩ | ⟨o1, h1, h2, h3⟩
  · rw [h1] at h; exact Option.noConfusion h
  · rw [h1] at h
    rw [← Option.some.inj h]
    exact ⟨h2, h3⟩

theorem mem_of_row_at (rows : List erow) (i : Int) (row : erow) (h : row_at rows i = some row) :
    row ∈ rows := by
  obtain ⟨_, _, hg⟩ := row_at_some _ _ _ h
  exact List.getElem?_mem hg

theorem row_at_of_mem (rows : List erow) (row : erow) (h : row ∈ rows) :
    ∃ i : Int, 0 ≤ i ∧ i < (rows.length : Int) ∧ row_at rows i = some row := by
  obtain ⟨k, hk, hget⟩ := List.getElem_of_mem h
  refine ⟨(k : Int), by omega, by omega, ?_⟩
  rw [row_at_nonneg _ _ (by omega)]
  simp only [Int.toNat_ofNat]
  rw [List.getElem?_eq_getElem hk, hget]

/-- The scan entered with the static variables `(m, d)`: what `find_loop` is called with. -/
theorem find_scan_eq (E : editor_config) (q : List Nat) (m d : Int) :
    find_scan E q { last_match := m, direction := d }
      = find_loop E q { last_match := m, direction := if m = -1 then 1 else d }
          E.numrows.toNat m := by
  unfold find_scan
  by_cases h : m = -1
  · simp only [h, if_true]
  · simp only [h, if_false]

/-- Counterexample to C13 as stated.  (a) With no prior match (`m = -1`) and the direction
backward (`d = -1`) on `["wor", "wor", "x"]` the scan goes forward and stops on row 0,
although row 1, the first row of the order `m + d, m + 2d, ...`, contains the query.
(b) On the single row `"a\0wor"` the render contains the bytes of `"wor"`, but `strstr`
reads the render up to its NUL byte and the scan leaves the state unchanged. -/
theorem C13_scan_counterexample :
    (scan_row 3 (-1) (-1) 1 = 1 ∧
      [119, 111, 114] <:+: (mk_row [119, 111, 114]).render ∧
      (find_scan (mk_doc [[119, 111, 114], [119, 111, 114], [120]] 2 0) [119, 111, 114]
          { last_match := -1, direction := -1 }).map
          (fun r => (r.1.cy, r.2.last_match, r.2.direction)) = some (0, 0, 1)) ∧
    ([119, 111, 114] <:+: (mk_row [97, 0, 119, 111, 114]).render ∧
      find_scan (mk_doc [[97, 0, 119, 111, 114]] 0 1) [119, 111, 114]
          { last_match := -1, direction := 1 }
        = some (mk_doc [[97, 0, 119, 111, 114]] 0 1, { last_match := -1, direction := 1 })) := by
  refine ⟨⟨by decide, by decide, by decide⟩, by decide, by decide⟩

/-- Claim C13 (amended): a scan entered with `last_match = m` (a row index or -1) and
`direction = d` (+1 or -1) runs with the direction `d1 = +1` when `m = -1` and `d1 = d`
otherwise, over the rows `m + d1, m + 2 d1, ...` taken cyclically, at most `numrows` of them.
If no row's render, read as a C string, contains the query, the state (cursor, offsets,
`last_match`) is returned unchanged.  Otherwise the first such row `R` of that order gets
`last_match = R`, `cy = R`, `cx = editor_row_rx_to_cx (row R, offset of the first occurrence
of the query)` and `rowoff = numrows`, nothing else changing; and such a first row exists
within `numrows` steps as soon as some row contains the query. -/
theorem C13_find_scan (E : editor_config) (q : List Nat) (m d : Int)
    (hd : d = 1 ∨ d = -1) (hm : m = -1 ∨ (0 ≤ m ∧ m < E.numrows)) :
    ((∀ row ∈ E.editor_row, ¬ row_contains q row) →
      find_scan E q { last_match := m, direction := d }
        = some (E, { last_match := m, direction := if m = -1 then 1 else d })) ∧
    (∀ (j0 : Nat) (row : erow), 1 ≤ j0 → (j0 : Int) ≤ E.numrows →
      row_at E.editor_row (scan_row E.numrows m (if m = -1 then 1 else d) j0) = some row →
      row_contains q row →
      (∀ j : Nat, 1 ≤ j → j < j0 → ∀ row1,
        row_at E.editor_row (scan_row E.numrows m (if m = -1 then 1 else d) j) = some row1 →
        ¬ row_contains q row1) →
      ∃ off : Nat, first_occurrence (cstr q) (cstr row.render) off ∧
        find_scan E q { last_match := m, direction := d }
          = some ({ E with cy := scan_row E.numrows m (if m = -1 then 1 else d) j0,
                           cx := editor_row_rx_to_cx row (off : Int),
                           rowoff := E.numrows },
                  { last_match := scan_row E.numrows m (if m = -1 then 1 else d) j0,
                    direction := if m = -1 then 1 else d })) ∧
    ((∃ row ∈ E.editor_row, row_contains q row) →
      ∃ (j0 : Nat) (row : erow), 1 ≤ j0 ∧ (j0 : Int) ≤ E.numrows ∧
        row_at E.editor_row (scan_row E.numrows m (if m = -1 then 1 else d) j0) = some row ∧
        row_contains q row ∧
        ∀ j : Nat, 1 ≤ j → j < j0 → ∀ row1,
          row_at E.editor_row (scan_row E.numrows m (if m = -1 then 1 else d) j) = some row1 →
          ¬ row_contains q row1) := by
  have hn0 : (0 : Int) ≤ E.numrows := by simp [editor_config.numrows]
  have hk : ((E.numrows.toNat : Nat) : Int) ≤ E.numrows := by omega
  have hd1 : (if m = -1 then 1 else d) = 1 ∨ (if m = -1 then 1 else d) = -1 := by
    split_ifs
    · exact Or.inl rfl
    · exact hd
  have hc : (m = -1 ∧ (if m = -1 then 1 else d) = 1) ∨ (0 ≤ m ∧ m < E.numrows) := by
    rcases hm with h | h
    · exact Or.inl ⟨h, by rw [if_pos h]⟩
    · exact Or.inr h
  have hchar := find_loop_char E q { last_match := m, direction := if m = -1 then 1 else d }
    hd1 E.numrows.toNat m hc hk
  rw [find_scan_eq]
  refine ⟨?_, ?_, ?_⟩
  · intro hnone
    rcases hchar with ⟨hE, _⟩ | ⟨j0, row, off, _, _, hr, hs, _, _⟩
    · exact hE
    · exact absurd (strstr_some _ _ _ hs).1 (hnone row (mem_of_row_at _ _ _ hr))
  · intro j0 row hj1 hj2 hrow hcont hbefore
    rcases hchar with ⟨_, hall⟩ | ⟨j1, row1, off, h1, h2, hr, hs, hb, hE⟩
    · have := hall j0 hj1 (by omega) row hrow
      exact absurd hcont ((strstr_none_iff _ _).mp this)
    · have hj : j1 = j0 := by
        rcases Nat.lt_trichotomy j1 j0 with h | h | h
        · exact absurd (strstr_some _ _ _ hs).1 (hbefore j1 h1 h row1 hr)
        · exact h
        · exact absurd hcont ((strstr_none_iff _ _).mp (hb j0 hj1 h row hrow))
      subst hj
      rw [hrow] at hr
      have hrr : row = row1 := Option.some.inj hr
      subst hrr
      exact ⟨off, (strstr_some _ _ _ hs).2, hE⟩
  · rintro ⟨row, hmem, hcont⟩
    rcases hchar with ⟨_, hall⟩ | ⟨j1, row1, off, h1, h2, hr, hs, hb, _⟩
    · obtain ⟨i, hi0, hi1, hri⟩ := row_at_of_mem _ _ hmem
      obtain ⟨j, hj1, hj2, hj⟩ := scan_row_cover E.numrows m (if m = -1 then 1 else d) i
        (by simp only [editor_config.numrows]; omega) hd1 hi0
        (by simpa [editor_config.numrows] using hi1)
      rw [← hj] at hri
      exact absurd hcont ((strstr_none_iff _ _).mp (hall j hj1 (by omega) row hri))
    · refine ⟨j1, row1, h1, by omega, hr, (strstr_some _ _ _ hs).1, ?_⟩
      intro j hj1 hj2 rowj hrj
      exact (strstr_none_iff _ _).mp (hb j hj1 hj2 rowj hrj)

/-- Witness of C13 (amended): the query `"wor"` on `["hello", "world"]` with no prior match
and the forward direction puts the cursor at `(cy = 1, cx = 0)`. -/
theorem C13_find_scan_witness :
    (find_scan (mk_doc [[104, 101, 108, 108, 111], [119, 111, 114, 108, 100]] 0 0)
        [119, 111, 114] { last_match := -1, direction := 1 }).map
        (fun r => (r.1.cy, r.1.cx, r.2.last_match)) = some (1, 0, 1) ∧
    (∃ (j0 : Nat) (row : erow), 1 ≤ j0 ∧ (j0 : Int) ≤ 2 ∧
      row_at (mk_doc [[104, 101, 108, 108, 111], [119, 111, 114, 108, 100]] 0 0).editor_row
        (scan_row 2 (-1) 1 j0) = some row ∧
      row_contains [119, 111, 114] row ∧
      ∀ j : Nat, 1 ≤ j → j < j0 → ∀ row1,
        row_at (mk_doc [[104, 101, 108, 108, 111], [119, 111, 114, 108, 100]] 0 0).editor_row
          (scan_row 2 (-1) 1 j) = some row1 →
        ¬ row_contains [119, 111, 114] row1) :=
  ⟨by decide,
   (C13_find_scan (mk_doc [[104, 101, 108, 108, 111], [119, 111, 114, 108, 100]] 0 0)
      [119, 111, 114] (-1) 1 (by decide) (by decide)).2.2
      ⟨mk_row [119, 111, 114, 108, 100], by decide, by decide⟩⟩

/-- Whatever the loop of `editor_find_callback` returns is the state it was given, or
that state with the cursor on a row matched by `strstr`. -/
theorem find_loop_shape (E : editor_config) (q : List Nat) (S : find_state) :
    ∀ (k : Nat) (c : Int) (E1 : editor_config) (S1 : find_state),
      find_loop E q S k c = some (E1, S1) →
      (E1 = E ∧ S1 = S) ∨
      (∃ (R : Int) (row : erow) (off : Nat), row_at E.editor_row R = some row ∧
        strstr row.render q = some off ∧
        E1 = { E with cy := R, cx := editor_row_rx_to_cx row (off : Int), rowoff := E.numrows } ∧
        S1 = { S with last_match := R }) := by
  intro k
  induction k with
  | zero =>
    intro c E1 S1 h
    left
    have := Option.some.inj h
    exact ⟨(congrArg Prod.fst this).symm, (congrArg Prod.snd this).symm⟩
  | succ k ih =>
    intro c E1 S1 h
    rw [find_loop] at h
    split at h
    · exact Option.noConfusion h
    · rename_i row hrow
      split at h
      · rename_i off hs
        right
        have := Option.some.inj h
        exact ⟨_, row, off, hrow, hs, (congrArg Prod.fst this).symm,
          (congrArg Prod.snd this).symm⟩
      · exact ih _ E1 S1 h

theorem find_scan_shape (E : editor_config) (q : List Nat) (S : find_state)
    (E1 : editor_config) (S1 : find_state) (h : find_scan E q S = some (E1, S1)) :
    (E1 = E ∧ S1.last_match = S.last_match) ∨
    (∃ (R : Int) (row : erow) (off : Nat), row_at E.editor_row R = some row ∧
      strstr row.render q = some off ∧
      E1 = { E with cy := R, cx := editor_row_rx_to_cx row (off : Int), rowoff := E.numrows } ∧
      S1.last_match = R) := by
  unfold find_scan at h
  dsimp only at h
  rcases find_loop_shape E q _ _ _ E1 S1 h with ⟨h1, h2⟩ | ⟨R, row, off, h1, h2, h3, h4⟩
  · left
    refine ⟨h1, ?_⟩
    rw [h2]
    split_ifs <;> rfl
  · right
    exact ⟨R, row, off, h1, h2, h3, by rw [h4]⟩

theorem editor_find_callback_shape (E : editor_config) (S : find_state) (q : List Nat)
    (key : Int) (E1 : editor_config) (S1 : find_state)
    (h : editor_find_callback E S q key = some (E1, S1)) :
    (E1 = E ∧ (S1.last_match = S.last_match ∨ S1.last_match = -1)) ∨
    (∃ (R : Int) (row : erow) (off : Nat), row_at E.editor_row R = some row ∧
      strstr row.render q = some off ∧
      E1 = { E with cy := R, cx := editor_row_rx_to_cx row (off : Int), rowoff := E.numrows } ∧
      S1.last_match = R) := by
  unfold editor_find_callback at h
  split at h
  · left
    have := Option.some.inj h
    have h2 : S1 = { last_match := -1, direction := 1 } := (congrArg Prod.snd this).symm
    exact ⟨(congrArg Prod.fst this).symm, Or.inr (by rw [h2])⟩
  · split at h
    · rcases find_scan_shape E q _ E1 S1 h with ⟨h1, h2⟩ | h2
      · exact Or.inl ⟨h1, Or.inl h2⟩
      · exact Or.inr h2
    · split at h
      · rcases find_scan_shape E q _ E1 S1 h with ⟨h1, h2⟩ | h2
        · exact Or.inl ⟨h1, Or.inl h2⟩
        · exact Or.inr h2
      · rcases find_scan_shape E q _ E1 S1 h with ⟨h1, h2⟩ | h2
        · exact Or.inl ⟨h1, Or.inr h2⟩
        · exact Or.inr h2

/-- Counterexample to C14 as stated: with no prior match, the key `ARROW_LEFT` does not make
the scan run backward: on `["wor", "wor", "x"]` the callback is the forward scan from "none",
it stops on row 0 and leaves `direction = 1`. -/
theorem C14_arrow_left_without_match_scans_forward :
    editor_find_callback (mk_doc [[119, 111, 114], [119, 111, 114], [120]] 2 0)
        { last_match := -1, direction := 1 } [119, 111, 114] ARROW_LEFT
      = find_loop (mk_doc [[119, 111, 114], [119, 111, 114], [120]] 2 0) [119, 111, 114]
          { last_match := -1, direction := 1 } 3 (-1) ∧
    (editor_find_callback (mk_doc [[119, 111, 114], [119, 111, 114], [120]] 2 0)
        { last_match := -1, direction := 1 } [119, 111, 114] ARROW_LEFT).map
        (fun r => (r.1.cy, r.2.last_match, r.2.direction)) = some (0, 0, 1) ∧
    (editor_find_callback (mk_doc [[119, 111, 114], [119, 111, 114], [120]] 2 0)
        { last_match := -1, direction := 1 } [119, 111, 114] ARROW_LEFT).map
        (fun r => r.2.direction) ≠ some (-1) := by
  refine ⟨by decide, by decide, by decide⟩

/-- Claim C14 (amended): (i) on Enter or Escape `editor_find_callback` returns the editor
state unchanged with the search state reset to (none, forward), without a scan; (ii) on
right/down it runs the loop forward from the kept `last_match`; on left/up it runs the loop
backward from the kept `last_match` when there is a prior match, and forward from "none"
when there is none; (iii) on any other key it runs the loop forward from "none".  The loop
keeps `direction` and changes `last_match` only to the row it stops on. -/
theorem C14_find_key_protocol (E : editor_config) (S : find_state) (q : List Nat) (key : Int) :
    (key = KEY_ENTER ∨ key = KEY_ESC →
      editor_find_callback E S q key = some (E, { last_match := -1, direction := 1 })) ∧
    (key = ARROW_RIGHT ∨ key = ARROW_DOWN →
      editor_find_callback E S q key
        = find_loop E q { last_match := S.last_match, direction := 1 }
            E.numrows.toNat S.last_match) ∧
    (key = ARROW_LEFT ∨ key = ARROW_UP → S.last_match ≠ -1 →
      editor_find_callback E S q key
        = find_loop E q { last_match := S.last_match, direction := -1 }
            E.numrows.toNat S.last_match) ∧
    (key = ARROW_LEFT ∨ key = ARROW_UP → S.last_match = -1 →
      editor_find_callback E S q key
        = find_loop E q { last_match := -1, direction := 1 } E.numrows.toNat (-1)) ∧
    (key ≠ KEY_ENTER → key ≠ KEY_ESC → key ≠ ARROW_RIGHT → key ≠ ARROW_DOWN →
      key ≠ ARROW_LEFT → key ≠ ARROW_UP →
      editor_find_callback E S q key
        = find_loop E q { last_match := -1, direction := 1 } E.numrows.toNat (-1)) ∧
    (∀ (S0 : find_state) (k : Nat) (c : Int) (E1 : editor_config) (S1 : find_state),
      find_loop E q S0 k c = some (E1, S1) →
      S1.direction = S0.direction ∧
      (S1.last_match = S0.last_match ∨
        ∃ row, row_at E.editor_row S1.last_match = some row ∧ row_contains q row ∧
          E1.cy = S1.last_match)) := by
  refine ⟨?_, ?_, ?_, ?_, ?_, ?_⟩
  · intro h
    simp only [editor_find_callback, if_pos h]
  · intro h
    have h1 : ¬ (key = KEY_ENTER ∨ key = KEY_ESC) := by
      rcases h with h | h <;> rw [h] <;> decide
    simp only [editor_find_callback, if_neg h1, if_pos h, find_scan_eq]
    by_cases hm : S.last_match = -1
    · simp only [hm, if_true]
    · simp only [hm, if_false]
  · intro h hm
    have h1 : ¬ (key = KEY_ENTER ∨ key = KEY_ESC) := by
      rcases h with h | h <;> rw [h] <;> decide
    have h2 : ¬ (key = ARROW_RIGHT ∨ key = ARROW_DOWN) := by
      rcases h with h | h <;> rw [h] <;> decide
    simp only [editor_find_callback, if_neg h1, if_neg h2, if_pos h, find_scan_eq, hm, if_false]
  · intro h hm
    have h1 : ¬ (key = KEY_ENTER ∨ key = KEY_ESC) := by
      rcases h with h | h <;> rw [h] <;> decide
    have h2 : ¬ (key = ARROW_RIGHT ∨ key = ARROW_DOWN) := by
      rcases h with h | h <;> rw [h] <;> decide
    simp only [editor_find_callback, if_neg h1, if_neg h2, if_pos h, find_scan_eq, hm, if_true]
  · intro k1 k2 k3 k4 k5 k6
    have h1 : ¬ (key = KEY_ENTER ∨ key = KEY_ESC) := by
      rintro (h | h) <;> contradiction
    have h2 : ¬ (key = ARROW_RIGHT ∨ key = ARROW_DOWN) := by
      rintro (h | h) <;> contradiction
    have h3 : ¬ (key = ARROW_LEFT ∨ key = ARROW_UP) := by
      rintro (h | h) <;> contradiction
    simp only [editor_find_callback, if_neg h1, if_neg h2, if_neg h3, find_scan_eq, if_true]
  · intro S0 k c E1 S1 h
    rcases find_loop_shape E q S0 k c E1 S1 h with ⟨_, h2⟩ | ⟨R, row, off, h1, h2, h3, h4⟩
    · rw [h2]; exact ⟨rfl, Or.inl rfl⟩
    · rw [h4, h3]
      exact ⟨rfl, Or.inr ⟨row, h1, (strstr_some _ _ _ h2).1, rfl⟩⟩

/-- Witness of C14 (amended) on `["wor", "x", "wor"]` with a prior match on row 0: Escape,
`ARROW_LEFT` (backward, to row 2) and `ARROW_LEFT` without a prior match. -/
theorem C14_find_key_protocol_witness :
    editor_find_callback (mk_doc [[119, 111, 114], [120], [119, 111, 114]] 0 0)
        { last_match := 0, direction := 1 } [119, 111, 114] KEY_ESC
      = some (mk_doc [[119, 111, 114], [120], [119, 111, 114]] 0 0,
              { last_match := -1, direction := 1 }) ∧
    editor_find_callback (mk_doc [[119, 111, 114], [120], [119, 111, 114]] 0 0)
        { last_match := 0, direction := 1 } [119, 111, 114] ARROW_LEFT
      = find_loop (mk_doc [[119, 111, 114], [120], [119, 111, 114]] 0 0) [119, 111, 114]
          { last_match := 0, direction := -1 } 3 0 ∧
    editor_find_callback (mk_doc [[119, 111, 114], [120], [119, 111, 114]] 0 0)
        { last_match := -1, direction := 1 } [119, 111, 114] ARROW_LEFT
      = find_loop (mk_doc [[119, 111, 114], [120], [119, 111, 114]] 0 0) [119, 111, 114]
          { last_match := -1, direction := 1 } 3 (-1) ∧
    editor_find_callback (mk_doc [[119, 111, 114], [120], [119, 111, 114]] 0 0)
        { last_match := 0, direction := 1 } [119, 111, 114] 120
      = find_loop (mk_doc [[119, 111, 114], [120], [119, 111, 114]] 0 0) [119, 111, 114]
          { last_match := -1, direction := 1 } 3 (-1) :=
  ⟨(C14_find_key_protocol (mk_doc [[119, 111, 114], [120], [119, 111, 114]] 0 0)
      { last_match := 0, direction := 1 } [119, 111, 114] KEY_ESC).1 (by decide),
   (C14_find_key_protocol (mk_doc [[119, 111, 114], [120], [119, 111, 114]] 0 0)
      { last_match := 0, direction := 1 } [119, 111, 114] ARROW_LEFT).2.2.1 (by decide)
      (by decide),
   (C14_find_key_protocol (mk_doc [[119, 111, 114], [120], [119, 111, 114]] 0 0)
      { last_match := -1, direction := 1 } [119, 111, 114] ARROW_LEFT).2.2.2.1 (by decide)
      (by decide),
   (C14_find_key_protocol (mk_doc [[119, 111, 114], [120], [119, 111, 114]] 0 0)
      { last_match := 0, direction := 1 } [119, 111, 114] 120).2.2.2.2.1 (by decide)
      (by decide) (by decide) (by decide) (by decide) (by decide)⟩

/-! ## The search prompt -/

theorem editor_scroll_frame (E E1 : editor_config) (h : editor_scroll E = some E1) :
    E1.editor_row = E.editor_row ∧ E1.dirty = E.dirty ∧ E1.cx = E.cx ∧ E1.cy = E.cy := by
  obtain ⟨rx, _, hE1⟩ := editor_scroll_some E E1 h
  subst hE1
  exact ⟨rfl, rfl, rfl, rfl⟩

theorem cursor_ok_congr (E E1 : editor_config) (h : cursor_ok E)
    (hr : E1.editor_row = E.editor_row) (hx : E1.cx = E.cx) (hy : E1.cy = E.cy) :
    cursor_ok E1 := by
  unfold cursor_ok rowlen editor_config.numrows at *
  rw [hr, hx, hy]
  exact h

theorem editor_find_callback_frame (E : editor_config) (S : find_state) (q : List Nat)
    (key : Int) (E1 : editor_config) (S1 : find_state)
    (h : editor_find_callback E S q key = some (E1, S1)) :
    E1.editor_row = E.editor_row ∧ E1.dirty = E.dirty := by
  rcases editor_find_callback_shape E S q key E1 S1 h with ⟨h1, _⟩ | ⟨R, row, off, _, _, h3, _⟩
  · rw [h1]; exact ⟨rfl, rfl⟩
  · rw [h3]; exact ⟨rfl, rfl⟩

theorem getLast?_cons_esc (c : Int) (ks : List Int) (hc : c ≠ KEY_ESC)
    (hl : (c :: ks).getLast? = some KEY_ESC) : ks.getLast? = some KEY_ESC := by
  cases ks with
  | nil =>
    simp at hl
    exact absurd hl hc
  | cons k ks1 =>
    rw [List.getLast?_cons_cons] at hl
    exact hl

/-- One round of the prompt loop (refresh, then the callback) leaves rows and `dirty`. -/
theorem prompt_round_frame (E E1 E2 : editor_config) (S S2 : find_state) (buf : List Nat)
    (c : Int) (h1 : editor_refresh_screen E = some E1)
    (h2 : prompt_callback (some editor_find_callback) E1 S buf c = some (E2, S2)) :
    E2.editor_row = E.editor_row ∧ E2.dirty = E.dirty := by
  obtain ⟨a1, a2, _, _⟩ := editor_scroll_frame E E1 h1
  obtain ⟨b1, b2⟩ := editor_find_callback_frame E1 S buf c E2 S2 h2
  exact ⟨b1.trans a1, b2.trans a2⟩

/-- Whatever a run of the search prompt returns has the rows and `dirty` it started with;
a run that read all its keys, the last of them Escape, ends cancelled. -/
theorem editor_prompt_frame (iscntrl : Int → Bool) :
    ∀ (keys : List Int) (buf : List Nat) (E : editor_config) (S : find_state)
      (res : prompt_result) (E1 : editor_config) (S1 : find_state) (rest : List Int),
      editor_prompt iscntrl (some editor_find_callback) keys buf E S
        = some (res, E1, S1, rest) →
      E1.editor_row = E.editor_row ∧ E1.dirty = E.dirty ∧
      (rest = [] → keys.getLast? = some KEY_ESC → res = prompt_result.cancelled) := by
  intro keys
  induction keys with
  | nil =>
    intro buf E S res E1 S1 rest h
    rw [editor_prompt] at h
    split at h
    · exact Option.noConfusion h
    · rename_i Ea ha
      have := Option.some.inj h
      have hE : E1 = Ea := by
        have := congrArg (fun r => r.2.1) this
        exact this.symm
      obtain ⟨a1, a2, _, _⟩ := editor_scroll_frame E Ea ha
      rw [hE]
      refine ⟨a1, a2, ?_⟩
      intro _ hl
      simp at hl
  | cons c ks ih =>
    intro buf E S res E1 S1 rest h
    rw [editor_prompt] at h
    split at h
    · exact Option.noConfusion h
    · rename_i Ea ha
      split at h
      · -- backspace keys
        rename_i hk
        have hne : c ≠ KEY_ESC := by
          rcases hk with hk | hk | hk <;> rw [hk] <;> decide
        dsimp only at h
        split at h
        · exact Option.noConfusion h
        · rename_i Eb Sb hb
          obtain ⟨f1, f2⟩ := prompt_round_frame E Ea Eb S Sb _ c ha hb
          obtain ⟨g1, g2, g3⟩ := ih _ Eb Sb res E1 S1 rest h
          refine ⟨g1.trans f1, g2.trans f2, ?_⟩
          intro hr hl
          exact g3 hr (getLast?_cons_esc c ks hne hl)
      · split at h
        · -- Escape
          split at h
          · exact Option.noConfusion h
          · rename_i Eb Sb hb
            obtain ⟨f1, f2⟩ := prompt_round_frame E Ea Eb S Sb _ c ha hb
            have := Option.some.inj h
            have hres : res = prompt_result.cancelled := (congrArg (fun r => r.1) this).symm
            have hE : E1 = Eb := (congrArg (fun r => r.2.1) this).symm
            rw [hE]
            exact ⟨f1, f2, fun _ _ => hres⟩
        · rename_i hesc
          split at h
          · -- Enter
            rename_i hent
            split at h
            · split at h
              · exact Option.noConfusion h
              · rename_i Eb Sb hb
                obtain ⟨f1, f2⟩ := prompt_round_frame E Ea Eb S Sb _ c ha hb
                have := Option.some.inj h
                have hE : E1 = Eb := (congrArg (fun r => r.2.1) this).symm
                have hrest : rest = ks := (congrArg (fun r => r.2.2.2) this).symm
                rw [hE]
                refine ⟨f1, f2, ?_⟩
                intro hr hl
                rw [hrest] at hr
                subst hr
                simp at hl
                exact absurd hl hesc
            · split at h
              · exact Option.noConfusion h
              · rename_i Eb Sb hb
                obtain ⟨f1, f2⟩ := prompt_round_frame E Ea Eb S Sb _ c ha hb
                obtain ⟨g1, g2, g3⟩ := ih _ Eb Sb res E1 S1 rest h
                refine ⟨g1.trans f1, g2.trans f2, ?_⟩
                intro hr hl
                exact g3 hr (getLast?_cons_esc c ks hesc hl)
          · -- any other key
            dsimp only at h
            split at h
            · exact Option.noConfusion h
            · rename_i Eb Sb hb
              obtain ⟨f1, f2⟩ := prompt_round_frame E Ea Eb S Sb _ c ha hb
              obtain ⟨g1, g2, g3⟩ := ih _ Eb Sb res E1 S1 rest h
              refine ⟨g1.trans f1, g2.trans f2, ?_⟩
              intro hr hl
              exact g3 hr (getLast?_cons_esc c ks hesc hl)

theorem last_match_ok_congr (E E1 : editor_config) (S : find_state) (h : last_match_ok E S)
    (hr : E1.editor_row = E.editor_row) : last_match_ok E1 S := by
  unfold last_match_ok editor_config.numrows at *
  rw [hr]
  exact h

theorem editor_row_rx_to_cx_range (row : erow) (rx : Int) :
    0 ≤ editor_row_rx_to_cx row rx ∧ editor_row_rx_to_cx row rx ≤ row.size := by
  obtain ⟨k, hk, hk1, _, _⟩ := editor_row_rx_to_cx_spec row rx
  rw [hk]
  simp only [erow.size]
  omega

/-- On a valid cursor and a valid `last_match` the scan returns, and what it returns has a
valid cursor and a valid `last_match` again. -/
theorem find_scan_ok (E : editor_config) (q : List Nat) (S : find_state)
    (hd : S.direction = 1 ∨ S.direction = -1) (hc : cursor_ok E) (hm : last_match_ok E S) :
    ∃ E1 S1, find_scan E q S = some (E1, S1) ∧ cursor_ok E1 ∧ last_match_ok E1 S1 := by
  have hn0 : (0 : Int) ≤ E.numrows := by simp [editor_config.numrows]
  have hd1 : (if S.last_match = -1 then 1 else S.direction) = 1 ∨
      (if S.last_match = -1 then 1 else S.direction) = -1 := by
    split_ifs
    · exact Or.inl rfl
    · exact hd
  have hcur : (S.last_match = -1 ∧ (if S.last_match = -1 then 1 else S.direction) = 1) ∨
      (0 ≤ S.last_match ∧ S.last_match < E.numrows) := by
    rcases hm with h | h
    · exact Or.inl ⟨h, by rw [if_pos h]⟩
    · exact Or.inr h
  have hchar := find_loop_char E q
    { last_match := S.last_match, direction := if S.last_match = -1 then 1 else S.direction }
    hd1 E.numrows.toNat S.last_match hcur (by omega)
  have heq := find_scan_eq E q S.last_match S.direction
  rcases hchar with ⟨hE, _⟩ | ⟨j0, row, off, _, _, hr, _, _, hE⟩
  · exact ⟨_, _, heq.trans hE, hc, hm⟩
  · obtain ⟨r0, r1, _⟩ := row_at_some _ _ _ hr
    obtain ⟨x0, x1⟩ := editor_row_rx_to_cx_range row (off : Int)
    refine ⟨_, _, heq.trans hE, cursor_ok_of_row _ row hr x0 x1, Or.inr ⟨r0, ?_⟩⟩
    show scan_row E.numrows S.last_match _ j0 < (E.editor_row.length : Int)
    exact r1

theorem editor_find_callback_ok (E : editor_config) (S : find_state) (q : List Nat) (key : Int)
    (hc : cursor_ok E) (hm : last_match_ok E S) :
    ∃ E1 S1, editor_find_callback E S q key = some (E1, S1) ∧
      cursor_ok E1 ∧ last_match_ok E1 S1 := by
  unfold editor_find_callback
  split
  · exact ⟨E, _, rfl, hc, Or.inl rfl⟩
  · split
    · exact find_scan_ok E q _ (Or.inl rfl) hc hm
    · split
      · exact find_scan_ok E q _ (Or.inr rfl) hc hm
      · exact find_scan_ok E q _ (Or.inl rfl) hc (Or.inl rfl)

/-- One round of the prompt loop on a valid cursor: the refresh and the callback both
return, and the cursor and `last_match` stay valid. -/
theorem prompt_round_ok (E : editor_config) (S : find_state) (buf : List Nat) (c : Int)
    (hc : cursor_ok E) (hm : last_match_ok E S) :
    ∃ E1 E2 S2, editor_refresh_screen E = some E1 ∧
      prompt_callback (some editor_find_callback) E1 S buf c = some (E2, S2) ∧
      cursor_ok E1 ∧ cursor_ok E2 ∧ last_match_ok E2 S2 := by
  obtain ⟨E1, h1⟩ := editor_scroll_defined E hc.1 hc.2.2.2.1
  obtain ⟨a1, _, a3, a4⟩ := editor_scroll_frame E E1 h1
  have hc1 := cursor_ok_congr E E1 hc a1 a3 a4
  have hm1 := last_match_ok_congr E E1 S hm a1
  obtain ⟨E2, S2, h2, hc2, hm2⟩ := editor_find_callback_ok E1 S buf c hc1 hm1
  exact ⟨E1, E2, S2, h1, h2, hc1, hc2, hm2⟩

/-- On a valid cursor and a valid `last_match` every run of the search prompt returns. -/
theorem editor_prompt_defined (iscntrl : Int → Bool) :
    ∀ (keys : List Int) (buf : List Nat) (E : editor_config) (S : find_state),
      cursor_ok E → last_match_ok E S →
      ∃ r, editor_prompt iscntrl (some editor_find_callback) keys buf E S = some r := by
  intro keys
  induction keys with
  | nil =>
    intro buf E S hc hm
    obtain ⟨E1, h1⟩ := editor_scroll_defined E hc.1 hc.2.2.2.1
    exact ⟨(prompt_result.reading buf, E1, S, []),
      by simp only [editor_prompt, editor_refresh_screen, h1]⟩
  | cons c ks ih =>
    intro buf E S hc hm
    rw [editor_prompt]
    by_cases hk : c = DEL_KEY ∨ c = CTRL_KEY 104 ∨ c = BACKSPACE
    · obtain ⟨E1, E2, S2, h1, h2, _, hc2, hm2⟩ := prompt_round_ok E S
        (if buf.length ≠ 0 then buf.dropLast else buf) c hc hm
      simp only [h1, if_pos hk, h2]
      exact ih _ E2 S2 hc2 hm2
    · by_cases hesc : c = KEY_ESC
      · obtain ⟨E1, E2, S2, h1, h2, _, _, _⟩ := prompt_round_ok E S buf c hc hm
        simp only [h1, if_neg hk, if_pos hesc, h2]
        exact ⟨_, rfl⟩
      · obtain ⟨E1, E2, S2, h1, h2, _, hc2, hm2⟩ := prompt_round_ok E S buf c hc hm
        by_cases hent : c = KEY_ENTER
        · by_cases hb : buf.length ≠ 0
          · simp only [h1, if_neg hk, if_neg hesc, if_pos hent, if_pos hb, h2]
            exact ⟨_, rfl⟩
          · simp only [h1, if_neg hk, if_neg hesc, if_pos hent, if_neg hb, h2]
            exact ih _ E2 S2 hc2 hm2
        · obtain ⟨E1b, E2b, S2b, h1b, h2b, _, hc2b, hm2b⟩ := prompt_round_ok E S
            (if (!iscntrl c) ∧ c < 128 then buf ++ [(c % 256).toNat] else buf) c hc hm
          simp only [h1b, if_neg hk, if_neg hesc, if_neg hent, h2b]
          exact ih _ E2b S2b hc2b hm2b

/-- What `editor_find` makes of the result of the prompt. -/
theorem editor_find_of_prompt (iscntrl : Int → Bool) (keys : List Int) (E : editor_config)
    (S : find_state) (res : prompt_result) (E1 : editor_config) (S1 : find_state)
    (rest : List Int)
    (h : editor_prompt iscntrl (some editor_find_callback) keys [] E S
      = some (res, E1, S1, rest)) :
    editor_find iscntrl keys E S
      = some (res,
          (if res = prompt_result.cancelled then
            { E1 with cx := E.cx, cy := E.cy, coloff := E.coloff, rowoff := E.rowoff }
           else E1), S1, rest) := by
  unfold editor_find
  rw [h]
  cases res with
  | cancelled => simp
  | accepted b => simp
  | reading b => simp

/-- Claim C15: for every document, starting state and finite sequence of keys, whatever
`editor_find` returns has the rows (chars and render), `numrows` and `dirty` it started
with, and when the prompt has read all the keys and the last one is Escape the result is
the cancelled one, with `cx`, `cy`, `rowoff` and `coloff` equal to their values before the
search; and on a valid cursor (and a `last_match` that is "none" or a row) `editor_find`
does return. -/
theorem C15_search_frame (iscntrl : Int → Bool) (keys : List Int) (E : editor_config)
    (S : find_state) :
    (∀ (res : prompt_result) (E1 : editor_config) (S1 : find_state) (rest : List Int),
      editor_find iscntrl keys E S = some (res, E1, S1, rest) →
      E1.editor_row = E.editor_row ∧ E1.numrows = E.numrows ∧ E1.dirty = E.dirty ∧
      (rest = [] → keys.getLast? = some KEY_ESC →
        res = prompt_result.cancelled ∧
        E1.cx = E.cx ∧ E1.cy = E.cy ∧ E1.rowoff = E.rowoff ∧ E1.coloff = E.coloff)) ∧
    (cursor_ok E → last_match_ok E S → ∃ r, editor_find iscntrl keys E S = some r) := by
  refine ⟨?_, ?_⟩
  · intro res E1 S1 rest h
    cases hp : editor_prompt iscntrl (some editor_find_callback) keys [] E S with
    | none =>
      unfold editor_find at h
      rw [hp] at h
      exact Option.noConfusion h
    | some r =>
      obtain ⟨res0, E0, S0, rest0⟩ := r
      obtain ⟨f1, f2, f3⟩ := editor_prompt_frame iscntrl keys [] E S res0 E0 S0 rest0 hp
      rw [editor_find_of_prompt iscntrl keys E S res0 E0 S0 rest0 hp] at h
      have hh := Option.some.inj h
      have hres : res0 = res := congrArg (fun r => r.1) hh
      have hE : (if res0 = prompt_result.cancelled then
            { E0 with cx := E.cx, cy := E.cy, coloff := E.coloff, rowoff := E.rowoff }
           else E0) = E1 := congrArg (fun r => r.2.1) hh
      have hrest : rest0 = rest := congrArg (fun r => r.2.2.2) hh
      rw [← hE, ← hres, ← hrest]
      by_cases hc : res0 = prompt_result.cancelled
      · rw [if_pos hc]
        refine ⟨f1, by simp only [editor_config.numrows]; rw [f1], f2, ?_⟩
        intro _ _
        exact ⟨hc, rfl, rfl, rfl, rfl⟩
      · rw [if_neg hc]
        refine ⟨f1, by simp only [editor_config.numrows]; rw [f1], f2, ?_⟩
        intro hr hl
        exact absurd (f3 hr hl) hc
  · intro hc hm
    obtain ⟨r, hr⟩ := editor_prompt_defined iscntrl keys [] E S hc hm
    obtain ⟨res0, E0, S0, rest0⟩ := r
    exact ⟨_, editor_find_of_prompt iscntrl keys E S res0 E0 S0 rest0 hr⟩

/-- Witness of C15: typing `w`, `o`, `r` (the cursor jumps to the match on row 1) and then
Escape on `["hello", "world"]` from the cursor `(0, 3)`. -/
theorem C15_search_frame_witness :
    (∃ r, editor_find (fun c => decide (c < 32 ∨ c = 127)) [119, 111, 114, 27]
        (mk_doc [[104, 101, 108, 108, 111], [119, 111, 114, 108, 100]] 0 3)
        { last_match := -1, direction := 1 } = some r) ∧
    (editor_find (fun c => decide (c < 32 ∨ c = 127)) [119, 111, 114]
        (mk_doc [[104, 101, 108, 108, 111], [119, 111, 114, 108, 100]] 0 3)
        { last_match := -1, direction := 1 }).map (fun r => (r.2.1.cy, r.2.1.cx))
      = some (1, 0) ∧
    ((mk_doc [[104, 101, 108, 108, 111], [119, 111, 114, 108, 100]] 0 3).editor_row
        = (mk_doc [[104, 101, 108, 108, 111], [119, 111, 114, 108, 100]] 0 3).editor_row ∧
      (mk_doc [[104, 101, 108, 108, 111], [119, 111, 114, 108, 100]] 0 3).numrows
        = (mk_doc [[104, 101, 108, 108, 111], [119, 111, 114, 108, 100]] 0 3).numrows ∧
      (mk_doc [[104, 101, 108, 108, 111], [119, 111, 114, 108, 100]] 0 3).dirty
        = (mk_doc [[104, 101, 108, 108, 111], [119, 111, 114, 108, 100]] 0 3).dirty ∧
      (([] : List Int) = [] → [119, 111, 114, (27 : Int)].getLast? = some KEY_ESC →
        prompt_result.cancelled = prompt_result.cancelled ∧
        (mk_doc [[104, 101, 108, 108, 111], [119, 111, 114, 108, 100]] 0 3).cx = 3 ∧
        (mk_doc [[104, 101, 108, 108, 111], [119, 111, 114, 108, 100]] 0 3).cy = 0 ∧
        (mk_doc [[104, 101, 108, 108, 111], [119, 111, 114, 108, 100]] 0 3).rowoff = 0 ∧
        (mk_doc [[104, 101, 108, 108, 111], [119, 111, 114, 108, 100]] 0 3).coloff = 0)) :=
  ⟨(C15_search_frame (fun c => decide (c < 32 ∨ c = 127)) [119, 111, 114, 27]
      (mk_doc [[104, 101, 108, 108, 111], [119, 111, 114, 108, 100]] 0 3)
      { last_match := -1, direction := 1 }).2 (by decide) (Or.inl rfl),
   by decide,
   (C15_search_frame (fun c => decide (c < 32 ∨ c = 127)) [119, 111, 114, 27]
      (mk_doc [[104, 101, 108, 108, 111], [119, 111, 114, 108, 100]] 0 3)
      { last_match := -1, direction := 1 }).1 prompt_result.cancelled
      (mk_doc [[104, 101, 108, 108, 111], [119, 111, 114, 108, 100]] 0 3)
      { last_match := -1, direction := 1 } [] (by decide)⟩

/-! ## Cursor movement leaves the document alone -/

theorem snap_cursor_frame (E E1 : editor_config) (h : snap_cursor E = some E1) :
    E1.editor_row = E.editor_row ∧ E1.dirty = E.dirty := by
  unfold snap_cursor at h
  split at h
  · rw [← Option.some.inj h]
    split <;> exact ⟨rfl, rfl⟩
  · split at h
    · exact Option.noConfusion h
    · rw [← Option.some.inj h]
      split <;> exact ⟨rfl, rfl⟩

theorem move_cursor_switch_frame (E E1 : editor_config) (key : Int)
    (h : move_cursor_switch E key = some E1) :
    E1.editor_row = E.editor_row ∧ E1.dirty = E.dirty := by
  unfold move_cursor_switch at h
  split at h
  · split at h
    · rw [← Option.some.inj h]; exact ⟨rfl, rfl⟩
    · split at h
      · split at h
        · exact Option.noConfusion h
        · rw [← Option.some.inj h]; exact ⟨rfl, rfl⟩
      · rw [← Option.some.inj h]; exact ⟨rfl, rfl⟩
  · split at h
    · split at h
      · rw [← Option.some.inj h]; exact ⟨rfl, rfl⟩
      · split at h
        · exact Option.noConfusion h
        · split at h
          · rw [← Option.some.inj h]; exact ⟨rfl, rfl⟩
          · split at h <;> (rw [← Option.some.inj h]; exact ⟨rfl, rfl⟩)
    · split at h
      · split at h <;> (rw [← Option.some.inj h]; exact ⟨rfl, rfl⟩)
      · split at h
        · split at h <;> (rw [← Option.some.inj h]; exact ⟨rfl, rfl⟩)
        · rw [← Option.some.inj h]; exact ⟨rfl, rfl⟩

theorem editor_move_cursor_frame (E E1 : editor_config) (key : Int)
    (h : editor_move_cursor E key = some E1) :
    E1.editor_row = E.editor_row ∧ E1.dirty = E.dirty := by
  unfold editor_move_cursor at h
  split at h
  · exact Option.noConfusion h
  · rename_i Ea ha
    obtain ⟨a1, a2⟩ := move_cursor_switch_frame E Ea key ha
    obtain ⟨b1, b2⟩ := snap_cursor_frame Ea E1 h
    exact ⟨b1.trans a1, b2.trans a2⟩

theorem exec_call_rel (E E1 : editor_config) (cmd : edit_cmd) (h : exec_call E cmd = some E1) :
    edit_rel E E1 := by
  cases cmd with
  | insert_char c => exact (editor_insert_char_rel E E1 c h).1
  | del_char => exact editor_del_char_rel E E1 h
  | insert_newline => exact editor_insert_newline_rel E E1 h
  | insert_row at_ s => exact editor_insert_row_rel E E1 at_ s h
  | del_row at_ =>
    have : editor_del_row E at_ = E1 := Option.some.inj h
    rw [← this]; exact editor_del_row_rel E at_
  | row_append_string ri s => exact (editor_row_append_string_rel E E1 ri s h).1
  | move_cursor key =>
    obtain ⟨a, b⟩ := editor_move_cursor_frame E E1 key h
    exact edit_rel_of_same E E1 a b
  | scroll =>
    obtain ⟨a, b, _, _⟩ := editor_scroll_frame E E1 h
    exact edit_rel_of_same E E1 a b
  | find_callback S q key =>
    simp only [exec_call] at h
    split at h
    · exact Option.noConfusion h
    · rename_i Ea Sa ha
      obtain ⟨a, b⟩ := editor_find_callback_frame E S q key Ea Sa ha
      rw [← Option.some.inj h]
      exact edit_rel_of_same E Ea a b

theorem exec_calls_rel (cmds : List edit_cmd) :
    ∀ E E1 : editor_config, exec_calls cmds E = some E1 → edit_rel E E1 := by
  induction cmds with
  | nil =>
    intro E E1 h
    rw [← Option.some.inj h]; exact edit_rel_refl E
  | cons cmd cmds ih =>
    intro E E1 h
    rw [exec_calls] at h
    split at h
    · exact Option.noConfusion h
    · rename_i Ea ha
      exact edit_rel_trans E Ea E1 (exec_call_rel E Ea cmd ha) (ih Ea E1 h)

theorem edit_rel_dirty (E E1 : editor_config) (h : edit_rel E E1) :
    E.dirty ≤ E1.dirty ∧
    (doc_chars E1 ≠ doc_chars E ∨ E1.numrows ≠ E.numrows → E.dirty < E1.dirty) ∧
    (E1.dirty = E.dirty → E1.editor_row = E.editor_row) := by
  rcases h with ⟨h1, h2⟩ | ⟨_, h2⟩
  · refine ⟨by omega, ?_, fun _ => h1⟩
    intro hch
    exfalso
    rcases hch with hch | hch
    · exact hch (by simp only [doc_chars, h1])
    · exact hch (by simp only [editor_config.numrows, h1])
  · exact ⟨by omega, fun _ => h2, fun he => by omega⟩

theorem row_rendered_mk_row (cs : List Nat) : row_rendered (mk_row cs) := ⟨rfl, rfl⟩

theorem edit_rel_rendered (E E1 : editor_config) (h : edit_rel E E1) (hr : all_rendered E) :
    all_rendered E1 := by
  rcases h with ⟨h1, _⟩ | ⟨h1, _⟩
  · intro r hmem
    rw [h1] at hmem
    exact hr r hmem
  · intro r hmem
    rcases h1 r hmem with h2 | ⟨cs, h2⟩
    · exact hr r h2
    · rw [h2]; exact row_rendered_mk_row cs

/-! ## Invariants of the editing core -/

theorem keypress_home_ok (E : editor_config) (h : cursor_ok E) : cursor_ok (keypress_home E) := by
  rcases cursor_ok_cases E h with ⟨hcy, _⟩ | ⟨row, hrow, _, _⟩
  · exact cursor_ok_of_virtual _ hcy rfl
  · exact cursor_ok_of_row _ row hrow (le_refl _) (by simp [keypress_home, erow.size])

/-- Claim C16: the cursor invariant (`cy` in `[0, numrows]`, `cx >= 0`, `cx <= rows[cy].size`
when `cy < numrows`, `cx = 0` when `cy = numrows`) holds in the state built by `init_editor`,
and from a state where it holds each of `editor_move_cursor` (every key), HOME, END,
`editor_insert_char`, `editor_del_char`, the backspace/forward-delete arm (for `DEL_KEY`:
move right, then `editor_del_char`), `editor_insert_newline`, a search scan and
`editor_find_callback` returns a state where it holds. -/
theorem C16_cursor_invariant :
    (∀ wrow wcol : Int, cursor_ok (init_editor wrow wcol)) ∧
    (∀ E : editor_config, cursor_ok E →
      (∀ key : Int, ∃ E1, editor_move_cursor E key = some E1 ∧ cursor_ok E1) ∧
      cursor_ok (keypress_home E) ∧
      (∃ E1, keypress_end E = some E1 ∧ cursor_ok E1) ∧
      (∀ c : Int, ∃ E1, editor_insert_char E c = some E1 ∧ cursor_ok E1) ∧
      (∃ E1, editor_del_char E = some E1 ∧ cursor_ok E1) ∧
      (∀ c : Int, ∃ E1, keypress_delete E c = some E1 ∧ cursor_ok E1) ∧
      (∃ E1, editor_insert_newline E = some E1 ∧ cursor_ok E1) ∧
      (∀ (q : List Nat) (S : find_state), S.direction = 1 ∨ S.direction = -1 →
        last_match_ok E S → ∃ E1 S1, find_scan E q S = some (E1, S1) ∧ cursor_ok E1) ∧
      (∀ (q : List Nat) (S : find_state) (key : Int), last_match_ok E S →
        ∃ E1 S1, editor_find_callback E S q key = some (E1, S1) ∧ cursor_ok E1)) := by
  refine ⟨?_, ?_⟩
  · intro wrow wcol
    exact cursor_ok_of_virtual _ rfl rfl
  · intro E h
    refine ⟨?_, keypress_home_ok E h, ?_, fun c => editor_insert_char_ok E c h,
      editor_del_char_ok E h, fun c => keypress_delete_ok E c h,
      editor_insert_newline_ok E h, ?_, ?_⟩
    · intro key
      obtain ⟨cx1, cy1, h1, h2⟩ := editor_move_cursor_ok E key h
      exact ⟨_, h1, h2⟩
    · obtain ⟨cx1, h1, h2⟩ := keypress_end_ok E h
      exact ⟨_, h1, h2⟩
    · intro q S hd hm
      obtain ⟨E1, S1, h1, h2, _⟩ := find_scan_ok E q S hd h hm
      exact ⟨E1, S1, h1, h2⟩
    · intro q S key hm
      obtain ⟨E1, S1, h1, h2, _⟩ := editor_find_callback_ok E S q key h hm
      exact ⟨E1, S1, h1, h2⟩

/-- Witness of C16 on `["ab", "c"]` with the cursor at the end of row 0: arrow right,
forward delete and newline. -/
theorem C16_cursor_invariant_witness :
    (∃ E1, editor_move_cursor (mk_doc [[97, 98], [99]] 0 2) ARROW_RIGHT = some E1 ∧
      cursor_ok E1) ∧
    (∃ E1, keypress_delete (mk_doc [[97, 98], [99]] 0 2) DEL_KEY = some E1 ∧ cursor_ok E1) ∧
    (∃ E1, editor_insert_newline (mk_doc [[97, 98], [99]] 0 2) = some E1 ∧ cursor_ok E1) ∧
    (keypress_delete (mk_doc [[97, 98], [99]] 0 2) DEL_KEY).map
      (fun E => (doc_chars E, E.cy, E.cx)) = some ([[97, 98, 99]], 0, 2) :=
  ⟨(C16_cursor_invariant.2 (mk_doc [[97, 98], [99]] 0 2) (by decide)).1 ARROW_RIGHT,
   (C16_cursor_invariant.2 (mk_doc [[97, 98], [99]] 0 2) (by decide)).2.2.2.2.2.1 DEL_KEY,
   (C16_cursor_invariant.2 (mk_doc [[97, 98], [99]] 0 2) (by decide)).2.2.2.2.2.2.1,
   by decide⟩

/-- Claim C19: if every row carries its derived render (`render` = tab expansion of `chars`,
`rsize` = length of `render`), then so does every row of whatever state each of
`editor_insert_row`, `editor_del_row`, `editor_row_insert_char`, `editor_row_del_char`,
`editor_row_append_string`, `editor_insert_char`, `editor_del_char` and
`editor_insert_newline` returns; the row operations return for every existing row, and the
three cursor operations return on a valid cursor. -/
theorem C19_render_invariant (E : editor_config) (hr : all_rendered E) :
    (∀ (at_ : Int) (s : List Nat) (E1 : editor_config),
      editor_insert_row E at_ s = some E1 → all_rendered E1) ∧
    (∀ at_ : Int, all_rendered (editor_del_row E at_)) ∧
    (∀ (ri at_ c : Int) (E1 : editor_config),
      editor_row_insert_char E ri at_ c = some E1 → all_rendered E1) ∧
    (∀ (ri at_ : Int) (E1 : editor_config),
      editor_row_del_char E ri at_ = some E1 → all_rendered E1) ∧
    (∀ (ri : Int) (s : List Nat) (E1 : editor_config),
      editor_row_append_string E ri s = some E1 → all_rendered E1) ∧
    (∀ (c : Int) (E1 : editor_config), editor_insert_char E c = some E1 → all_rendered E1) ∧
    (∀ E1 : editor_config, editor_del_char E = some E1 → all_rendered E1) ∧
    (∀ E1 : editor_config, editor_insert_newline E = some E1 → all_rendered E1) ∧
    (∀ (at_ : Int) (s : List Nat), ∃ E1, editor_insert_row E at_ s = some E1) ∧
    (∀ (ri : Int) (row : erow), row_at E.editor_row ri = some row →
      (∀ at_ c : Int, ∃ E1, editor_row_insert_char E ri at_ c = some E1) ∧
      (∀ at_ : Int, ∃ E1, editor_row_del_char E ri at_ = some E1) ∧
      (∀ s : List Nat, ∃ E1, editor_row_append_string E ri s = some E1)) ∧
    (cursor_ok E →
      (∀ c : Int, ∃ E1, editor_insert_char E c = some E1) ∧
      (∃ E1, editor_del_char E = some E1) ∧
      (∃ E1, editor_insert_newline E = some E1)) := by
  refine ⟨?_, ?_, ?_, ?_, ?_, ?_, ?_, ?_, ?_, ?_, ?_⟩
  · intro at_ s E1 h
    exact edit_rel_rendered E E1 (editor_insert_row_rel E E1 at_ s h) hr
  · intro at_
    exact edit_rel_rendered E _ (editor_del_row_rel E at_) hr
  · intro ri at_ c E1 h
    exact edit_rel_rendered E E1 (editor_row_insert_char_rel E E1 ri at_ c h).1 hr
  · intro ri at_ E1 h
    exact edit_rel_rendered E E1 (editor_row_del_char_rel E E1 ri at_ h).1 hr
  · intro ri s E1 h
    exact edit_rel_rendered E E1 (editor_row_append_string_rel E E1 ri s h).1 hr
  · intro c E1 h
    exact edit_rel_rendered E E1 (editor_insert_char_rel E E1 c h).1 hr
  · intro E1 h
    exact edit_rel_rendered E E1 (editor_del_char_rel E E1 h) hr
  · intro E1 h
    exact edit_rel_rendered E E1 (editor_insert_newline_rel E E1 h) hr
  · intro at_ s
    by_cases h : at_ < 0 ∨ at_ > E.numrows
    · exact ⟨E, by simp only [editor_insert_row, if_pos h]⟩
    · exact ⟨_, editor_insert_row_eq E at_ s (by omega) (by omega)⟩
  · intro ri row hrow
    refine ⟨?_, ?_, ?_⟩
    · intro at_ c
      by_cases h : at_ < 0 ∨ at_ > row.size
      · exact ⟨_, editor_row_insert_char_clamped E ri at_ c row hrow h⟩
      · exact ⟨_, editor_row_insert_char_eq E ri at_ c row hrow (by omega) (by omega)⟩
    · intro at_
      by_cases h : at_ < 0 ∨ at_ ≥ row.size
      · exact ⟨E, by simp only [editor_row_del_char, hrow, if_pos h]⟩
      · exact ⟨_, editor_row_del_char_eq E ri at_ row hrow (by omega) (by omega)⟩
    · intro s
      exact ⟨_, editor_row_append_string_eq E ri s row hrow⟩
  · intro hc
    refine ⟨?_, ?_, ?_⟩
    · intro c
      obtain ⟨E1, h1, _⟩ := editor_insert_char_ok E c hc
      exact ⟨E1, h1⟩
    · obtain ⟨E1, h1, _⟩ := editor_del_char_ok E hc
      exact ⟨E1, h1⟩
    · obtain ⟨E1, h1, _⟩ := editor_insert_newline_ok E hc
      exact ⟨E1, h1⟩

/-- Witness of C19 on `["a\tb", "c"]`: typing a tab at `(0, 3)` and joining the rows. -/
theorem C19_render_invariant_witness :
    all_rendered (mk_doc [[97, 9, 98], [99]] 0 3) ∧
    (∀ E1 : editor_config, editor_insert_char (mk_doc [[97, 9, 98], [99]] 0 3) 9 = some E1 →
      all_rendered E1) ∧
    (∃ E1, editor_insert_char (mk_doc [[97, 9, 98], [99]] 0 3) 9 = some E1) ∧
    (editor_insert_char (mk_doc [[97, 9, 98], [99]] 0 3) 9).map
      (fun E => E.editor_row.map erow.rsize) = some [16, 1] :=
  ⟨by decide,
   (C19_render_invariant (mk_doc [[97, 9, 98], [99]] 0 3) (by decide)).2.2.2.2.2.1 9,
   ((C19_render_invariant (mk_doc [[97, 9, 98], [99]] 0 3) (by decide)).2.2.2.2.2.2.2.2.2.2
      (by decide)).1 9,
   by decide⟩

/-! ## The counter `dirty` -/

theorem int_wrap_of_range (x : Int) (h1 : INT_MIN ≤ x) (h2 : x ≤ INT_MAX) : int_wrap x = x := by
  simp only [INT_MIN, INT_MAX] at h1 h2
  simp only [int_wrap]
  omega

theorem int_wrap_range (x : Int) : INT_MIN ≤ int_wrap x ∧ int_wrap x ≤ INT_MAX := by
  simp only [INT_MIN, INT_MAX, int_wrap]
  omega

/-- Reducing to 32 bits at every `E.dirty++`, as the program does, or once on the count, as
`stored_dirty` does, gives the same value. -/
theorem dirty_incr_int_wrap (d : Int) : dirty_incr (int_wrap d) = int_wrap (d + 1) := by
  simp only [dirty_incr, int_wrap]
  omega

/-- Below `INT_MAX` the statement `E.dirty++` is the `+ 1` of the embedding. -/
theorem dirty_incr_of_lt (d : Int) (h1 : INT_MIN ≤ d) (h2 : d < INT_MAX) :
    dirty_incr d = d + 1 := by
  simp only [INT_MIN, INT_MAX] at h1 h2
  simp only [dirty_incr, int_wrap]
  omega

theorem edit_rel_stored_dirty (E E1 : editor_config) (h : edit_rel E E1)
    (hlo : INT_MIN ≤ E.dirty) (hhi : E1.dirty ≤ INT_MAX) :
    stored_dirty E ≤ stored_dirty E1 ∧
    (doc_chars E1 ≠ doc_chars E ∨ E1.numrows ≠ E.numrows → stored_dirty E < stored_dirty E1) ∧
    (stored_dirty E1 = stored_dirty E → E1.editor_row = E.editor_row) := by
  obtain ⟨a, b, c⟩ := edit_rel_dirty E E1 h
  have e1 : stored_dirty E = E.dirty := int_wrap_of_range _ hlo (le_trans a hhi)
  have e2 : stored_dirty E1 = E1.dirty := int_wrap_of_range _ (le_trans hlo a) hhi
  rw [e1, e2]
  exact ⟨a, b, c⟩

/-- Counterexample to C20 as stated, on the document `["a"]` with `dirty = INT_MAX`:
`editor_insert_row(1, "b")` returns, the document becomes `["a", "b"]` (the number of rows
changes), the count reaches `2147483648`, and the 32-bit variable `dirty`, `2147483647`
before the call, holds `-2147483648` after it: `dirty` decreased. -/
theorem C20_dirty_decreases_at_int_max :
    stored_dirty { (mk_doc [[97]] 0 0) with dirty := INT_MAX } = 2147483647 ∧
    (editor_insert_row { (mk_doc [[97]] 0 0) with dirty := INT_MAX } 1 [98]).map
      (fun E1 => (doc_chars E1, E1.numrows, E1.dirty, stored_dirty E1))
      = some ([[97], [98]], 2, 2147483648, -2147483648) ∧
    dirty_incr 2147483647 = -2147483648 ∧
    ¬ (∀ E1 : editor_config,
        editor_insert_row { (mk_doc [[97]] 0 0) with dirty := INT_MAX } 1 [98] = some E1 →
        stored_dirty { (mk_doc [[97]] 0 0) with dirty := INT_MAX } ≤ stored_dirty E1) := by
  refine ⟨by decide, by decide, by decide, ?_⟩
  intro h
  have h1 := h { (mk_doc [[97], [98]] 0 0) with dirty := 2147483648 } (by decide)
  revert h1
  decide

/-- Claim C20, with the bound it needs: from a state whose `dirty` is a value of the 32-bit
`int`, as long as the count does not pass `INT_MAX` (no `E.dirty++` overflows), whatever
`editor_insert_char`, `editor_del_char`, `editor_insert_newline`, `editor_insert_row`,
`editor_del_row` and `editor_row_append_string` return has a `dirty` not below the one
before, and a strictly larger one whenever some row's `chars` or the number of rows differs;
`editor_move_cursor`, `editor_scroll` and `editor_find_callback` return `dirty` unchanged,
with or without the bound.  Hence along any sequence of these calls that ends with the count
at most `INT_MAX`, every state on the way has its count within the `int` range, `dirty`
never decreases, and if it is the same at the end the rows are the same: from `dirty = 0`,
`dirty = 0` implies unchanged row contents. -/
theorem C20_dirty_monotone_below_int_max (E : editor_config) (hlo : INT_MIN ≤ E.dirty) :
    (∀ (c : Int) (E1 : editor_config), editor_insert_char E c = some E1 →
      E1.dirty ≤ INT_MAX →
      stored_dirty E ≤ stored_dirty E1 ∧
      (doc_chars E1 ≠ doc_chars E ∨ E1.numrows ≠ E.numrows →
        stored_dirty E < stored_dirty E1)) ∧
    (∀ E1 : editor_config, editor_del_char E = some E1 →
      E1.dirty ≤ INT_MAX →
      stored_dirty E ≤ stored_dirty E1 ∧
      (doc_chars E1 ≠ doc_chars E ∨ E1.numrows ≠ E.numrows →
        stored_dirty E < stored_dirty E1)) ∧
    (∀ E1 : editor_config, editor_insert_newline E = some E1 →
      E1.dirty ≤ INT_MAX →
      stored_dirty E ≤ stored_dirty E1 ∧
      (doc_chars E1 ≠ doc_chars E ∨ E1.numrows ≠ E.numrows →
        stored_dirty E < stored_dirty E1)) ∧
    (∀ (at_ : Int) (s : List Nat) (E1 : editor_config), editor_insert_row E at_ s = some E1 →
      E1.dirty ≤ INT_MAX →
      stored_dirty E ≤ stored_dirty E1 ∧
      (doc_chars E1 ≠ doc_chars E ∨ E1.numrows ≠ E.numrows →
        stored_dirty E < stored_dirty E1)) ∧
    (∀ at_ : Int, (editor_del_row E at_).dirty ≤ INT_MAX →
      stored_dirty E ≤ stored_dirty (editor_del_row E at_) ∧
      (doc_chars (editor_del_row E at_) ≠ doc_chars E ∨
        (editor_del_row E at_).numrows ≠ E.numrows →
        stored_dirty E < stored_dirty (editor_del_row E at_))) ∧
    (∀ (ri : Int) (s : List Nat) (E1 : editor_config),
      editor_row_append_string E ri s = some E1 →
      E1.dirty ≤ INT_MAX →
      stored_dirty E ≤ stored_dirty E1 ∧
      (doc_chars E1 ≠ doc_chars E ∨ E1.numrows ≠ E.numrows →
        stored_dirty E < stored_dirty E1)) ∧
    (∀ (key : Int) (E1 : editor_config), editor_move_cursor E key = some E1 →
      E1.dirty = E.dirty ∧ stored_dirty E1 = stored_dirty E) ∧
    (∀ E1 : editor_config, editor_scroll E = some E1 →
      E1.dirty = E.dirty ∧ stored_dirty E1 = stored_dirty E) ∧
    (∀ (S : find_state) (q : List Nat) (key : Int) (E1 : editor_config) (S1 : find_state),
      editor_find_callback E S q key = some (E1, S1) →
      E1.dirty = E.dirty ∧ stored_dirty E1 = stored_dirty E) ∧
    (∀ (calls1 calls2 : List edit_cmd) (Ea E1 : editor_config),
      exec_calls calls1 E = some Ea → exec_calls calls2 Ea = some E1 →
      E1.dirty ≤ INT_MAX →
      INT_MIN ≤ Ea.dirty ∧ Ea.dirty ≤ INT_MAX ∧ stored_dirty Ea = Ea.dirty) ∧
    (∀ (calls : List edit_cmd) (E1 : editor_config), exec_calls calls E = some E1 →
      E1.dirty ≤ INT_MAX →
      stored_dirty E ≤ stored_dirty E1 ∧
      (stored_dirty E1 = stored_dirty E → E1.editor_row = E.editor_row)) ∧
    (E.dirty = 0 → ∀ (calls : List edit_cmd) (E1 : editor_config),
      exec_calls calls E = some E1 → E1.dirty ≤ INT_MAX → stored_dirty E1 = 0 →
      doc_chars E1 = doc_chars E) := by
  refine ⟨?_, ?_, ?_, ?_, ?_, ?_, ?_, ?_, ?_, ?_, ?_, ?_⟩
  · intro c E1 h hhi
    have := edit_rel_stored_dirty E E1 (editor_insert_char_rel E E1 c h).1 hlo hhi
    exact ⟨this.1, this.2.1⟩
  · intro E1 h hhi
    have := edit_rel_stored_dirty E E1 (editor_del_char_rel E E1 h) hlo hhi
    exact ⟨this.1, this.2.1⟩
  · intro E1 h hhi
    have := edit_rel_stored_dirty E E1 (editor_insert_newline_rel E E1 h) hlo hhi
    exact ⟨this.1, this.2.1⟩
  · intro at_ s E1 h hhi
    have := edit_rel_stored_dirty E E1 (editor_insert_row_rel E E1 at_ s h) hlo hhi
    exact ⟨this.1, this.2.1⟩
  · intro at_ hhi
    have := edit_rel_stored_dirty E _ (editor_del_row_rel E at_) hlo hhi
    exact ⟨this.1, this.2.1⟩
  · intro ri s E1 h hhi
    have := edit_rel_stored_dirty E E1 (editor_row_append_string_rel E E1 ri s h).1 hlo hhi
    exact ⟨this.1, this.2.1⟩
  · intro key E1 h
    have h1 := (editor_move_cursor_frame E E1 key h).2
    exact ⟨h1, by simp only [stored_dirty, h1]⟩
  · intro E1 h
    have h1 := (editor_scroll_frame E E1 h).2.1
    exact ⟨h1, by simp only [stored_dirty, h1]⟩
  · intro S q key E1 S1 h
    have h1 := (editor_find_callback_frame E S q key E1 S1 h).2
    exact ⟨h1, by simp only [stored_dirty, h1]⟩
  · intro calls1 calls2 Ea E1 ha h1 hhi
    have a := (edit_rel_dirty E Ea (exec_calls_rel calls1 E Ea ha)).1
    have b := (edit_rel_dirty Ea E1 (exec_calls_rel calls2 Ea E1 h1)).1
    exact ⟨le_trans hlo a, le_trans b hhi,
      int_wrap_of_range _ (le_trans hlo a) (le_trans b hhi)⟩
  · intro calls E1 h hhi
    have := edit_rel_stored_dirty E E1 (exec_calls_rel calls E E1 h) hlo hhi
    exact ⟨this.1, this.2.2⟩
  · intro h0 calls E1 h hhi h1
    have h2 : stored_dirty E = 0 := by
      simp only [stored_dirty, h0]; decide
    have := (edit_rel_stored_dirty E E1 (exec_calls_rel calls E E1 h) hlo hhi).2.2
      (by rw [h1, h2])
    simp only [doc_chars, this]

/-- Witness of C20 on `["ab"]` with `dirty = 0`: a newline at `(0, 1)` raises `dirty` from 0
to 1, and a sequence of a cursor move and a scroll leaves `dirty = 0` and the rows as they
were. -/
theorem C20_dirty_monotone_below_int_max_witness :
    INT_MIN ≤ (mk_doc [[97, 98]] 0 1).dirty ∧
    editor_insert_newline (mk_doc [[97, 98]] 0 1)
      = some { (mk_doc [[97], [98]] 1 0) with dirty := 1 } ∧
    ({ (mk_doc [[97], [98]] 1 0) with dirty := 1 } : editor_config).dirty ≤ INT_MAX ∧
    (stored_dirty (mk_doc [[97, 98]] 0 1)
        ≤ stored_dirty { (mk_doc [[97], [98]] 1 0) with dirty := 1 } ∧
      (doc_chars { (mk_doc [[97], [98]] 1 0) with dirty := 1 }
          ≠ doc_chars (mk_doc [[97, 98]] 0 1) ∨
        ({ (mk_doc [[97], [98]] 1 0) with dirty := 1 } : editor_config).numrows
          ≠ (mk_doc [[97, 98]] 0 1).numrows →
        stored_dirty (mk_doc [[97, 98]] 0 1)
          < stored_dirty { (mk_doc [[97], [98]] 1 0) with dirty := 1 })) ∧
    (∀ E1 : editor_config,
      exec_calls [edit_cmd.move_cursor ARROW_LEFT, edit_cmd.scroll] (mk_doc [[97, 98]] 0 1)
        = some E1 →
      E1.dirty ≤ INT_MAX → stored_dirty E1 = 0 →
      doc_chars E1 = doc_chars (mk_doc [[97, 98]] 0 1)) :=
  ⟨by decide, by decide, by decide,
   (C20_dirty_monotone_below_int_max (mk_doc [[97, 98]] 0 1) (by decide)).2.2.1
      { (mk_doc [[97], [98]] 1 0) with dirty := 1 } (by decide) (by decide),
   (C20_dirty_monotone_below_int_max (mk_doc [[97, 98]] 0 1) (by decide)).2.2.2.2.2.2.2.2.2.2.2
      (by decide) [edit_cmd.move_cursor ARROW_LEFT, edit_cmd.scroll]⟩

/-! ## Render length and the coordinate mapper -/

theorem width_step_le (rx : Int) (c : Nat) (h : 0 ≤ rx) : width_step rx c ≤ rx + 8 := by
  unfold width_step
  split
  · have h1 : c_rem rx TEDITOR_TAB_STOP = rx % 8 := by
      simp only [c_rem, TEDITOR_TAB_STOP]
      exact Int.tmod_eq_emod h (by norm_num)
    rw [h1]; simp only [TEDITOR_TAB_STOP]; omega
  · omega

theorem foldl_width_step_bounds (cs : List Nat) :
    ∀ rx : Int, 0 ≤ rx →
      rx + (cs.length : Int) ≤ cs.foldl width_step rx ∧
      cs.foldl width_step rx ≤ rx + 8 * (cs.length : Int) := by
  induction cs with
  | nil => intro rx _; simp
  | cons c cs ih =>
    intro rx h
    have h1 := width_step_gt rx c h
    have h2 := width_step_le rx c h
    obtain ⟨h3, h4⟩ := ih (width_step rx c) (by omega)
    simp only [List.foldl_cons, List.length_cons]
    push_cast
    constructor <;> omega

theorem rx_of_bounds (chars : List Nat) (k : Nat) (hk : k ≤ chars.length) :
    (k : Int) ≤ rx_of chars k ∧ rx_of chars k ≤ 8 * (k : Int) := by
  obtain ⟨h1, h2⟩ := foldl_width_step_bounds (chars.take k) 0 (le_refl 0)
  have hl : (chars.take k).length = k := by simp [List.length_take]; omega
  rw [hl] at h1 h2
  unfold rx_of
  constructor <;> omega

theorem rx_of_take (chars : List Nat) (k : Nat) :
    ((spec_tab_expansion (chars.take k)).length : Int) = rx_of chars k := by
  rw [spec_tab_expansion_length]
  simp only [rx_of, List.take_length]

/-- Claim C22: for every row `editor_update_row` returns a row whose `rsize` is at least its
`size` (the render is never shorter than `chars`), and applying `editor_update_row` to that
row again returns it unchanged: the same `render` and the same `rsize`. -/
theorem C22_render_length_idempotent (row : erow) :
    ∃ row1, editor_update_row row = some row1 ∧
      row1.size ≤ row1.rsize ∧ row1.chars.length ≤ row1.render.length ∧
      editor_update_row row1 = some row1 ∧
      (∀ row2, editor_update_row row1 = some row2 →
        row2.render = row1.render ∧ row2.rsize = row1.rsize) := by
  have hlen : (row.chars.length : Int) ≤ ((spec_tab_expansion row.chars).length : Int) := by
    rw [spec_tab_expansion_length]
    exact (rx_of_bounds row.chars row.chars.length (le_refl _)).1
  have hidem : editor_update_row
      { row with render := spec_tab_expansion row.chars,
                 rsize := ((spec_tab_expansion row.chars).length : Int) }
      = some { row with render := spec_tab_expansion row.chars,
                        rsize := ((spec_tab_expansion row.chars).length : Int) } := by
    rw [editor_update_row_eq]
  refine ⟨_, editor_update_row_eq row, hlen, by exact_mod_cast hlen, hidem, ?_⟩
  intro row2 h2
  rw [hidem] at h2
  rw [← Option.some.inj h2]
  exact ⟨rfl, rfl⟩

/-- Claim C25: for every row and `0 <= cx <= size`, `editor_row_cx_to_rx` returns the length
of the tab expansion of the prefix `chars[0..cx)`, which is the `rsize` that
`editor_update_row` computes for that prefix; it satisfies `cx <= rx <= 8 * cx` and is
strictly increasing in `cx`; and on a row as `editor_update_row` leaves it the value at
`cx = size` is `rsize`. -/
theorem C25_cx_to_rx_is_render_length (row : erow) (cx : Int) (h0 : 0 ≤ cx)
    (h1 : cx ≤ row.size) :
    ∃ rx, editor_row_cx_to_rx row cx = some rx ∧
      rx = ((spec_tab_expansion (row.chars.take cx.toNat)).length : Int) ∧
      (∃ r1, editor_update_row { row with chars := row.chars.take cx.toNat } = some r1 ∧
        r1.rsize = rx) ∧
      cx ≤ rx ∧ rx ≤ 8 * cx ∧
      (∀ cx2 rx2 : Int, cx < cx2 → cx2 ≤ row.size →
        editor_row_cx_to_rx row cx2 = some rx2 → rx < rx2) ∧
      (∀ row1, editor_update_row row = some row1 →
        editor_row_cx_to_rx row1 row1.size = some row1.rsize) := by
  have hk : cx.toNat ≤ row.chars.length := by simp only [erow.size] at h1; omega
  obtain ⟨b1, b2⟩ := rx_of_bounds row.chars cx.toNat hk
  refine ⟨_, editor_row_cx_to_rx_eq row cx h0 h1, (rx_of_take _ _).symm, ?_, by omega, by omega,
    ?_, ?_⟩
  · refine ⟨_, editor_update_row_eq _, ?_⟩
    exact rx_of_take row.chars cx.toNat
  · intro cx2 rx2 hlt hle h2
    rw [editor_row_cx_to_rx_eq row cx2 (by omega) hle] at h2
    rw [← Option.some.inj h2]
    exact rx_of_strict row.chars cx.toNat cx2.toNat (by omega)
      (by simp only [erow.size] at hle; omega)
  · intro row1 hr1
    rw [editor_update_row_eq] at hr1
    rw [← Option.some.inj hr1]
    rw [editor_row_cx_to_rx_eq _ _ (by simp [erow.size]) (le_refl _)]
    congr 1
    show rx_of row.chars (row.chars.length : Int).toNat
      = ((spec_tab_expansion row.chars).length : Int)
    rw [spec_tab_expansion_length]
    simp

/-- Witness of C25 on the row `"a\tb"` at `cx = 2`, where the render column is 8. -/
theorem C25_cx_to_rx_is_render_length_witness :
    ∃ rx, editor_row_cx_to_rx (mk_row [97, 9, 98]) 2 = some rx ∧
      rx = ((spec_tab_expansion [97, 9]).length : Int) ∧
      (∃ r1, editor_update_row { (mk_row [97, 9, 98]) with chars := [97, 9] } = some r1 ∧
        r1.rsize = rx) ∧
      2 ≤ rx ∧ rx ≤ 8 * 2 ∧
      (∀ cx2 rx2 : Int, 2 < cx2 → cx2 ≤ (mk_row [97, 9, 98]).size →
        editor_row_cx_to_rx (mk_row [97, 9, 98]) cx2 = some rx2 → rx < rx2) ∧
      (∀ row1, editor_update_row (mk_row [97, 9, 98]) = some row1 →
        editor_row_cx_to_rx row1 row1.size = some row1.rsize) :=
  C25_cx_to_rx_is_render_length (mk_row [97, 9, 98]) 2 (by decide) (by decide)

/-! ## Cursor movement, case by case -/

theorem rowlen_virtual (E : editor_config) (h0 : 0 ≤ E.cy) (h : E.cy ≥ E.numrows) :
    rowlen E = 0 := by
  have hnone : row_at E.editor_row E.cy = none := by
    rw [row_at_nonneg _ _ h0, List.getElem?_eq_none]
    simp only [editor_config.numrows] at h; omega
  simp only [rowlen, hnone]

theorem snap_cursor_of_ok (E : editor_config) (h : cursor_ok E) : snap_cursor E = some E := by
  obtain ⟨cx1, hs, _, hmin⟩ := snap_cursor_ok E h.1 h.2.1 h.2.2.1
  have hle : E.cx ≤ rowlen E := by
    by_cases hlt : E.cy < E.numrows
    · exact h.2.2.2.1 hlt
    · rw [rowlen_virtual E h.1 (by omega), h.2.2.2.2 (by have := h.2.1; omega)]
  have e : cx1 = E.cx := by omega
  rw [hs, e]

theorem editor_move_cursor_of_switch (E E1 : editor_config) (key : Int)
    (hs : move_cursor_switch E key = some E1) (hok : cursor_ok E1) :
    editor_move_cursor E key = some E1 := by
  simp only [editor_move_cursor, hs, snap_cursor_of_ok E1 hok]

theorem move_left_pos (E : editor_config) (h : cursor_ok E) (hx : 0 < E.cx) :
    editor_move_cursor E ARROW_LEFT = some { E with cx := E.cx - 1 } := by
  apply editor_move_cursor_of_switch
  · have hne : E.cx ≠ 0 := by omega
    simp only [move_cursor_switch, if_true, if_pos hne]
  · rcases cursor_ok_cases E h with ⟨_, hcx⟩ | ⟨row, hrow, _, hx1⟩
    · omega
    · exact cursor_ok_of_row _ row hrow (by show 0 ≤ E.cx - 1; omega)
        (by show E.cx - 1 ≤ row.size; omega)

theorem move_left_wrap (E : editor_config) (prev : erow) (hx : E.cx = 0) (hy : 0 < E.cy)
    (hprev : row_at E.editor_row (E.cy - 1) = some prev) :
    editor_move_cursor E ARROW_LEFT = some { E with cy := E.cy - 1, cx := prev.size } := by
  apply editor_move_cursor_of_switch
  · have hne : ¬ E.cx ≠ 0 := by omega
    have hgt : E.cy > 0 := hy
    simp only [move_cursor_switch, if_true, if_neg hne, if_pos hgt, hprev]
  · exact cursor_ok_of_row _ prev hprev (by simp [erow.size]) (le_refl _)

theorem move_left_home (E : editor_config) (h : cursor_ok E) (hx : E.cx = 0) (hy : E.cy = 0) :
    editor_move_cursor E ARROW_LEFT = some E := by
  apply editor_move_cursor_of_switch _ _ _ _ h
  have hne : ¬ E.cx ≠ 0 := by omega
  have hgt : ¬ E.cy > 0 := by omega
  simp only [move_cursor_switch, if_true, if_neg hne, if_neg hgt]

theorem move_right_in (E : editor_config) (row : erow)
    (hrow : row_at E.editor_row E.cy = some row) (hx0 : 0 ≤ E.cx) (hx : E.cx < row.size) :
    editor_move_cursor E ARROW_RIGHT = some { E with cx := E.cx + 1 } := by
  obtain ⟨_, c1, _⟩ := row_at_some _ _ _ hrow
  apply editor_move_cursor_of_switch
  · have hk : ¬ ARROW_RIGHT = ARROW_LEFT := by decide
    have hge : ¬ E.cy ≥ E.numrows := by simp only [editor_config.numrows]; omega
    simp only [move_cursor_switch, if_neg hk, if_true, if_neg hge, hrow, if_pos hx]
  · exact cursor_ok_of_row _ row hrow (by show 0 ≤ E.cx + 1; omega)
      (by show E.cx + 1 ≤ row.size; omega)

theorem move_right_wrap (E : editor_config) (row : erow)
    (hrow : row_at E.editor_row E.cy = some row) (hx : E.cx = row.size) :
    editor_move_cursor E ARROW_RIGHT = some { E with cy := E.cy + 1, cx := 0 } := by
  obtain ⟨c0, c1, _⟩ := row_at_some _ _ _ hrow
  have hk : ¬ ARROW_RIGHT = ARROW_LEFT := by decide
  have hge : ¬ E.cy ≥ E.numrows := by simp only [editor_config.numrows]; omega
  have hlt : ¬ E.cx < row.size := by omega
  have hsw : move_cursor_switch E ARROW_RIGHT = some { E with cy := E.cy + 1, cx := 0 } := by
    simp only [move_cursor_switch, if_neg hk, if_true, if_neg hge, hrow, if_neg hlt, if_pos hx]
  apply editor_move_cursor_of_switch _ _ _ hsw
  by_cases hlast : E.cy + 1 = E.numrows
  · exact cursor_ok_of_virtual _ hlast rfl
  · obtain ⟨next, hnext⟩ := row_at_of_lt E.editor_row (E.cy + 1) (by omega)
      (by simp only [editor_config.numrows] at hlast; omega)
    exact cursor_ok_of_row _ next hnext (le_refl _) (by simp [erow.size])

theorem move_right_virtual (E : editor_config) (h : cursor_ok E) (hy : E.cy = E.numrows) :
    editor_move_cursor E ARROW_RIGHT = some E := by
  apply editor_move_cursor_of_switch _ _ _ _ h
  have hk : ¬ ARROW_RIGHT = ARROW_LEFT := by decide
  have hge : E.cy ≥ E.numrows := by omega
  simp only [move_cursor_switch, if_neg hk, if_true, if_pos hge]

/-- `ARROW_UP` from any cursor with `0 <= cy <= numrows` and `0 <= cx`. -/
theorem move_up_eq (E : editor_config) (h0 : 0 ≤ E.cy) (h1 : E.cy ≤ E.numrows)
    (hx : 0 ≤ E.cx) :
    editor_move_cursor E ARROW_UP
      = some { E with cy := max (E.cy - 1) 0,
                      cx := min E.cx (rowlen { E with cy := max (E.cy - 1) 0 }) } ∧
    cursor_ok { E with cy := max (E.cy - 1) 0,
                       cx := min E.cx (rowlen { E with cy := max (E.cy - 1) 0 }) } := by
  have hk1 : ¬ ARROW_UP = ARROW_LEFT := by decide
  have hk2 : ¬ ARROW_UP = ARROW_RIGHT := by decide
  have hsw : move_cursor_switch E ARROW_UP = some { E with cy := max (E.cy - 1) 0 } := by
    by_cases hz : E.cy ≠ 0
    · have e : max (E.cy - 1) 0 = E.cy - 1 := by omega
      simp only [move_cursor_switch, if_neg hk1, if_neg hk2, if_true, if_pos hz, e]
    · have e : max (E.cy - 1) 0 = E.cy := by omega
      simp only [move_cursor_switch, if_neg hk1, if_neg hk2, if_true, if_neg hz, e]
  obtain ⟨cx1, hs, hok, hmin⟩ := snap_cursor_ok { E with cy := max (E.cy - 1) 0 }
    (by show 0 ≤ max (E.cy - 1) 0; omega) (by show max (E.cy - 1) 0 ≤ E.numrows; omega) hx
  have e : cx1 = min E.cx (rowlen { E with cy := max (E.cy - 1) 0 }) := hmin
  rw [e] at hs hok
  exact ⟨by simp only [editor_move_cursor, hsw, hs], hok⟩

/-- `ARROW_DOWN` from any cursor with `0 <= cy <= numrows` and `0 <= cx`. -/
theorem move_down_eq (E : editor_config) (h0 : 0 ≤ E.cy) (h1 : E.cy ≤ E.numrows)
    (hx : 0 ≤ E.cx) :
    editor_move_cursor E ARROW_DOWN
      = some { E with cy := min (E.cy + 1) E.numrows,
                      cx := min E.cx (rowlen { E with cy := min (E.cy + 1) E.numrows }) } ∧
    cursor_ok { E with cy := min (E.cy + 1) E.numrows,
                       cx := min E.cx (rowlen { E with cy := min (E.cy + 1) E.numrows }) } := by
  have hk1 : ¬ ARROW_DOWN = ARROW_LEFT := by decide
  have hk2 : ¬ ARROW_DOWN = ARROW_RIGHT := by decide
  have hk3 : ¬ ARROW_DOWN = ARROW_UP := by decide
  have hsw : move_cursor_switch E ARROW_DOWN
      = some { E with cy := min (E.cy + 1) E.numrows } := by
    by_cases hz : E.cy < E.numrows
    · have e : min (E.cy + 1) E.numrows = E.cy + 1 := by omega
      simp only [move_cursor_switch, if_neg hk1, if_neg hk2, if_neg hk3, if_true, if_pos hz, e]
    · have e : min (E.cy + 1) E.numrows = E.cy := by omega
      simp only [move_cursor_switch, if_neg hk1, if_neg hk2, if_neg hk3, if_true, if_neg hz, e]
  obtain ⟨cx1, hs, hok, hmin⟩ := snap_cursor_ok { E with cy := min (E.cy + 1) E.numrows }
    (by show 0 ≤ min (E.cy + 1) E.numrows; omega)
    (by show min (E.cy + 1) E.numrows ≤ E.numrows; omega) hx
  have e : cx1 = min E.cx (rowlen { E with cy := min (E.cy + 1) E.numrows }) := hmin
  rw [e] at hs hok
  exact ⟨by simp only [editor_move_cursor, hsw, hs], hok⟩

theorem with_cx_cy_self (E : editor_config) (a b : Int) (ha : a = E.cx) (hb : b = E.cy) :
    ({ E with cx := a, cy := b } : editor_config) = E := by
  subst ha; subst hb; rfl

/-- Claim C21: on a valid cursor `editor_move_cursor` returns: LEFT with `cx > 0` gives
`(cy, cx-1)`; LEFT with `cx = 0`, `cy > 0` gives `(cy-1, size of row cy-1)`; LEFT at `(0,0)`
changes nothing; RIGHT on a row with `cx < size` gives `(cy, cx+1)`, with `cx = size` gives
`(cy+1, 0)`; RIGHT on the virtual row changes nothing; UP gives `cy1 = max(cy-1, 0)` and DOWN
`cy1 = min(cy+1, numrows)`, both with `cx1 = min(cx, size of row cy1)`, the size being 0 on
the virtual row; for every key the result has `0 <= cy <= numrows` and the same rows. -/
theorem C21_move_cursor (E : editor_config) (h : cursor_ok E) :
    (0 < E.cx → editor_move_cursor E ARROW_LEFT = some { E with cx := E.cx - 1 }) ∧
    (E.cx = 0 → 0 < E.cy →
      ∃ prev, row_at E.editor_row (E.cy - 1) = some prev ∧
        editor_move_cursor E ARROW_LEFT = some { E with cy := E.cy - 1, cx := prev.size }) ∧
    (E.cx = 0 → E.cy = 0 → editor_move_cursor E ARROW_LEFT = some E) ∧
    (∀ row, row_at E.editor_row E.cy = some row → E.cx < row.size →
      editor_move_cursor E ARROW_RIGHT = some { E with cx := E.cx + 1 }) ∧
    (∀ row, row_at E.editor_row E.cy = some row → E.cx = row.size →
      editor_move_cursor E ARROW_RIGHT = some { E with cy := E.cy + 1, cx := 0 }) ∧
    (E.cy = E.numrows → editor_move_cursor E ARROW_RIGHT = some E) ∧
    editor_move_cursor E ARROW_UP
      = some { E with cy := max (E.cy - 1) 0,
                      cx := min E.cx (rowlen { E with cy := max (E.cy - 1) 0 }) } ∧
    editor_move_cursor E ARROW_DOWN
      = some { E with cy := min (E.cy + 1) E.numrows,
                      cx := min E.cx (rowlen { E with cy := min (E.cy + 1) E.numrows }) } ∧
    (∀ key : Int, ∃ E1, editor_move_cursor E key = some E1 ∧
      0 ≤ E1.cy ∧ E1.cy ≤ E.numrows ∧ E1.editor_row = E.editor_row) := by
  have hc0 := h.1
  have hc1 := h.2.1
  have hx0 := h.2.2.1
  refine ⟨move_left_pos E h, ?_, move_left_home E h, ?_, ?_, move_right_virtual E h,
    (move_up_eq E hc0 hc1 hx0).1, (move_down_eq E hc0 hc1 hx0).1, ?_⟩
  · intro hx hy
    obtain ⟨prev, hprev⟩ := row_at_of_lt E.editor_row (E.cy - 1) (by omega)
      (by simp only [editor_config.numrows] at hc1; omega)
    exact ⟨prev, hprev, move_left_wrap E prev hx hy hprev⟩
  · intro row hrow hx
    exact move_right_in E row hrow hx0 hx
  · intro row hrow hx
    exact move_right_wrap E row hrow hx
  · intro key
    obtain ⟨cx1, cy1, hm, hok⟩ := editor_move_cursor_ok E key h
    exact ⟨_, hm, hok.1, hok.2.1, rfl⟩

/-- Witness of C21 on `["abc", "d"]` with the cursor at `(0, 3)`: the four arrows. -/
theorem C21_move_cursor_witness :
    editor_move_cursor (mk_doc [[97, 98, 99], [100]] 0 3) ARROW_LEFT
      = some (mk_doc [[97, 98, 99], [100]] 0 2) ∧
    editor_move_cursor (mk_doc [[97, 98, 99], [100]] 0 3) ARROW_RIGHT
      = some (mk_doc [[97, 98, 99], [100]] 1 0) ∧
    editor_move_cursor (mk_doc [[97, 98, 99], [100]] 0 3) ARROW_UP
      = some (mk_doc [[97, 98, 99], [100]] 0 3) ∧
    editor_move_cursor (mk_doc [[97, 98, 99], [100]] 0 3) ARROW_DOWN
      = some (mk_doc [[97, 98, 99], [100]] 1 1) :=
  ⟨(C21_move_cursor (mk_doc [[97, 98, 99], [100]] 0 3) (by decide)).1 (by decide),
   (C21_move_cursor (mk_doc [[97, 98, 99], [100]] 0 3) (by decide)).2.2.2.2.1
      (mk_row [97, 98, 99]) (by decide) (by decide),
   (C21_move_cursor (mk_doc [[97, 98, 99], [100]] 0 3) (by decide)).2.2.2.2.2.2.1,
   (C21_move_cursor (mk_doc [[97, 98, 99], [100]] 0 3) (by decide)).2.2.2.2.2.2.2.1⟩

/-- Claim C26: on a valid cursor on an existing row, `ARROW_RIGHT` followed by `ARROW_LEFT`
returns the state it started from; on every valid cursor other than `(0, 0)`, the virtual
row included, `ARROW_LEFT` followed by `ARROW_RIGHT` returns the state it started from; the
state in between has the same rows. -/
theorem C26_left_right_inverse (E : editor_config) (h : cursor_ok E) :
    (E.cy < E.numrows →
      ∃ E1, editor_move_cursor E ARROW_RIGHT = some E1 ∧
        editor_move_cursor E1 ARROW_LEFT = some E ∧ E1.editor_row = E.editor_row) ∧
    (¬ (E.cy = 0 ∧ E.cx = 0) →
      ∃ E1, editor_move_cursor E ARROW_LEFT = some E1 ∧
        editor_move_cursor E1 ARROW_RIGHT = some E ∧ E1.editor_row = E.editor_row) := by
  have hc0 := h.1
  have hc1 := h.2.1
  have hx0 := h.2.2.1
  refine ⟨?_, ?_⟩
  · intro hlt
    rcases cursor_ok_cases E h with ⟨hcy, _⟩ | ⟨row, hrow, _, hx1⟩
    · omega
    · by_cases hx : E.cx < row.size
      · have h1 := move_right_in E row hrow hx0 hx
        have hok : cursor_ok { E with cx := E.cx + 1 } :=
          cursor_ok_of_row _ row hrow (by show 0 ≤ E.cx + 1; omega)
            (by show E.cx + 1 ≤ row.size; omega)
        have h2 := move_left_pos { E with cx := E.cx + 1 } hok (by show 0 < E.cx + 1; omega)
        refine ⟨_, h1, h2.trans (congrArg some ?_), rfl⟩
        exact with_cx_cy_self E _ _ (by show E.cx + 1 - 1 = E.cx; omega) rfl
      · have hxe : E.cx = row.size := by omega
        have h1 := move_right_wrap E row hrow hxe
        have h2 := move_left_wrap { E with cy := E.cy + 1, cx := 0 } row rfl
          (by show 0 < E.cy + 1; omega)
          (by
            show row_at E.editor_row (E.cy + 1 - 1) = some row
            have e : E.cy + 1 - 1 = E.cy := by omega
            rw [e]; exact hrow)
        refine ⟨_, h1, h2.trans (congrArg some ?_), rfl⟩
        exact with_cx_cy_self E _ _ hxe.symm (by show E.cy + 1 - 1 = E.cy; omega)
  · intro hne
    by_cases hx : 0 < E.cx
    · rcases cursor_ok_cases E h with ⟨_, hcx⟩ | ⟨row, hrow, _, hx1⟩
      · omega
      · have h1 := move_left_pos E h hx
        have h2 := move_right_in { E with cx := E.cx - 1 } row hrow
          (by show 0 ≤ E.cx - 1; omega) (by show E.cx - 1 < row.size; omega)
        refine ⟨_, h1, h2.trans (congrArg some ?_), rfl⟩
        exact with_cx_cy_self E _ _ (by show E.cx - 1 + 1 = E.cx; omega) rfl
    · have hxz : E.cx = 0 := by omega
      have hy : 0 < E.cy := by omega
      obtain ⟨prev, hprev⟩ := row_at_of_lt E.editor_row (E.cy - 1) (by omega)
        (by simp only [editor_config.numrows] at hc1; omega)
      have h1 := move_left_wrap E prev hxz hy hprev
      have h2 := move_right_wrap { E with cy := E.cy - 1, cx := prev.size } prev hprev rfl
      refine ⟨_, h1, h2.trans (congrArg some ?_), rfl⟩
      exact with_cx_cy_self E _ _ hxz.symm (by show E.cy - 1 + 1 = E.cy; omega)

/-- Witness of C26 on `["ab", "c"]`: right then left from the end of row 0, and left then
right from the virtual row. -/
theorem C26_left_right_inverse_witness :
    (∃ E1, editor_move_cursor (mk_doc [[97, 98], [99]] 0 2) ARROW_RIGHT = some E1 ∧
      editor_move_cursor E1 ARROW_LEFT = some (mk_doc [[97, 98], [99]] 0 2) ∧
      E1.editor_row = (mk_doc [[97, 98], [99]] 0 2).editor_row) ∧
    (∃ E1, editor_move_cursor (mk_doc [[97, 98], [99]] 2 0) ARROW_LEFT = some E1 ∧
      editor_move_cursor E1 ARROW_RIGHT = some (mk_doc [[97, 98], [99]] 2 0) ∧
      E1.editor_row = (mk_doc [[97, 98], [99]] 2 0).editor_row) :=
  ⟨(C26_left_right_inverse (mk_doc [[97, 98], [99]] 0 2) (by decide)).1 (by decide),
   (C26_left_right_inverse (mk_doc [[97, 98], [99]] 2 0) (by decide)).2 (by decide)⟩

/-! ## Page keys -/

theorem move_up_times (n : Nat) :
    ∀ E : editor_config, cursor_ok E →
      ∃ E1, move_cursor_times n E ARROW_UP = some E1 ∧
        E1.cy = max (E.cy - (n : Int)) 0 ∧ cursor_ok E1 ∧
        E1.editor_row = E.editor_row ∧ E1.dirty = E.dirty := by
  induction n with
  | zero =>
    intro E h
    exact ⟨E, rfl, by have := h.1; simp; omega, h, rfl, rfl⟩
  | succ n ih =>
    intro E h
    obtain ⟨hm, hok⟩ := move_up_eq E h.1 h.2.1 h.2.2.1
    obtain ⟨E1, h1, h2, h3, h4, h5⟩ := ih _ hok
    refine ⟨E1, by simp only [move_cursor_times, hm, h1], ?_, h3, h4, h5⟩
    rw [h2]
    show max (max (E.cy - 1) 0 - (n : Int)) 0 = max (E.cy - ((n + 1 : Nat) : Int)) 0
    push_cast
    omega

theorem move_down_times (n : Nat) :
    ∀ E : editor_config, cursor_ok E →
      ∃ E1, move_cursor_times n E ARROW_DOWN = some E1 ∧
        E1.cy = min (E.cy + (n : Int)) E.numrows ∧ cursor_ok E1 ∧
        E1.editor_row = E.editor_row ∧ E1.dirty = E.dirty := by
  induction n with
  | zero =>
    intro E h
    exact ⟨E, rfl, by have := h.2.1; simp; omega, h, rfl, rfl⟩
  | succ n ih =>
    intro E h
    obtain ⟨hm, hok⟩ := move_down_eq E h.1 h.2.1 h.2.2.1
    obtain ⟨E1, h1, h2, h3, h4, h5⟩ := ih _ hok
    refine ⟨E1, by simp only [move_cursor_times, hm, h1], ?_, h3, h4, h5⟩
    rw [h2]
    show min (min (E.cy + 1) E.numrows + (n : Int)) E.numrows
      = min (E.cy + ((n + 1 : Nat) : Int)) E.numrows
    have := h.2.1
    push_cast
    omega

/-- At least one `ARROW_UP` from a cursor whose `cx` may lie beyond its row. -/
theorem move_up_times_succ (n : Nat) (E : editor_config) (h0 : 0 ≤ E.cy)
    (h1 : E.cy ≤ E.numrows) (hx : 0 ≤ E.cx) :
    ∃ E1, move_cursor_times (n + 1) E ARROW_UP = some E1 ∧
      E1.cy = max (E.cy - ((n + 1 : Nat) : Int)) 0 ∧ cursor_ok E1 ∧
      E1.editor_row = E.editor_row ∧ E1.dirty = E.dirty := by
  obtain ⟨hm, hok⟩ := move_up_eq E h0 h1 hx
  obtain ⟨E1, a1, a2, a3, a4, a5⟩ := move_up_times n _ hok
  refine ⟨E1, by simp only [move_cursor_times, hm, a1], ?_, a3, a4, a5⟩
  rw [a2]
  show max (max (E.cy - 1) 0 - (n : Int)) 0 = max (E.cy - ((n + 1 : Nat) : Int)) 0
  push_cast
  omega

/-- At least one `ARROW_DOWN` from a cursor whose `cx` may lie beyond its row. -/
theorem move_down_times_succ (n : Nat) (E : editor_config) (h0 : 0 ≤ E.cy)
    (h1 : E.cy ≤ E.numrows) (hx : 0 ≤ E.cx) :
    ∃ E1, move_cursor_times (n + 1) E ARROW_DOWN = some E1 ∧
      E1.cy = min (E.cy + ((n + 1 : Nat) : Int)) E.numrows ∧ cursor_ok E1 ∧
      E1.editor_row = E.editor_row ∧ E1.dirty = E.dirty := by
  obtain ⟨hm, hok⟩ := move_down_eq E h0 h1 hx
  obtain ⟨E1, a1, a2, a3, a4, a5⟩ := move_down_times n _ hok
  refine ⟨E1, by simp only [move_cursor_times, hm, a1], ?_, a3, a4, a5⟩
  rw [a2]
  show min (min (E.cy + 1) E.numrows + (n : Int)) E.numrows
    = min (E.cy + ((n + 1 : Nat) : Int)) E.numrows
  push_cast
  omega

/-- Claim C23: with a window height `row >= 1`, `0 <= rowoff <= numrows` and a valid
cursor, the page-key arm returns on `PAGE_UP` a state with `cy = max(0, rowoff - row)` and
on `PAGE_DOWN` a state with `cy = min(numrows, min(rowoff + row - 1, numrows) + row)`; in
both the cursor is valid and the rows (and `dirty`) are what they were. -/
theorem C23_page_keys (E : editor_config) (hrow : 1 ≤ E.row) (hro0 : 0 ≤ E.rowoff)
    (hro1 : E.rowoff ≤ E.numrows) (h : cursor_ok E) :
    (∃ E1, keypress_page E PAGE_UP = some E1 ∧
      E1.cy = max 0 (E.rowoff - E.row) ∧ cursor_ok E1 ∧
      E1.editor_row = E.editor_row ∧ E1.dirty = E.dirty) ∧
    (∃ E1, keypress_page E PAGE_DOWN = some E1 ∧
      E1.cy = min E.numrows (min (E.rowoff + E.row - 1) E.numrows + E.row) ∧ cursor_ok E1 ∧
      E1.editor_row = E.editor_row ∧ E1.dirty = E.dirty) := by
  have hx0 := h.2.2.1
  have hneg : ¬ E.row < 0 := by omega
  obtain ⟨n, hn⟩ : ∃ n : Nat, E.row.toNat = n + 1 := ⟨E.row.toNat - 1, by omega⟩
  have hcast : ((n + 1 : Nat) : Int) = E.row := by omega
  refine ⟨?_, ?_⟩
  · obtain ⟨E1, a1, a2, a3, a4, a5⟩ := move_up_times_succ n { E with cy := E.rowoff }
      hro0 hro1 hx0
    refine ⟨E1, ?_, ?_, a3, a4, a5⟩
    · simp only [keypress_page, if_true, if_neg hneg, hn]
      exact a1
    · rw [a2, hcast]
      show max (E.rowoff - E.row) 0 = max 0 (E.rowoff - E.row)
      omega
  · have hk : ¬ PAGE_DOWN = PAGE_UP := by decide
    by_cases hgt : E.rowoff + E.row - 1 > E.numrows
    · obtain ⟨E1, a1, a2, a3, a4, a5⟩ := move_down_times_succ n { E with cy := E.numrows }
        (by show 0 ≤ E.numrows; omega) (le_refl _) hx0
      refine ⟨E1, ?_, ?_, a3, a4, a5⟩
      · simp only [keypress_page, if_neg hk, if_true, if_pos hgt, if_neg hneg, hn]
        exact a1
      · rw [a2, hcast]
        show min (E.numrows + E.row) E.numrows
          = min E.numrows (min (E.rowoff + E.row - 1) E.numrows + E.row)
        omega
    · obtain ⟨E1, a1, a2, a3, a4, a5⟩ := move_down_times_succ n
        { E with cy := E.rowoff + E.row - 1 }
        (by show 0 ≤ E.rowoff + E.row - 1; omega)
        (by show E.rowoff + E.row - 1 ≤ E.numrows; omega) hx0
      refine ⟨E1, ?_, ?_, a3, a4, a5⟩
      · simp only [keypress_page, if_neg hk, if_true, if_neg hgt, if_neg hneg, hn]
        exact a1
      · rw [a2, hcast]
        show min (E.rowoff + E.row - 1 + E.row) E.numrows
          = min E.numrows (min (E.rowoff + E.row - 1) E.numrows + E.row)
        omega

/-- Witness of C23: five one-byte rows in a 2-line window with `rowoff = 1`, cursor `(2, 1)`. -/
theorem C23_page_keys_witness :
    (∃ E1, keypress_page { (mk_doc [[97], [98], [99], [100], [101]] 2 1) with
          row := 2, rowoff := 1 } PAGE_UP = some E1 ∧
      E1.cy = max 0 ((1 : Int) - 2) ∧ cursor_ok E1 ∧
      E1.editor_row = (mk_doc [[97], [98], [99], [100], [101]] 2 1).editor_row ∧
      E1.dirty = 0) ∧
    (∃ E1, keypress_page { (mk_doc [[97], [98], [99], [100], [101]] 2 1) with
          row := 2, rowoff := 1 } PAGE_DOWN = some E1 ∧
      E1.cy = min (5 : Int) (min ((1 : Int) + 2 - 1) 5 + 2) ∧ cursor_ok E1 ∧
      E1.editor_row = (mk_doc [[97], [98], [99], [100], [101]] 2 1).editor_row ∧
      E1.dirty = 0) :=
  C23_page_keys { (mk_doc [[97], [98], [99], [100], [101]] 2 1) with row := 2, rowoff := 1 }
    (by decide) (by decide) (by decide) (by decide)

/-! ## Viewport snap after a search match -/

theorem scroll_above_window (E1 E2 : editor_config) (h : editor_scroll E1 = some E2)
    (hrow : 1 ≤ E1.row) (hlt : E1.cy < E1.rowoff) :
    E2.rowoff = E1.cy ∧ E2.cy = E1.cy ∧ E2.row = E1.row := by
  obtain ⟨rx, _, hE2⟩ := editor_scroll_some E1 E2 h
  subst hE2
  refine ⟨?_, rfl, rfl⟩
  show (if E1.cy ≥ (if E1.cy < E1.rowoff then E1.cy else E1.rowoff) + E1.row
        then E1.cy - E1.row + 1 else (if E1.cy < E1.rowoff then E1.cy else E1.rowoff)) = E1.cy
  rw [if_pos hlt, if_neg (by omega)]

/-- On a valid `last_match`, a scan over a document in which some row contains the query
stops on a row. -/
theorem find_scan_found (E : editor_config) (q : List Nat) (S : find_state)
    (hd : S.direction = 1 ∨ S.direction = -1) (hm : last_match_ok E S)
    (hex : ∃ row ∈ E.editor_row, row_contains q row) :
    ∃ (R : Int) (row : erow) (off : Nat) (S1 : find_state),
      row_at E.editor_row R = some row ∧ strstr row.render q = some off ∧
      S1.last_match = R ∧
      find_scan E q S
        = some ({ E with cy := R, cx := editor_row_rx_to_cx row (off : Int),
                         rowoff := E.numrows }, S1) := by
  have hn0 : (0 : Int) ≤ E.numrows := by simp [editor_config.numrows]
  have hd1 : (if S.last_match = -1 then 1 else S.direction) = 1 ∨
      (if S.last_match = -1 then 1 else S.direction) = -1 := by
    split_ifs
    · exact Or.inl rfl
    · exact hd
  have hcur : (S.last_match = -1 ∧ (if S.last_match = -1 then 1 else S.direction) = 1) ∨
      (0 ≤ S.last_match ∧ S.last_match < E.numrows) := by
    rcases hm with h | h
    · exact Or.inl ⟨h, by rw [if_pos h]⟩
    · exact Or.inr h
  have hchar := find_loop_char E q
    { last_match := S.last_match, direction := if S.last_match = -1 then 1 else S.direction }
    hd1 E.numrows.toNat S.last_match hcur (by omega)
  have heq := find_scan_eq E q S.last_match S.direction
  rcases hchar with ⟨_, hall⟩ | ⟨j0, row, off, _, _, hr, hs, _, hE⟩
  · obtain ⟨row, hmem, hcont⟩ := hex
    obtain ⟨i, hi0, hi1, hri⟩ := row_at_of_mem _ _ hmem
    obtain ⟨j, hj1, hj2, hj⟩ := scan_row_cover E.numrows S.last_match
      (if S.last_match = -1 then 1 else S.direction) i
      (by simp only [editor_config.numrows]; omega) hd1 hi0
      (by simpa [editor_config.numrows] using hi1)
    rw [← hj] at hri
    exact absurd hcont ((strstr_none_iff _ _).mp (hall j hj1 (by omega) row hri))
  · exact ⟨_, row, off, _, hr, hs, rfl, heq.trans hE⟩

/-- Claim C24: whenever a scan of `editor_find_callback` stops on a row `R` it leaves
`cy = R` and `rowoff = numrows`, a value above `R`, and for a window height `row >= 1`
whatever the next `editor_scroll` returns has `rowoff = R`, so that the matched row is the
top row of the viewport; the scan does stop on a row when `last_match` is valid and some
row contains the query, and the scroll after it does return. -/
theorem C24_viewport_snap (E : editor_config) (q : List Nat) (S : find_state)
    (hrow : 1 ≤ E.row) :
    (∀ (E1 : editor_config) (S1 : find_state), find_scan E q S = some (E1, S1) →
      (E1 = E ∧ S1.last_match = S.last_match) ∨
      (∃ (R : Int) (row : erow), row_at E.editor_row R = some row ∧ row_contains q row ∧
        S1.last_match = R ∧ E1.cy = R ∧ E1.rowoff = E.numrows ∧ R < E1.rowoff ∧
        (∀ E2, editor_scroll E1 = some E2 →
          E2.rowoff = R ∧ E2.cy = R ∧ E2.rowoff ≤ E2.cy ∧ E2.cy < E2.rowoff + E2.row) ∧
        (∃ E2, editor_scroll E1 = some E2))) ∧
    ((S.direction = 1 ∨ S.direction = -1) → last_match_ok E S →
      (∃ row ∈ E.editor_row, row_contains q row) →
      ∃ (E1 : editor_config) (S1 : find_state) (E2 : editor_config) (R : Int),
        find_scan E q S = some (E1, S1) ∧ 0 ≤ R ∧ R < E.numrows ∧
        S1.last_match = R ∧ E1.cy = R ∧ E1.rowoff = E.numrows ∧
        editor_scroll E1 = some E2 ∧ E2.rowoff = R ∧ E2.cy = R) := by
  have key : ∀ (R : Int) (row : erow) (off : Nat), row_at E.editor_row R = some row →
      (∀ E2, editor_scroll { E with cy := R, cx := editor_row_rx_to_cx row (off : Int),
                                    rowoff := E.numrows } = some E2 →
        E2.rowoff = R ∧ E2.cy = R ∧ E2.rowoff ≤ E2.cy ∧ E2.cy < E2.rowoff + E2.row) ∧
      (∃ E2, editor_scroll { E with cy := R, cx := editor_row_rx_to_cx row (off : Int),
                                    rowoff := E.numrows } = some E2) := by
    intro R row off hr
    obtain ⟨r0, r1, _⟩ := row_at_some _ _ _ hr
    refine ⟨?_, ?_⟩
    · intro E2 h2
      obtain ⟨a1, a2, a3⟩ := scroll_above_window _ E2 h2 hrow
        (by show R < E.numrows; simp only [editor_config.numrows]; omega)
      have b1 : E2.rowoff = R := a1
      have b2 : E2.cy = R := a2
      have b3 : E2.row = E.row := a3
      exact ⟨b1, b2, by omega, by omega⟩
    · refine editor_scroll_defined _ r0 ?_
      intro _
      have hlen : rowlen { E with cy := R, cx := editor_row_rx_to_cx row (off : Int),
                                  rowoff := E.numrows } = row.size :=
        rowlen_of_row_at _ row hr
      rw [hlen]
      exact (editor_row_rx_to_cx_range row (off : Int)).2
  refine ⟨?_, ?_⟩
  · intro E1 S1 h
    rcases find_scan_shape E q S E1 S1 h with h1 | ⟨R, row, off, hr, hs, hE1, hS1⟩
    · exact Or.inl h1
    · right
      obtain ⟨_, r1, _⟩ := row_at_some _ _ _ hr
      obtain ⟨k1, k2⟩ := key R row off hr
      rw [hE1]
      exact ⟨R, row, hr, (strstr_some _ _ _ hs).1, hS1, rfl, rfl,
        by show R < E.numrows; simp only [editor_config.numrows]; omega, k1, k2⟩
  · intro hd hm hex
    obtain ⟨R, row, off, S1, hr, _, hS1, hfs⟩ := find_scan_found E q S hd hm hex
    obtain ⟨r0, r1, _⟩ := row_at_some _ _ _ hr
    obtain ⟨k1, E2, k2⟩ := key R row off hr
    obtain ⟨b1, b2, _, _⟩ := k1 E2 k2
    exact ⟨_, S1, E2, R, hfs, r0, by simp only [editor_config.numrows]; omega, hS1, rfl, rfl,
      k2, b1, b2⟩

/-- Witness of C24: the query `"wor"` on `["hello", "world"]` stops on row 1 with
`rowoff = 2`, and the next scroll gives `rowoff = 1`. -/
theorem C24_viewport_snap_witness :
    (∃ (E1 : editor_config) (S1 : find_state) (E2 : editor_config) (R : Int),
      find_scan (mk_doc [[104, 101, 108, 108, 111], [119, 111, 114, 108, 100]] 0 0)
        [119, 111, 114] { last_match := -1, direction := 1 } = some (E1, S1) ∧
      0 ≤ R ∧ R < 2 ∧ S1.last_match = R ∧ E1.cy = R ∧ E1.rowoff = 2 ∧
      editor_scroll E1 = some E2 ∧ E2.rowoff = R ∧ E2.cy = R) ∧
    (find_scan (mk_doc [[104, 101, 108, 108, 111], [119, 111, 114, 108, 100]] 0 0)
        [119, 111, 114] { last_match := -1, direction := 1 }).map
        (fun r => (r.1.cy, r.1.rowoff, (editor_scroll r.1).map editor_config.rowoff))
      = some (1, 2, some 1) :=
  ⟨(C24_viewport_snap (mk_doc [[104, 101, 108, 108, 111], [119, 111, 114, 108, 100]] 0 0)
      [119, 111, 114] { last_match := -1, direction := 1 } (by decide)).2
      (Or.inl rfl) (Or.inl rfl) ⟨mk_row [119, 111, 114, 108, 100], by decide, by decide⟩,
   by decide⟩

end Teditor
